import Mathlib

/-!
LeapFrog (minizero): action codec, move-text parser, game engine and console dispatcher

A shallow embedding of `src/minizero/environment/leapfrog/leapfrog.{h,cpp}` and of the
dispatcher and the command handlers of `src/minizero/console/console.cpp`.

* C++ `int` values are `Int`; `/` and `%` on them are the truncating `Int.tdiv` and
  `Int.tmod`.  The engine is embedded on the integers: it exists on boards of size at most
  9 only, where no board arithmetic leaves the range of `int`.  The action codec, which is
  stated for every board size, is embedded a second time in the arithmetic of the 32-bit
  `int` (`coordinateToID32`, `getFromPos32`, `getDestPos32`, `midPos32`); the two embeddings
  agree while `8*n*n` fits in `int`.  The parser checks the range where it is observable
  (`std::stoi` and the row number minus one).
* The board size `board_size_` is an argument `board_size` of every operation; the action
  and the environment read the same configured value.  The claims are about positive board
  sizes (the code divides by `board_size_ * board_size_`).
* `std::bitset<64>` is a `Nat` read through `Nat.testBit`; the checked accessors `test`,
  `set` and `reset` raise `std::out_of_range` for a position outside `[0, 64)`.
* A `std::string` is a `List Char`, one `Char` per C++ `char`.
* The standard output of the console is the list of characters written so far; a command
  handler is a function from the argument list and the session to the new session and the
  replies it writes.  The search actor, whose classes are outside these sources, is a
  record of operations on an abstract session.
* Code that can raise or abort returns `Except Fault`.  The flag `ndebug` says whether the
  program was built with `NDEBUG`, which compiles the `assert`s out; the general statements
  below are proved for both builds.
-/

namespace minizero

/-! ## Action codec -/

/-- The constant `kNumDirections` of `leapfrog.h`. -/
def kNumDirections : Int := 8

/-- The if-chain of `LeapFrogAction::coordinateToID` that picks the direction
(`none` is the final `else { return -1; }`). -/
def coordinateDir (c1 r1 c2 r2 : Int) : Option Int :=
  if c2 = c1 ∧ r2 - r1 = 2 then some 0
  else if c2 - c1 = 2 ∧ r2 - r1 = 2 then some 1
  else if c2 - c1 = 2 ∧ r2 = r1 then some 2
  else if c2 - c1 = 2 ∧ r2 - r1 = -2 then some 3
  else if c2 = c1 ∧ r2 - r1 = -2 then some 4
  else if c2 - c1 = -2 ∧ r2 - r1 = -2 then some 5
  else if c2 - c1 = -2 ∧ r2 = r1 then some 6
  else if c2 - c1 = -2 ∧ r2 - r1 = 2 then some 7
  else none

/-- The function `LeapFrogAction::coordinateToID` (leapfrog.cpp 23-58), on the integers;
`coordinateToID32` is the same code in the arithmetic of `int`. -/
def coordinateToID (board_size c1 r1 c2 r2 : Int) : Int :=
  match coordinateDir c1 r1 c2 r2 with
  | none => -1
  | some dir =>
    let from_pos := r1 * board_size + c1
    (dir * (board_size * board_size)) + from_pos

/-- The function `LeapFrogAction::getFromPos` (leapfrog.cpp 90-93), on the integers;
`getFromPos32` is the same code in the arithmetic of `int`. -/
def getFromPos (board_size action_id : Int) : Int :=
  Int.tmod action_id (board_size * board_size)

/-- The function `LeapFrogAction::getDestPos` (leapfrog.cpp 96-142), on the integers; `rc`
is the pair `(row, col)` after the direction has been applied.  `getDestPos32` is the same
code in the arithmetic of `int`. -/
def getDestPos (board_size action_id : Int) : Int :=
  let spatial := board_size * board_size
  let dir := Int.tdiv action_id spatial
  let pos := Int.tmod action_id spatial
  let row := Int.tdiv pos board_size
  let col := Int.tmod pos board_size
  let rc : Int × Int :=
    if dir = 0 then (row + 2, col)
    else if dir = 1 then (row + 2, col + 2)
    else if dir = 2 then (row, col + 2)
    else if dir = 3 then (row - 2, col + 2)
    else if dir = 4 then (row - 2, col)
    else if dir = 5 then (row - 2, col - 2)
    else if dir = 6 then (row, col - 2)
    else if dir = 7 then (row + 2, col - 2)
    else (row, col)
  if rc.2 ≥ board_size ∨ rc.2 < 0 ∨ rc.1 ≥ board_size ∨ rc.1 < 0 then -1
  else rc.1 * board_size + rc.2

/-! ### The codec as the specification words it -/

/-- The eight two-square deltas `(Δcol, Δrow)` in the order N, NE, E, SE, S, SW, W, NW. -/
def twoSquareDeltas : List (Int × Int) :=
  [(0, 2), (2, 2), (2, 0), (2, -2), (0, -2), (-2, -2), (-2, 0), (-2, 2)]

/-- The square `(row, col)` reached from the source square of `action_id` by moving two
squares in its direction: source `action_id mod n*n`, direction `action_id / (n*n)`. -/
def specTarget (n action_id : Int) : Int × Int :=
  let src := action_id % (n * n)
  let delta := twoSquareDeltas.getD (action_id / (n * n)).toNat (0, 0)
  (src / n + delta.2, src % n + delta.1)

/-- The square `(row, col)` exactly between the source square of `action_id` and the
square two squares away in its direction: the source moved by half the delta. -/
def specMidpoint (n action_id : Int) : Int × Int :=
  let src := action_id % (n * n)
  let delta := twoSquareDeltas.getD (action_id / (n * n)).toNat (0, 0)
  (src / n + delta.2 / 2, src % n + delta.1 / 2)

/-- The bitboard index `row * n + col` of a square `(row, col)`. -/
def squareIndex (n : Int) (rc : Int × Int) : Int := rc.1 * n + rc.2

/-- A square `(row, col)` lies on the `n` by `n` board. -/
def onBoard (n : Int) (rc : Int × Int) : Prop :=
  0 ≤ rc.1 ∧ rc.1 < n ∧ 0 ≤ rc.2 ∧ rc.2 < n

instance (n : Int) (rc : Int × Int) : Decidable (onBoard n rc) := by
  unfold onBoard; infer_instance

/-! ## Move text -/

/-- The ways a call can end other than by returning. -/
inductive Fault
  /-- The condition of an `assert` is false, in a build without `NDEBUG`. -/
  | assertion
  /-- The exception `std::out_of_range` (`bitset::test/set/reset`, `string::substr`, `std::stoi`). -/
  | out_of_range
  /-- The exception `std::invalid_argument` (`std::stoi` finds no digits). -/
  | invalid_argument
  /-- Undefined behaviour: an unchecked index out of bounds, or signed overflow. -/
  | undefined
  deriving DecidableEq, Repr

instance {α : Type} [DecidableEq α] : DecidableEq (Except Fault α) := fun a b =>
  match a, b with
  | .ok x, .ok y => if h : x = y then isTrue (by rw [h]) else isFalse (fun e => h (Except.ok.inj e))
  | .error x, .error y =>
    if h : x = y then isTrue (by rw [h]) else isFalse (fun e => h (Except.error.inj e))
  | .ok _, .error _ => isFalse (fun e => Except.noConfusion e)
  | .error _, .ok _ => isFalse (fun e => Except.noConfusion e)

/-- The C macro `assert(cond)`: compiled out when `ndebug` is set, otherwise the program
aborts when the condition is false. -/
def cassert (ndebug : Bool) (cond : Bool) : Except Fault Unit :=
  if ndebug || cond then .ok () else .error .assertion

/-- The function `LeapFrogAction::charToPos` (leapfrog.cpp 12-20). -/
def charToPos (ndebug : Bool) (c : Char) : Except Fault Int :=
  let c := c.toUpper
  if 'A' ≤ c ∧ c ≤ 'Z' ∧ c ≠ 'I' then
    .ok ((c.toNat : Int) - ('A'.toNat : Int) - (if c > 'I' then 1 else 0))
  else do
    cassert ndebug false
    pure (-1)

/-- The C library predicate `isspace` in the "C" locale. -/
def isspace (c : Char) : Bool :=
  c.toNat = 32 || (9 ≤ c.toNat && c.toNat ≤ 13)

/-- The C library predicate `isdigit`, also membership in the set "0123456789". -/
def isdigit (c : Char) : Bool :=
  48 ≤ c.toNat && c.toNat ≤ 57

/-- The value of a run of decimal digits. -/
def digitsValue (ds : List Char) : Nat :=
  ds.foldl (fun acc c => 10 * acc + (c.toNat - '0'.toNat)) 0

/-- The library function `std::stoi(str)` (base 10): skip leading white space, read an
optional sign and the longest run of digits; `std::invalid_argument` when there is no
digit, `std::out_of_range` when the value does not fit in a 32-bit `int`. -/
def stoi (str : List Char) : Except Fault Int :=
  let s := str.dropWhile isspace
  let signed : Bool × List Char :=
    match s with
    | [] => (false, s)
    | c :: t => if c = '-' then (true, t) else if c = '+' then (false, t) else (false, s)
  let ds := signed.2.takeWhile isdigit
  if ds.isEmpty then .error .invalid_argument
  else
    let v : Int := if signed.1 then -(digitsValue ds : Int) else (digitsValue ds : Int)
    if v < -2147483648 ∨ 2147483647 < v then .error .out_of_range else .ok v

/-- The call `str.find_first_not_of("0123456789", pos)` stored in an `int`: the index of
the first non-digit at or after `pos`, and `-1` (`npos`) when there is none. -/
def find_first_not_of_digits (str : List Char) (pos : Nat) : Int :=
  let k := ((str.drop pos).takeWhile isdigit).length
  if pos + k < str.length then ((pos + k : Nat) : Int) else -1

/-- The conversion of an `int` to the 64-bit `size_t`. -/
def to_size_t (i : Int) : Nat :=
  if i < 0 then (18446744073709551616 + i).toNat else i.toNat

/-- The library function `std::string::substr(pos, count)`. -/
def substr (str : List Char) (pos count : Nat) : Except Fault (List Char) :=
  if pos > str.length then .error .out_of_range else .ok ((str.drop pos).take count)

/-- The unchecked `std::string::operator[]` with an `int` index: the terminating
null character at index `size()`, undefined behaviour beyond. -/
def strAt (str : List Char) (i : Int) : Except Fault Char :=
  if 0 ≤ i ∧ i < str.length then .ok (str.getD i.toNat (Char.ofNat 0))
  else if i = str.length then .ok (Char.ofNat 0)
  else .error .undefined

/-- An `int` result of a subtraction; overflow is undefined behaviour. -/
def checkedInt (x : Int) : Except Fault Int :=
  if -2147483648 ≤ x ∧ x ≤ 2147483647 then .ok x else .error .undefined

/-- The function `LeapFrogAction::actionStringToID` (leapfrog.cpp 60-87).  The argument
list is `[player, move]`, as passed by the console. -/
def actionStringToID (ndebug : Bool) (board_size : Int) (action_string_args : List (List Char)) :
    Except Fault Int := do
  cassert ndebug (action_string_args.length == 2)
  match action_string_args with
  | [] => .error .undefined
  | arg0 :: rest =>
    cassert ndebug (arg0.length == 1)
    match rest with
    | [] => .error .undefined
    | command_str :: _ =>
      let dest_pos_idx := find_first_not_of_digits command_str 1
      let r1_r ← stoi (← substr command_str 1 (to_size_t dest_pos_idx))
      let r2_r ← stoi (← substr command_str (to_size_t (dest_pos_idx + 1))
        (command_str.length - to_size_t (dest_pos_idx + 1)))
      let r1 ← checkedInt (r1_r - 1)
      let r2 ← checkedInt (r2_r - 1)
      let c1 ← charToPos ndebug (← strAt command_str 0)
      let c2 ← charToPos ndebug (← strAt command_str dest_pos_idx)
      if r1 < 0 ∨ r2 < 0 ∨ c1 < 0 ∨ c2 < 0 then
        pure (-1)
      else if r1 ≥ board_size ∨ r2 ≥ board_size ∨ c1 ≥ board_size ∨ c2 ≥ board_size then
        pure (-1)
      else
        pure (coordinateToID board_size c1 r1 c2 r2)

/-- The library function `std::to_string(int)`. -/
def to_string (x : Int) : List Char := (toString x).toList

/-- The conversion of an `int` to `char`: the low eight bits. -/
def to_char (x : Int) : Char := Char.ofNat (x % 256).toNat

/-- The function `LeapFrogAction::actionIDtoString` (leapfrog.cpp 145-159). -/
def actionIDtoString (board_size action_id : Int) : List Char :=
  let pos := getFromPos board_size action_id
  let row := Int.tdiv pos board_size
  let col := Int.tmod pos board_size
  let dest_pos := getDestPos board_size action_id
  let dest_row := Int.tdiv dest_pos board_size
  let dest_col := Int.tmod dest_pos board_size
  let col_c := to_char (('a'.toNat : Int) + col +
    (if ('a'.toNat : Int) + col ≥ ('i'.toNat : Int) then 1 else 0))
  let dest_col_c := to_char (('a'.toNat : Int) + dest_col +
    (if ('a'.toNat : Int) + dest_col ≥ ('i'.toNat : Int) then 1 else 0))
  [col_c] ++ to_string (row + 1) ++ [dest_col_c] ++ to_string (dest_row + 1)

/-! ### Move texts as the specification words them -/

/-- A column letter: an ASCII letter other than the reserved `i` and `I`. -/
def isColumnLetter (c : Char) : Prop :=
  ((65 ≤ c.toNat ∧ c.toNat ≤ 90) ∨ (97 ≤ c.toNat ∧ c.toNat ≤ 122)) ∧ c ≠ 'i' ∧ c ≠ 'I'

instance (c : Char) : Decidable (isColumnLetter c) := by
  unfold isColumnLetter; infer_instance

/-- The zero-based column of a letter: its index in the alphabet without regard to case,
the letters after `i` shifted down by one. -/
def letterIndex (c : Char) : Int :=
  let k : Int := (c.toLower.toNat : Int) - ('a'.toNat : Int)
  if k > 8 then k - 1 else k

/-- A non-empty run of decimal digits. -/
def isRowNumber (ds : List Char) : Prop :=
  ds ≠ [] ∧ ∀ c ∈ ds, 48 ≤ c.toNat ∧ c.toNat ≤ 57

instance (ds : List Char) : Decidable (isRowNumber ds) := by
  unfold isRowNumber; infer_instance

/-- The id the specification gives to a move text with columns `l1`, `l2` and row numbers
`ds1`, `ds2`: `-1` when a zero-based row or column is negative or not below the board
size, and `coordinateToID` of the zero-based coordinates otherwise. -/
def specParse (n : Int) (l1 : Char) (ds1 : List Char) (l2 : Char) (ds2 : List Char) : Int :=
  let r1 : Int := (digitsValue ds1 : Int) - 1
  let r2 : Int := (digitsValue ds2 : Int) - 1
  let c1 := letterIndex l1
  let c2 := letterIndex l2
  if r1 < 0 ∨ r2 < 0 ∨ c1 < 0 ∨ c2 < 0 ∨ r1 ≥ n ∨ r2 ≥ n ∨ c1 ≥ n ∨ c2 ≥ n then -1
  else coordinateToID n c1 r1 c2 r2

/-! ## Game engine -/

/-- The enumeration `Player`.
Modelled from the spec: `base_env.h`, which declares `Player`, `getNextPlayer` and
`GamePair`, is not among the sources; the spec gives "tagged value in {None, Player1,
Player2}". -/
inductive Player
  | kPlayerNone
  | kPlayer1
  | kPlayer2
  deriving DecidableEq, Repr

/-- The function `getNextPlayer(player, kLeapFrogNumPlayer)`.
Modelled from the spec: `base_env.h` is not among the sources; the spec gives
"Alternation is strict: next(Player1)=Player2, next(Player2)=Player1".  The value at
`kPlayerNone` is not specified; no claim below depends on it. -/
def getNextPlayer : Player → Player
  | .kPlayer1 => .kPlayer2
  | .kPlayer2 => .kPlayer1
  | .kPlayerNone => .kPlayerNone

/-- The type `LeapFrogBitboard = std::bitset<kLeapFrogBoardSize * kLeapFrogBoardSize>`
(leapfrog.h 16): 64 bits, bit `i` read with `Nat.testBit`. -/
abbrev LeapFrogBitboard := Nat

/-- The library function `std::bitset<64>::test(pos)`, called with an `int`. -/
def LeapFrogBitboard.test (b : LeapFrogBitboard) (pos : Int) : Except Fault Bool :=
  if 0 ≤ pos ∧ pos < 64 then .ok (b.testBit pos.toNat) else .error .out_of_range

/-- The library function `std::bitset<64>::set(pos)`, called with an `int`. -/
def LeapFrogBitboard.set (b : LeapFrogBitboard) (pos : Int) : Except Fault LeapFrogBitboard :=
  if 0 ≤ pos ∧ pos < 64 then .ok (b ||| 2 ^ pos.toNat) else .error .out_of_range

/-- The library function `std::bitset<64>::reset(pos)`, called with an `int`. -/
def LeapFrogBitboard.reset (b : LeapFrogBitboard) (pos : Int) : Except Fault LeapFrogBitboard :=
  if 0 ≤ pos ∧ pos < 64 then .ok (b ^^^ (b &&& 2 ^ pos.toNat)) else .error .out_of_range

/-- The class `GamePair<LeapFrogBitboard>`: one bitboard per player.
Modelled from the spec: `base_env.h` is not among the sources; the spec gives "a pair of
Bitboards (one per player)". -/
structure GamePair where
  player1 : LeapFrogBitboard
  player2 : LeapFrogBitboard
  deriving DecidableEq, Repr

/-- The accessor `GamePair::get(player)`, read.  Modelled from the spec (see `GamePair`);
for `kPlayerNone` it yields the second board, and no claim below depends on that. -/
def GamePair.get (g : GamePair) (p : Player) : LeapFrogBitboard :=
  if p = .kPlayer1 then g.player1 else g.player2

/-- The accessor `GamePair::get(player)`, written through the returned reference. -/
def GamePair.put (g : GamePair) (p : Player) (b : LeapFrogBitboard) : GamePair :=
  if p = .kPlayer1 then { g with player1 := b } else { g with player2 := b }

/-- The class `LeapFrogAction`: the fields `action_id_` and `player_` of `BaseAction`. -/
structure LeapFrogAction where
  action_id : Int
  player : Player
  deriving DecidableEq, Repr

/-- The class `LeapFrogEnv`: the fields `turn_` and `actions_` of `BaseBoardEnv` and the
fields `bitboard_` and `bitboard_history_` (leapfrog.h 76-77).  The field `board_size_`,
which never changes, is an argument of every operation. -/
structure LeapFrogEnv where
  turn_ : Player
  actions_ : List LeapFrogAction
  bitboard_ : GamePair
  bitboard_history_ : List GamePair
  deriving DecidableEq, Repr

/-- The function `LeapFrogEnv::getPlayerAtBoardPos` (leapfrog.cpp 393-401). -/
def getPlayerAtBoardPos (env : LeapFrogEnv) (position : Int) : Except Fault Player := do
  if (← (env.bitboard_.get .kPlayer1).test position) then
    pure .kPlayer1
  else if (← (env.bitboard_.get .kPlayer2).test position) then
    pure .kPlayer2
  else
    pure .kPlayerNone

/-- The function `LeapFrogEnv::isLegalAction` (leapfrog.cpp 269-290). -/
def isLegalAction (ndebug : Bool) (board_size : Int) (env : LeapFrogEnv)
    (action : LeapFrogAction) : Except Fault Bool :=
  if action.player ≠ env.turn_ then pure false
  else do
    cassert ndebug (decide (action.action_id ≥ 0 ∧
      action.action_id < kNumDirections * board_size * board_size))
    let pos := getFromPos board_size action.action_id
    if (← getPlayerAtBoardPos env pos) ≠ action.player then pure false
    else
      let dest_pos := getDestPos board_size action.action_id
      if dest_pos = -1 then pure false
      else do
        let mid_pos := Int.tdiv (pos + dest_pos) 2
        if (← getPlayerAtBoardPos env mid_pos) = .kPlayerNone then pure false
        else if (← getPlayerAtBoardPos env dest_pos) = .kPlayerNone then pure true
        else pure false

/-- The function `LeapFrogEnv::act` (leapfrog.cpp 224-251): the returned flag and the
environment after the call. -/
def act (ndebug : Bool) (board_size : Int) (env : LeapFrogEnv) (action : LeapFrogAction) :
    Except Fault (Bool × LeapFrogEnv) := do
  if !(← isLegalAction ndebug board_size env action) then pure (false, env)
  else
    let from_pos := getFromPos board_size action.action_id
    let dest_pos := getDestPos board_size action.action_id
    let b1 ← (env.bitboard_.get action.player).reset from_pos
    let bb1 := env.bitboard_.put action.player b1
    let cap_pos := Int.tdiv (from_pos + dest_pos) 2
    let next := getNextPlayer action.player
    let bb2 ←
      if (← (bb1.get next).test cap_pos) then do
        let b2 ← (bb1.get next).reset cap_pos
        pure (bb1.put next b2)
      else pure bb1
    let b3 ← (bb2.get action.player).set dest_pos
    let bb3 := bb2.put action.player b3
    pure (true, { turn_ := next
                  actions_ := env.actions_ ++ [action]
                  bitboard_ := bb3
                  bitboard_history_ := env.bitboard_history_ ++ [bb3] })

/-- The loop of `LeapFrogEnv::getLegalActions` over the candidate ids. -/
def getLegalActionsLoop (ndebug : Bool) (board_size : Int) (env : LeapFrogEnv) :
    List Nat → Except Fault (List LeapFrogAction)
  | [] => pure []
  | pos :: rest => do
    let action : LeapFrogAction := { action_id := (pos : Int), player := env.turn_ }
    let legal ← isLegalAction ndebug board_size env action
    let actions ← getLegalActionsLoop ndebug board_size env rest
    pure (if legal then action :: actions else actions)

/-- The function `LeapFrogEnv::getLegalActions` (leapfrog.cpp 258-267). -/
def getLegalActions (ndebug : Bool) (board_size : Int) (env : LeapFrogEnv) :
    Except Fault (List LeapFrogAction) :=
  getLegalActionsLoop ndebug board_size env
    (List.range (kNumDirections * board_size * board_size).toNat)

/-- The squares that `LeapFrogEnv::reset` gives to Player 1 (leapfrog.cpp 183-199), in the
order of the calls. -/
def resetPlayer1 (board_size : Int) : List Int :=
  [6 * board_size + 4, 5 * board_size + 2, 5 * board_size + 3, 4 * board_size + 2,
   4 * board_size + 4, 4 * board_size + 6, 3 * board_size + 1, 3 * board_size + 3,
   3 * board_size + 5, 2 * board_size + 4, 2 * board_size + 5, 1 * board_size + 3]

/-- The squares that `LeapFrogEnv::reset` gives to Player 2 (leapfrog.cpp 202-218), in the
order of the calls. -/
def resetPlayer2 (board_size : Int) : List Int :=
  [6 * board_size + 3, 5 * board_size + 4, 5 * board_size + 5, 4 * board_size + 1,
   4 * board_size + 3, 4 * board_size + 5, 3 * board_size + 2, 3 * board_size + 4,
   3 * board_size + 6, 2 * board_size + 2, 2 * board_size + 3, 1 * board_size + 4]

/-- A run of `bitset::set` calls on one board. -/
def setAll (b : LeapFrogBitboard) : List Int → Except Fault LeapFrogBitboard
  | [] => pure b
  | pos :: rest => do
    let b1 ← b.set pos
    setAll b1 rest

/-- The function `LeapFrogEnv::reset` (leapfrog.cpp 162-222); it reads nothing of the
environment it is called on. -/
def reset (board_size : Int) : Except Fault LeapFrogEnv := do
  let p1 ← setAll 0 (resetPlayer1 board_size)
  let p2 ← setAll 0 (resetPlayer2 board_size)
  let bitboard : GamePair := { player1 := p1, player2 := p2 }
  pure { turn_ := .kPlayer1, actions_ := [], bitboard_ := bitboard,
         bitboard_history_ := [bitboard] }

/-- The environment after `reset()` on the 8 by 8 board. -/
def initialEnv : LeapFrogEnv :=
  { turn_ := .kPlayer1, actions_ := []
    bitboard_ := { player1 := 4517155251947520, player2 := 2304758170521600 }
    bitboard_history_ := [{ player1 := 4517155251947520, player2 := 2304758170521600 }] }

/-- The player that `getPlayerAtBoardPos` reports for the in-range square `i`. -/
def ownerAt (g : GamePair) (i : Nat) : Player :=
  if g.player1.testBit i then .kPlayer1
  else if g.player2.testBit i then .kPlayer2
  else .kPlayerNone

/-- The square with bitboard index `sq` holds a piece of player `p`: the bit of that
player's board is set.  The absent player `kPlayerNone` holds no piece. -/
def holdsPiece (g : GamePair) (p : Player) (sq : Int) : Prop :=
  match p with
  | .kPlayer1 => 0 ≤ sq ∧ g.player1.testBit sq.toNat = true
  | .kPlayer2 => 0 ≤ sq ∧ g.player2.testBit sq.toNat = true
  | .kPlayerNone => False

instance (g : GamePair) (p : Player) (sq : Int) : Decidable (holdsPiece g p sq) := by
  unfold holdsPiece; cases p <;> infer_instance

/-- The five conditions of the specification for a legal jump, stated on the bits of the
two boards and the squares of the board. -/
def legalConditions (n : Int) (env : LeapFrogEnv) (a : LeapFrogAction) : Prop :=
  a.player = env.turn_ ∧
  holdsPiece env.bitboard_ a.player (a.action_id % (n * n)) ∧
  onBoard n (specTarget n a.action_id) ∧
  (holdsPiece env.bitboard_ .kPlayer1 (squareIndex n (specMidpoint n a.action_id)) ∨
   holdsPiece env.bitboard_ .kPlayer2 (squareIndex n (specMidpoint n a.action_id))) ∧
  (¬ holdsPiece env.bitboard_ .kPlayer1 (squareIndex n (specTarget n a.action_id)) ∧
   ¬ holdsPiece env.bitboard_ .kPlayer2 (squareIndex n (specTarget n a.action_id)))

instance (n : Int) (env : LeapFrogEnv) (a : LeapFrogAction) :
    Decidable (legalConditions n env a) := by
  unfold legalConditions; infer_instance

/-- The three bitset updates of `act` on the pair of boards: clear bit `s` of the mover,
clear bit `m` of the opponent when it is set, set bit `t` of the mover. -/
def jumpBoards (g : GamePair) (p : Player) (s t m : Nat) : GamePair :=
  let b1 := g.get p
  let bb1 := g.put p (b1 ^^^ (b1 &&& 2 ^ s))
  let next := getNextPlayer p
  let b2 := bb1.get next
  let bb2 := if b2.testBit m then bb1.put next (b2 ^^^ (b2 &&& 2 ^ m)) else bb1
  bb2.put p (bb2.get p ||| 2 ^ t)

/-- The success path of `act` with the range checks of the bitset accessors taken as
passed: the environment `act` leaves behind for an accepted action. -/
def applyJump (board_size : Int) (env : LeapFrogEnv) (action : LeapFrogAction) : LeapFrogEnv :=
  let from_pos := (getFromPos board_size action.action_id).toNat
  let dest_pos := (getDestPos board_size action.action_id).toNat
  let cap_pos := (Int.tdiv (getFromPos board_size action.action_id +
    getDestPos board_size action.action_id) 2).toNat
  let b1 := env.bitboard_.get action.player
  let bb1 := env.bitboard_.put action.player (b1 ^^^ (b1 &&& 2 ^ from_pos))
  let next := getNextPlayer action.player
  let b2 := bb1.get next
  let bb2 := if b2.testBit cap_pos then bb1.put next (b2 ^^^ (b2 &&& 2 ^ cap_pos)) else bb1
  let bb3 := bb2.put action.player (bb2.get action.player ||| 2 ^ dest_pos)
  { turn_ := next
    actions_ := env.actions_ ++ [action]
    bitboard_ := bb3
    bitboard_history_ := env.bitboard_history_ ++ [bb3] }

/-! ## Reachable states, termination and scores -/

/-- The number of pieces on a bitboard: the number of set bits among its 64. -/
def pieceCount (b : LeapFrogBitboard) : Nat :=
  (List.range 64).countP (fun i => b.testBit i)

/-- The diagram in the comment of `LeapFrogEnv::reset` (leapfrog.cpp 171-180), rows 8
down to 1, columns A to H; `O` is Player 1 (Black) and `X` is Player 2 (White). -/
def startDiagram : List (List Char) :=
  [". . . . . . . .".toList,
   ". . . X O . . .".toList,
   ". . O O X X . .".toList,
   ". X O X O X O .".toList,
   ". O X O X O X .".toList,
   ". . X X O O . .".toList,
   ". . . O X . . .".toList,
   ". . . . . . . .".toList]

/-- The player the diagram shows on the square of zero-based `row` and `col`. -/
def diagramPlayer (row col : Nat) : Player :=
  match (startDiagram.getD (7 - row) []).getD (2 * col) '.' with
  | 'O' => .kPlayer1
  | 'X' => .kPlayer2
  | _ => .kPlayerNone

/-- The function `LeapFrogEnv::isTerminal` (leapfrog.cpp 292-299). -/
def isTerminal (ndebug : Bool) (board_size : Int) (env : LeapFrogEnv) : Except Fault Bool :=
  if (env.actions_.length : Int) > 5 * board_size * board_size then pure true
  else do
    let actions ← getLegalActions ndebug board_size env
    pure actions.isEmpty

/-- The engine states reachable from `reset()` by a sequence of `act` calls, accepted
(`flag = true`) or rejected. -/
inductive Reachable (ndebug : Bool) (n : Int) : LeapFrogEnv → Prop
  | start {env : LeapFrogEnv} : reset n = .ok env → Reachable ndebug n env
  | step {env env' : LeapFrogEnv} {flag : Bool} (a : LeapFrogAction) :
      Reachable ndebug n env → act ndebug n env a = .ok (flag, env') → Reachable ndebug n env'

/-- The invariants of the engine state that tie the turn and the history to the action
list. -/
def HistoryInvariant (env : LeapFrogEnv) : Prop :=
  env.turn_ ≠ .kPlayerNone ∧
  env.bitboard_history_.length = env.actions_.length + 1 ∧
  env.bitboard_history_.getLast? = some env.bitboard_ ∧
  (env.turn_ = .kPlayer1 ↔ env.actions_.length % 2 = 0) ∧
  (env.turn_ = .kPlayer2 ↔ env.actions_.length % 2 = 1)

/-- The function `LeapFrogEnv::eval` (leapfrog.cpp 386-391). -/
def eval (ndebug : Bool) (board_size : Int) (env : LeapFrogEnv) : Except Fault Player := do
  if (← getLegalActions ndebug board_size env).isEmpty then pure (getNextPlayer env.turn_)
  else pure .kPlayerNone

/-- The function `LeapFrogEnv::getEvalScore` (leapfrog.cpp 301-311).  The `float` results
`1.0f + offset`, `-1.0f - offset` and `0.0f` are the rationals of the decimal constants in
the source; rounding to binary32 changes neither their sign nor which of the three a
result is. -/
def getEvalScore (ndebug : Bool) (board_size : Int) (env : LeapFrogEnv) (is_resign : Bool) :
    Except Fault Rat := do
  let result ← if is_resign then pure (getNextPlayer env.turn_) else eval ndebug board_size env
  let offset : Rat := 1 / 100000
  match result with
  | .kPlayer1 => pure (1 + offset)
  | .kPlayer2 => pure (-1 - offset)
  | _ => pure 0

/-- The function `LeapFrogEnv::getRotateAction` (leapfrog.h 69): the identity on the
action id, whatever the rotation. -/
def getRotateAction {Rotation : Type} (action_id : Int) (_rotation : Rotation) : Int :=
  action_id

/-- The function `LeapFrogEnv::getRotatePosition` (leapfrog.h 68): the identity on the
position, whatever the rotation. -/
def getRotatePosition {Rotation : Type} (position : Int) (_rotation : Rotation) : Int :=
  position

/-- The function `LeapFrogEnv::getPolicySize` (leapfrog.h 63). -/
def getPolicySize (board_size : Int) : Int :=
  kNumDirections * board_size * board_size

/-- The unchecked write `v[i] = x` into a `std::vector<float>` with an `int` index;
out of bounds it is undefined behaviour. -/
def vectorSet (v : List Rat) (i : Int) (x : Rat) : Except Fault (List Rat) :=
  if 0 ≤ i ∧ i < v.length then .ok (v.set i.toNat x) else .error .undefined

/-- The function `LeapFrogEnv::getActionFeatures` (leapfrog.cpp 344-350).  The type
`utils::Rotation` is declared outside the sources and is a parameter. -/
def getActionFeatures {Rotation : Type} (board_size : Int) (action : LeapFrogAction)
    (rotation : Rotation) : Except Fault (List Rat) :=
  let action_features : List Rat := List.replicate (getPolicySize board_size).toNat 0
  vectorSet action_features (getRotateAction action.action_id rotation) 1

/-! ## Feature vectors -/

/-- The function `LeapFrogEnv::getNumInputChannels` (leapfrog.h 57). -/
def getNumInputChannels : Int := 18

/-- The unchecked read `bitboard_history_[i]` with an `int` index. -/
def snapshotAt (history : List GamePair) (i : Int) : Except Fault GamePair :=
  match (if 0 ≤ i then history.get? i.toNat else none) with
  | some g => .ok g
  | none => .error .undefined

/-- The inner loop of `LeapFrogEnv::getFeatures` (leapfrog.cpp 329-333) over the
positions, for the channel pair `c`, `c + 1`. -/
def writeOccupancy {Rotation : Type} (reversed : Rotation)
    (own_bitboard opponent_bitboard : LeapFrogBitboard) (spatial c : Int) :
    List Nat → List Rat → Except Fault (List Rat)
  | [], features => pure features
  | pos :: rest, features => do
    let rotation_pos := getRotatePosition (pos : Int) reversed
    let own ← own_bitboard.test rotation_pos
    let f1 ← vectorSet features ((pos : Int) + c * spatial) (if own then 1 else 0)
    let opp ← opponent_bitboard.test rotation_pos
    let f2 ← vectorSet f1 ((pos : Int) + (c + 1) * spatial) (if opp then 1 else 0)
    writeOccupancy reversed own_bitboard opponent_bitboard spatial c rest f2

/-- The outer loop of `LeapFrogEnv::getFeatures` (leapfrog.cpp 326-334): the list holds
the values of `c / 2`, that is `c = 0, 2, 4, ...`. -/
def writeHistory {Rotation : Type} (reversed : Rotation) (env : LeapFrogEnv)
    (spatial last_idx : Int) : List Nat → List Rat → Except Fault (List Rat)
  | [], features => pure features
  | k :: rest, features => do
    let c : Int := 2 * (k : Int)
    let snapshot ← snapshotAt env.bitboard_history_ (last_idx - Int.tdiv c 2)
    let own_bitboard := snapshot.get env.turn_
    let opponent_bitboard := snapshot.get (getNextPlayer env.turn_)
    let f1 ← writeOccupancy reversed own_bitboard opponent_bitboard spatial c
      (List.range spatial.toNat) features
    writeHistory reversed env spatial last_idx rest f1

/-- The last loop of `LeapFrogEnv::getFeatures` (leapfrog.cpp 337-340). -/
def writeTurn (turn : Player) (spatial : Int) : List Nat → List Rat → Except Fault (List Rat)
  | [], features => pure features
  | pos :: rest, features => do
    let f1 ← vectorSet features ((pos : Int) + 16 * spatial) (if turn = .kPlayer1 then 1 else 0)
    let f2 ← vectorSet f1 ((pos : Int) + 17 * spatial) (if turn = .kPlayer2 then 1 else 0)
    writeTurn turn spatial rest f2

/-- The function `LeapFrogEnv::getFeatures` (leapfrog.cpp 313-342); `float` values are
rationals.  The type `utils::Rotation` and the table `utils::reversed_rotation` are
declared outside the sources and are parameters. -/
def getFeatures {Rotation : Type} (reversed_rotation : Rotation → Rotation)
    (board_size : Int) (env : LeapFrogEnv) (rotation : Rotation) : Except Fault (List Rat) := do
  let past_moves : Int := min 8 (env.bitboard_history_.length : Int)
  let spatial := board_size * board_size
  let features : List Rat := List.replicate (getNumInputChannels * spatial).toNat 0
  let last_idx : Int := (env.bitboard_history_.length : Int) - 1
  let f1 ← writeHistory (reversed_rotation rotation) env spatial last_idx
    (List.range past_moves.toNat) features
  writeTurn env.turn_ spatial (List.range spatial.toNat) f1

/-- The value the specification gives to entry `i` of the feature vector: plane
`i / area`, square `i mod area`; planes `2k` and `2k + 1` hold the occupancy of the side
to move and of its opponent in the `k`-th most recent snapshot (zero when there is no such
snapshot), planes 16 and 17 flag the turn. -/
def featureAt (n : Int) (env : LeapFrogEnv) (i : Nat) : Rat :=
  let area := (n * n).toNat
  let plane := i / area
  let pos := i % area
  if plane < 16 then
    match env.bitboard_history_.reverse.get? (plane / 2) with
    | some snapshot =>
      if (snapshot.get (if plane % 2 = 0 then env.turn_
          else getNextPlayer env.turn_)).testBit pos then 1 else 0
    | none => 0
  else if plane = 16 then (if env.turn_ = .kPlayer1 then 1 else 0)
  else (if env.turn_ = .kPlayer2 then 1 else 0)

/-- The list `f'` is `f` with the entries at the indices in `W` overwritten by `g`. -/
def WritesOf (g : Nat → Rat) (W : Nat → Prop) (f f' : List Rat) : Prop :=
  f'.length = f.length ∧
  ∀ i : Nat, i < f.length →
    (W i → f'.get? i = some (g i)) ∧ (¬ W i → f'.get? i = f.get? i)

/-! ## Console -/

/-- The enumeration `ConsoleResponse`.
Modelled from the spec: `console.h` is not among the sources; the spec gives "a
one-character status marker (success/failure)". -/
inductive ConsoleResponse
  | kFail
  | kSuccess
  deriving DecidableEq, Repr

/-- The class `Console`, as far as the dispatcher is concerned: `session` stands for the
members `network_` and `actor_` (with the actor's environment), which only the command
handlers and `initialize` touch; `output` is what has been written to `std::cout`. -/
structure Console (σ : Type) where
  session : σ
  command_id_ : List Char
  output : List Char

/-- A command handler `Console::cmd...(args)`: from the argument list and the session it
gives the new session and the calls of `reply(response, text)` it makes, in order.  The
handlers write to `std::cout` through `reply` only. -/
abbrev Handler (σ : Type) := List (List Char) → σ → Except Fault (σ × List (ConsoleResponse × List Char))

/-- The function `Console::reply` (console.cpp 364-367); `status` is the cast of the
response to `char`, whose values are declared outside the sources. -/
def Console.reply {σ : Type} (status : ConsoleResponse → Char) (c : Console σ)
    (response : ConsoleResponse) (reply : List Char) : Console σ :=
  { c with output := c.output ++ [status response] ++ c.command_id_ ++ [' '] ++ reply ++
      ['\n', '\n'] }

/-- The loop `while (std::getline(ss, tmp, ' ')) args.push_back(tmp)` of
`Console::executeCommand`: `tmp` is the token read so far and `extracted` says whether the
current `getline` has extracted a character. -/
def getlineLoop : List Char → List Char → Bool → List (List Char)
  | [], tmp, extracted => if extracted then [tmp] else []
  | ch :: rest, tmp, _ =>
    if ch = ' ' then tmp :: getlineLoop rest [] false
    else getlineLoop rest (tmp ++ [ch]) true

/-- The tokens of a command line. -/
def getlineTokens (command : List Char) : List (List Char) :=
  getlineLoop command [] false

/-- The test `!args[0].empty() && args[0].find_first_not_of("0123456789") == npos`. -/
def isCommandId (token : List Char) : Bool :=
  !token.isEmpty && token.all isdigit

/-- The unchecked read `args[0]` of a `std::vector<std::string>`. -/
def firstArg (args : List (List Char)) : Except Fault (List Char) :=
  match args with
  | [] => .error .undefined
  | a :: _ => .ok a

/-- The unchecked read `command.back()` of a `std::string`. -/
def back (command : List Char) : Except Fault Char :=
  match command.getLast? with
  | some ch => .ok ch
  | none => .error .undefined

/-- The function `Console::executeCommand` (console.cpp 71-93).  The registry
`function_map_`, the test `!network_ || !actor_` (`uninitialized`) and the member function
that then sets both up (`initialization`) are parameters. -/
def executeCommand {σ : Type} (status : ConsoleResponse → Char)
    (function_map_ : List Char → Option (Handler σ))
    (uninitialized : σ → Bool) (initialization : σ → Except Fault σ)
    (c : Console σ) (command : List Char) : Except Fault (Console σ) := do
  let session ← (if uninitialized c.session then initialization c.session else pure c.session)
  let c := { c with session := session }
  let last ← back command
  let command := if last = '\r' then command.dropLast else command
  if command.isEmpty then pure c
  else
    let args := getlineTokens command
    let c := { c with command_id_ := [] }
    let first ← firstArg args
    let c := if isCommandId first then { c with command_id_ := first } else c
    let args := if isCommandId first then args.tail else args
    let name ← firstArg args
    match function_map_ name with
    | none => pure (c.reply status .kFail ("Unknown command: ".toList ++ command))
    | some handler => do
      let (session', replies) ← handler args c.session
      pure (replies.foldl (fun c r => c.reply status r.1 r.2) { c with session := session' })

/-- The reply the protocol prescribes: the status character, the correlation id, one
space, the body, two newline characters. -/
def frameReply (status : ConsoleResponse → Char) (id : List Char)
    (r : ConsoleResponse × List Char) : List Char :=
  [status r.1] ++ id ++ [' '] ++ r.2 ++ ['\n', '\n']

/-- The line after the optional trailing carriage return is dropped. -/
def stripCR (command : List Char) : List Char :=
  if command.getLast? = some '\r' then command.dropLast else command

/-- A status-character table for concrete runs: `=` for success, `?` for failure. -/
def exampleStatus : ConsoleResponse → Char
  | .kSuccess => '='
  | .kFail => '?'

/-- A handler for concrete runs: it records the argument list it was called with as the
session and replies success with the body `ok`. -/
def exampleHandler : Handler (List (List Char)) :=
  fun args _ => .ok (args, [(ConsoleResponse.kSuccess, "ok".toList)])

/-- A registry for concrete runs, with the single command `showboard`. -/
def exampleRegistry : List Char → Option (Handler (List (List Char))) :=
  fun name => if name = "showboard".toList then some exampleHandler else none

/-! ## Symmetries of the board -/

/-- The eight symmetries of a square board: the four rotations and the four reflections. -/
inductive BoardSymmetry
  | identity
  | quarterTurn
  | halfTurn
  | threeQuarterTurn
  | mirrorColumns
  | mirrorRows
  | diagonal
  | antiDiagonal
  deriving DecidableEq, Repr

/-- The square that a symmetry sends the square `(row, col)` of the 8 by 8 board to. -/
def BoardSymmetry.apply : BoardSymmetry → Nat × Nat → Nat × Nat
  | .identity, rc => rc
  | .quarterTurn, rc => (rc.2, 7 - rc.1)
  | .halfTurn, rc => (7 - rc.1, 7 - rc.2)
  | .threeQuarterTurn, rc => (7 - rc.2, rc.1)
  | .mirrorColumns, rc => (rc.1, 7 - rc.2)
  | .mirrorRows, rc => (7 - rc.1, rc.2)
  | .diagonal, rc => (rc.2, rc.1)
  | .antiDiagonal, rc => (7 - rc.2, 7 - rc.1)

/-- A symmetry maps each player's set of occupied squares of the 8 by 8 board onto itself:
every square has the owner of its image (the symmetries are bijections of the squares). -/
def preservesLayout (s : BoardSymmetry) (g : GamePair) : Prop :=
  ∀ row : Nat, row < 8 → ∀ col : Nat, col < 8 →
    ownerAt g ((s.apply (row, col)).1 * 8 + (s.apply (row, col)).2) = ownerAt g (row * 8 + col)

instance (s : BoardSymmetry) (g : GamePair) : Decidable (preservesLayout s g) := by
  unfold preservesLayout; infer_instance

/-! ## Console commands -/

/-- The library constant `INT_MAX` of a 32-bit `int`. -/
def INT_MAX : Int := 2147483647

/-- The operations of the search actor `actor_` that the handlers below call, on a session
of type `σ`.
Modelled from the spec: the actor classes are not among the sources; the spec lists, as
consumed from the actor, "`reset()`, `act(args) -> bool`, `isEnvTerminal() -> bool`, ...,
`getEvalScore() -> float`, `getEnvironment() -> GameEngine&`". -/
structure Actor (σ : Type) where
  getEnvironment : σ → LeapFrogEnv
  reset : σ → Except Fault σ
  act : σ → List (List Char) → Except Fault (Bool × σ)
  isEnvTerminal : σ → Except Fault Bool
  getEvalScore : σ → Except Fault Rat

/-- The function `Console::checkArgument` (console.cpp 347-362): the returned flag and the
reply it writes.  The conversion `int size = args.size()` is exact for every argument list
of fewer than `2^31` tokens. -/
def checkArgument (args : List (List Char)) (min_argc max_argc : Int) :
    Bool × List (ConsoleResponse × List Char) :=
  let size : Int := args.length
  if size ≥ min_argc ∧ size ≤ max_argc then (true, [])
  else
    (false, [(.kFail, "command requires ".toList ++
      (if min_argc = max_argc then
        "exactly ".toList ++ to_string min_argc ++ " argument".toList ++
          (if min_argc = 1 then [] else "s".toList)
      else to_string min_argc ++ " to ".toList ++ to_string max_argc ++ " arguments".toList))])

/-- The function `LeapFrogEnv::getCoordinateString` (leapfrog.cpp 352-362). -/
def getCoordinateString (board_size : Int) : List Char :=
  "  ".toList ++
  ((List.range board_size.toNat).map (fun i : Nat =>
    " ".toList ++ [to_char (('A'.toNat : Int) + i +
      (if ('A'.toNat : Int) + i ≥ ('I'.toNat : Int) then 1 else 0))] ++ " ".toList)).flatten ++
  "   ".toList

/-- The inner loop of `LeapFrogEnv::toString` over the columns of one row. -/
def toStringCells (board_size : Int) (env : LeapFrogEnv) (row : Int) :
    List Nat → Except Fault (List Char)
  | [] => pure []
  | col :: rest => do
    let color ← getPlayerAtBoardPos env (row * board_size + col)
    let cell := if color = .kPlayer1 then " O ".toList
      else if color = .kPlayer2 then " X ".toList else " . ".toList
    let more ← toStringCells board_size env row rest
    pure (cell ++ more)

/-- The outer loop of `LeapFrogEnv::toString` over the rows, from the top row down. -/
def toStringRows (board_size : Int) (env : LeapFrogEnv) : List Nat → Except Fault (List Char)
  | [] => pure []
  | row :: rest => do
    let label := (if (row : Int) ≥ 9 then [] else " ".toList) ++ to_string ((row : Int) + 1)
    let cells ← toStringCells board_size env row (List.range board_size.toNat)
    let more ← toStringRows board_size env rest
    pure (label ++ " ".toList ++ cells ++ label ++ "\n".toList ++ more)

/-- The function `LeapFrogEnv::toString` (leapfrog.cpp 364-384); `std::endl` writes a
newline character. -/
def LeapFrogEnv.toString (board_size : Int) (env : LeapFrogEnv) : Except Fault (List Char) := do
  let rows ← toStringRows board_size env (List.range board_size.toNat).reverse
  pure (" ".toList ++ getCoordinateString board_size ++ "\n".toList ++ rows ++
    " ".toList ++ getCoordinateString board_size ++ "\n".toList)

/-- The function `Console::cmdName` (console.cpp 110-114). -/
def cmdName {σ : Type} : Handler σ := fun args s =>
  let check := checkArgument args 1 1
  if !check.1 then pure (s, check.2)
  else pure (s, [(.kSuccess, "minizero".toList)])

/-- The function `Console::cmdVersion` (console.cpp 116-120). -/
def cmdVersion {σ : Type} : Handler σ := fun args s =>
  let check := checkArgument args 1 1
  if !check.1 then pure (s, check.2)
  else pure (s, [(.kSuccess, "1.0".toList)])

/-- The function `Console::cmdProtocalVersion` (console.cpp 122-126). -/
def cmdProtocalVersion {σ : Type} : Handler σ := fun args s =>
  let check := checkArgument args 1 1
  if !check.1 then pure (s, check.2)
  else pure (s, [(.kSuccess, "2".toList)])

/-- The function `Console::cmdClearBoard` (console.cpp 128-133). -/
def cmdClearBoard {σ : Type} (actor : Actor σ) : Handler σ := fun args s =>
  let check := checkArgument args 1 1
  if !check.1 then pure (s, check.2)
  else do
    let s1 ← actor.reset s
    pure (s1, [(.kSuccess, [])])

/-- The function `Console::cmdShowBoard` (console.cpp 135-139). -/
def cmdShowBoard {σ : Type} (board_size : Int) (actor : Actor σ) : Handler σ := fun args s =>
  let check := checkArgument args 1 1
  if !check.1 then pure (s, check.2)
  else do
    let board ← LeapFrogEnv.toString board_size (actor.getEnvironment s)
    pure (s, [(.kSuccess, "\n".toList ++ board)])

/-- The unchecked read `args[i]` of a `std::vector<std::string>`. -/
def vectorAt (args : List (List Char)) (i : Nat) : Except Fault (List Char) :=
  match args.get? i with
  | some a => .ok a
  | none => .error .undefined

/-- The function `Console::cmdPlay` (console.cpp 141-149); character 34 is the double
quote. -/
def cmdPlay {σ : Type} (actor : Actor σ) : Handler σ := fun args s =>
  let check := checkArgument args 3 INT_MAX
  if !check.1 then pure (s, check.2)
  else do
    let action_string ← vectorAt args 2
    let act_args := args.drop 1
    let (accepted, s1) ← actor.act s act_args
    if accepted then pure (s1, [(.kSuccess, [])])
    else if (← actor.isEnvTerminal s1) then pure (s1, [(.kSuccess, [])])
    else pure (s1, [(.kFail, "Invalid action: ".toList ++ [Char.ofNat 34] ++ action_string ++
      [Char.ofNat 34])])

/-- The function `Console::cmdFinalScore` (console.cpp 173-176); `to_string_float` is the
library function `std::to_string(float)`. -/
def cmdFinalScore {σ : Type} (actor : Actor σ) (to_string_float : Rat → List Char) :
    Handler σ := fun _ s => do
  let score ← actor.getEvalScore s
  pure (s, [(.kSuccess, to_string_float score)])

/-- The constructor `LeapFrogAction(action_string_args)` (leapfrog.h 22-26).  The function
`charToPlayer` of `base_env.h` is not among the sources and is a parameter. -/
def LeapFrogAction.ofStrings (ndebug : Bool) (board_size : Int) (charToPlayer : Char → Player)
    (action_string_args : List (List Char)) : Except Fault LeapFrogAction := do
  let action_id ← actionStringToID ndebug board_size action_string_args
  let arg0 ← vectorAt action_string_args 0
  let c ← strAt arg0 0
  pure { action_id := action_id, player := charToPlayer c }

/-- The faults that are C++ exceptions derived from `std::exception`, which the handler
`catch (const std::exception&)` catches; a failed `assert` aborts the program and
undefined behaviour is no exception. -/
def isException : Fault → Bool
  | .out_of_range => true
  | .invalid_argument => true
  | .assertion => false
  | .undefined => false

/-- The function `Console::cmdIsLegal` (console.cpp 270-299).  The functions `charToPlayer`
and `playerToChar` of `base_env.h` and the text `e.what()` of a library exception are
parameters. -/
def cmdIsLegal {σ : Type} (ndebug : Bool) (board_size : Int) (actor : Actor σ)
    (charToPlayer : Char → Player) (playerToChar : Player → Char) (what : Fault → List Char) :
    Handler σ := fun args s =>
  let check := checkArgument args 3 INT_MAX
  if !check.1 then pure (s, check.2)
  else
    let action_args := args.drop 1
    let env := actor.getEnvironment s
    let tried : Except Fault (ConsoleResponse × List Char) := do
      let action ← LeapFrogAction.ofStrings ndebug board_size charToPlayer action_args
      let c ← strAt (← vectorAt args 1) 0
      if charToPlayer c ≠ env.turn_ then
        pure (.kFail, "It's ".toList ++ [playerToChar env.turn_] ++ "'s turn.".toList)
      else do
        let is_legal ← isLegalAction ndebug board_size env action
        pure (.kSuccess, if is_legal then "True".toList else "False".toList)
    match tried with
    | .ok r => pure (s, [r])
    | .error e =>
      if isException e then pure (s, [(.kFail, "Invalid action: ".toList ++ what e)])
      else .error e

/-- The registry `function_map_` as the constructor `Console::Console` fills it
(console.cpp 22-40).  The handlers of the eleven commands that no statement below runs are
the parameter `others`. -/
def Console.function_map_ {σ : Type} (ndebug : Bool) (board_size : Int) (actor : Actor σ)
    (charToPlayer : Char → Player) (playerToChar : Player → Char) (what : Fault → List Char)
    (to_string_float : Rat → List Char) (others : List Char → Handler σ) :
    List Char → Option (Handler σ) := fun name =>
  if name = "name".toList then some cmdName
  else if name = "version".toList then some cmdVersion
  else if name = "protocol_version".toList then some cmdProtocalVersion
  else if name = "clear_board".toList then some (cmdClearBoard actor)
  else if name = "showboard".toList then some (cmdShowBoard board_size actor)
  else if name = "play".toList then some (cmdPlay actor)
  else if name = "final_score".toList then some (cmdFinalScore actor to_string_float)
  else if name = "is_legal".toList then
    some (cmdIsLegal ndebug board_size actor charToPlayer playerToChar what)
  else if name ∈ ["gogui-analyze_commands".toList, "list_commands".toList,
      "boardsize".toList, "genmove".toList, "reg_genmove".toList, "pv".toList,
      "pv_string".toList, "game_string".toList, "load_model".toList,
      "get_conf_str".toList, "all_legal".toList] then some (others name)
  else none

/-- A player table for concrete runs: `b` is Player 1 (Black), `w` is Player 2 (White). -/
def exampleCharToPlayer (c : Char) : Player :=
  if c = 'b' then .kPlayer1 else if c = 'w' then .kPlayer2 else .kPlayerNone

/-- An actor for concrete runs: the session is the environment of the 8 by 8 board. -/
def exampleActor : Actor LeapFrogEnv where
  getEnvironment := fun env => env
  reset := fun _ => reset 8
  act := fun env args => do
    let action ← LeapFrogAction.ofStrings false 8 exampleCharToPlayer args
    act false 8 env action
  isEnvTerminal := fun env => isTerminal false 8 env
  getEvalScore := fun env => getEvalScore false 8 env false

/-- A player table for concrete runs: `B` for Player 1, `W` for Player 2. -/
def examplePlayerToChar : Player → Char
  | .kPlayer1 => 'B'
  | .kPlayer2 => 'W'
  | .kPlayerNone => 'N'

/-- Exception texts for concrete runs. -/
def exampleWhat : Fault → List Char
  | .invalid_argument => "stoi".toList
  | .out_of_range => "out of range".toList
  | _ => []

/-- The text of the three scores of the engine, for concrete runs. -/
def exampleFloatString (score : Rat) : List Char :=
  if score = 0 then "0.000000".toList
  else if 0 < score then "1.000010".toList else "-1.000010".toList

/-- The registry for concrete runs on the 8 by 8 board. -/
def exampleConsoleRegistry : List Char → Option (Handler LeapFrogEnv) :=
  Console.function_map_ false 8 exampleActor exampleCharToPlayer examplePlayerToChar
    exampleWhat exampleFloatString (fun _ _ env => .ok (env, []))

/-! ## The codec in the arithmetic of `int` -/

/-- The result of an `int` addition or multiplication whose exact value is `x`.  Signed
overflow is undefined behaviour; the flag `wraps` says whether the build computes the
wrapped two's-complement value of the 32-bit `int`, as the usual compiled code does, or
not. -/
def intResult (wraps : Bool) (x : Int) : Except Fault Int :=
  if -2147483648 ≤ x ∧ x ≤ 2147483647 then .ok x
  else if wraps then .ok ((x + 2147483648) % 4294967296 - 2147483648)
  else .error .undefined

/-- The quotient `a / b` of two `int`s, truncated toward zero; a zero divisor and the
quotient of `INT_MIN` by `-1` are undefined behaviour. -/
def intDiv (a b : Int) : Except Fault Int :=
  if b = 0 ∨ (a = -2147483648 ∧ b = -1) then .error .undefined else .ok (Int.tdiv a b)

/-- The remainder `a % b` of two `int`s, with the sign of `a`; undefined where the
quotient is. -/
def intMod (a b : Int) : Except Fault Int :=
  if b = 0 ∨ (a = -2147483648 ∧ b = -1) then .error .undefined else .ok (Int.tmod a b)

/-- The function `LeapFrogAction::coordinateToID` (leapfrog.cpp 23-58) with the products
and sums of lines 55-57 computed in `int`.  The arguments are `int`s of one board, so the
differences of the if-chain do not overflow. -/
def coordinateToID32 (wraps : Bool) (board_size c1 r1 c2 r2 : Int) : Except Fault Int :=
  match coordinateDir c1 r1 c2 r2 with
  | none => pure (-1)
  | some dir => do
    let row_start ← intResult wraps (r1 * board_size)
    let from_pos ← intResult wraps (row_start + c1)
    let spatial ← intResult wraps (board_size * board_size)
    let plane ← intResult wraps (dir * spatial)
    intResult wraps (plane + from_pos)

/-- The function `LeapFrogAction::getFromPos` (leapfrog.cpp 90-93), computed in `int`. -/
def getFromPos32 (wraps : Bool) (board_size action_id : Int) : Except Fault Int := do
  let spatial ← intResult wraps (board_size * board_size)
  intMod action_id spatial

/-- The function `LeapFrogAction::getDestPos` (leapfrog.cpp 96-142), computed in `int`;
`rc` is the pair `(row, col)` after `row += 2`, `col -= 2` and the like. -/
def getDestPos32 (wraps : Bool) (board_size action_id : Int) : Except Fault Int := do
  let spatial ← intResult wraps (board_size * board_size)
  let dir ← intDiv action_id spatial
  let pos ← intMod action_id spatial
  let row ← intDiv pos board_size
  let col ← intMod pos board_size
  let rc : Int × Int :=
    if dir = 0 then (row + 2, col)
    else if dir = 1 then (row + 2, col + 2)
    else if dir = 2 then (row, col + 2)
    else if dir = 3 then (row - 2, col + 2)
    else if dir = 4 then (row - 2, col)
    else if dir = 5 then (row - 2, col - 2)
    else if dir = 6 then (row, col - 2)
    else if dir = 7 then (row + 2, col - 2)
    else (row, col)
  let row ← intResult wraps rc.1
  let col ← intResult wraps rc.2
  if col ≥ board_size ∨ col < 0 ∨ row ≥ board_size ∨ row < 0 then pure (-1)
  else do
    let row_start ← intResult wraps (row * board_size)
    intResult wraps (row_start + col)

/-- The statements `int pos = action.getFromPos(); int dest_pos = action.getDestPos();
int mid_pos = (pos + dest_pos) / 2;` of `LeapFrogEnv::isLegalAction` (leapfrog.cpp 275-283),
which `LeapFrogEnv::act` repeats for `cap_pos` (leapfrog.cpp 228-235), computed in `int`. -/
def midPos32 (wraps : Bool) (board_size action_id : Int) : Except Fault Int := do
  let pos ← getFromPos32 wraps board_size action_id
  let dest_pos ← getDestPos32 wraps board_size action_id
  let sum ← intResult wraps (pos + dest_pos)
  intDiv sum 2

/-! ## The embedding on concrete inputs -/

theorem codec_examples :
    coordinateToID 8 2 2 0 0 = 338 ∧ getFromPos 8 338 = 18 ∧ getDestPos 8 338 = 0 ∧
    specTarget 8 338 = (0, 0) ∧ specMidpoint 8 338 = (1, 1) := by
  decide

theorem move_text_examples :
    actionIDtoString 8 338 = "c3a1".toList ∧
    actionStringToID false 8 ["b".toList, "c3a1".toList] = .ok 338 ∧
    actionStringToID true 8 ["b".toList, "i1i3".toList] = .ok (-1) ∧
    actionStringToID true 8 ["b".toList, "".toList] = .error .out_of_range ∧
    actionStringToID true 8 ["b".toList, "112".toList] = .error .undefined ∧
    actionStringToID true 8 ["b".toList, "a1b-2147483648".toList] = .error .undefined ∧
    actionStringToID true 8 ["b".toList, "a1c1xyz".toList] = .ok 128 := by
  decide

theorem reset_eq_initialEnv : reset 8 = .ok initialEnv := by
  decide

/-! ## Arithmetic helpers -/

theorem tdiv_tmod_of_bounds (d p m : Int) (hd : 0 ≤ d) (hp0 : 0 ≤ p) (hpm : p < m) :
    Int.tdiv (d * m + p) m = d ∧ Int.tmod (d * m + p) m = p := by
  have hm : 0 < m := lt_of_le_of_lt hp0 hpm
  have h0 : 0 ≤ d * m + p := add_nonneg (mul_nonneg hd hm.le) hp0
  rw [Int.tdiv_eq_ediv h0 hm.le, Int.tmod_eq_emod h0 hm.le]
  constructor
  · rw [Int.add_comm, Int.add_mul_ediv_right _ _ hm.ne', Int.ediv_eq_zero_of_lt hp0 hpm]
    simp
  · rw [Int.add_comm, Int.add_mul_emod_self, Int.emod_eq_of_lt hp0 hpm]

theorem square_index_lt (n r c : Int) (hr : r < n) (hc0 : 0 ≤ c) (hc : c < n) :
    r * n + c < n * n := by
  have h : (r + 1) * n ≤ n * n := Int.mul_le_mul_of_nonneg_right (by omega) (by omega)
  have h2 : (r + 1) * n = r * n + n := by ring
  omega

theorem square_index_nonneg (n r c : Int) (hn : 0 ≤ n) (hr : 0 ≤ r) (hc0 : 0 ≤ c) :
    0 ≤ r * n + c := add_nonneg (mul_nonneg hr hn) hc0

/-- The direction chosen by the if-chain is the index of the delta in the table. -/
theorem coordinateDir_eq_some_iff (c1 r1 c2 r2 : Int) (d : Nat) :
    coordinateDir c1 r1 c2 r2 = some (d : Int) ↔
      twoSquareDeltas.get? d = some (c2 - c1, r2 - r1) := by
  unfold coordinateDir twoSquareDeltas
  constructor
  · intro h
    split_ifs at h with h0 h1 h2 h3 h4 h5 h6 h7
    · have hd : d = 0 := by simpa using h.symm
      subst hd; simp; omega
    · have hd : d = 1 := by exact_mod_cast (Option.some.inj h).symm
      subst hd; simp; omega
    · have hd : d = 2 := by exact_mod_cast (Option.some.inj h).symm
      subst hd; simp; omega
    · have hd : d = 3 := by exact_mod_cast (Option.some.inj h).symm
      subst hd; simp; omega
    · have hd : d = 4 := by exact_mod_cast (Option.some.inj h).symm
      subst hd; simp; omega
    · have hd : d = 5 := by exact_mod_cast (Option.some.inj h).symm
      subst hd; simp; omega
    · have hd : d = 6 := by exact_mod_cast (Option.some.inj h).symm
      subst hd; simp; omega
    · have hd : d = 7 := by exact_mod_cast (Option.some.inj h).symm
      subst hd; simp; omega
  · intro h
    have hd : d < 8 := by
      by_contra hcon
      have : (8 : Nat) ≤ d := by omega
      rw [List.get?_eq_none.mpr (by simpa using this)] at h
      exact absurd h (by simp)
    interval_cases d <;> simp at h <;> obtain ⟨h1, h2⟩ := h
    all_goals
      repeat (first | rw [if_pos (by omega)] | rw [if_neg (by omega)])
    all_goals simp

/-- Decoding an id built from a direction `d` and an on-board source `(r, c)`: the
destination is the source moved by the `d`-th delta, or `-1` when that is off the board. -/
theorem getDestPos_decoded (n r c dc dr : Int) (d : Nat)
    (hr : 0 ≤ r ∧ r < n) (hc : 0 ≤ c ∧ c < n)
    (hd : twoSquareDeltas.get? d = some (dc, dr)) :
    getDestPos n (d * (n * n) + (r * n + c)) =
      if onBoard n (r + dr, c + dc) then (r + dr) * n + (c + dc) else -1 := by
  have hp0 : 0 ≤ r * n + c := square_index_nonneg n r c (by omega) hr.1 hc.1
  have hp1 : r * n + c < n * n := square_index_lt n r c hr.2 hc.1 hc.2
  obtain ⟨e1, e2⟩ := tdiv_tmod_of_bounds d (r * n + c) (n * n) (by omega) hp0 hp1
  obtain ⟨e3, e4⟩ := tdiv_tmod_of_bounds r c n hr.1 hc.1 hc.2
  have hd8 : d < 8 := by
    by_contra hcon
    have : (8 : Nat) ≤ d := by omega
    rw [List.get?_eq_none.mpr (by simpa [twoSquareDeltas] using this)] at hd
    exact absurd hd (by simp)
  unfold getDestPos
  simp only [e1, e2, e3, e4, onBoard]
  interval_cases d <;> simp [twoSquareDeltas] at hd <;> obtain ⟨h1, h2⟩ := hd <;>
    subst h1 <;> subst h2 <;> norm_num <;> split_ifs <;> first | rfl | omega

/-- Every id in `[0, 8*n*n)` splits into a direction `d`, a row `r` and a column `c`. -/
theorem id_decompose (n id : Int) (hn : 1 ≤ n) (h0 : 0 ≤ id) (h1 : id < 8 * n * n) :
    ∃ (d : Nat) (delta : Int × Int),
      d < 8 ∧ twoSquareDeltas.get? d = some delta ∧
      (0 ≤ id % (n * n) / n ∧ id % (n * n) / n < n) ∧
      (0 ≤ id % (n * n) % n ∧ id % (n * n) % n < n) ∧
      id = d * (n * n) + (id % (n * n) / n * n + id % (n * n) % n) ∧
      id % (n * n) = id % (n * n) / n * n + id % (n * n) % n ∧
      Int.tdiv id (n * n) = d ∧
      specTarget n id = (id % (n * n) / n + delta.2, id % (n * n) % n + delta.1) ∧
      specMidpoint n id = (id % (n * n) / n + delta.2 / 2, id % (n * n) % n + delta.1 / 2) := by
  have hnn : 0 < n * n := mul_pos (by omega) (by omega)
  have hq0 : 0 ≤ id / (n * n) := Int.ediv_nonneg h0 hnn.le
  have hq8 : id / (n * n) < 8 := Int.ediv_lt_of_lt_mul hnn (by rw [← mul_assoc]; exact h1)
  have hs0 : 0 ≤ id % (n * n) := Int.emod_nonneg _ hnn.ne'
  have hs1 : id % (n * n) < n * n := Int.emod_lt_of_pos _ hnn
  have hc : 0 ≤ id % (n * n) % n ∧ id % (n * n) % n < n :=
    ⟨Int.emod_nonneg _ (by omega), Int.emod_lt_of_pos _ (by omega)⟩
  have hr : 0 ≤ id % (n * n) / n ∧ id % (n * n) / n < n :=
    ⟨Int.ediv_nonneg hs0 (by omega), Int.ediv_lt_of_lt_mul (by omega) hs1⟩
  have hsplit : id % (n * n) = id % (n * n) / n * n + id % (n * n) % n := by
    have := Int.ediv_add_emod (id % (n * n)) n
    rw [mul_comm] at this; exact this.symm
  obtain ⟨d, hdq⟩ : ∃ d : Nat, (d : Int) = id / (n * n) := ⟨(id / (n * n)).toNat, by omega⟩
  have hd8 : d < 8 := by omega
  have hid : id = d * (n * n) + (id % (n * n) / n * n + id % (n * n) % n) := by
    rw [← hsplit, hdq]
    have := Int.ediv_add_emod id (n * n)
    rw [mul_comm] at this; exact this.symm
  obtain ⟨delta, hdelta⟩ : ∃ delta, twoSquareDeltas.get? d = some delta :=
    ⟨twoSquareDeltas.getD d (0, 0), by
      interval_cases d <;> rfl⟩
  have hnat : (id / (n * n)).toNat = d := by omega
  have hget : twoSquareDeltas.getD d (0, 0) = delta := by
    rw [List.getD_eq_getElem?_getD, ← List.get?_eq_getElem?, hdelta]
    rfl
  refine ⟨d, delta, hd8, hdelta, hr, hc, hid, hsplit, ?_, ?_, ?_⟩
  · rw [Int.tdiv_eq_ediv h0 hnn.le, hdq]
  · simp only [specTarget, hnat, hget]
  · simp only [specMidpoint, hnat, hget]

/-- For an id in range the destination computed by the code is the index of the target
square when that square is on the board, and `-1` otherwise. -/
theorem getDestPos_eq_spec (n id : Int) (hn : 1 ≤ n) (h0 : 0 ≤ id) (h1 : id < 8 * n * n) :
    getDestPos n id =
      if onBoard n (specTarget n id) then squareIndex n (specTarget n id) else -1 := by
  obtain ⟨d, delta, _, hdelta, hr, hc, hid, _, _, htarget, _⟩ := id_decompose n id hn h0 h1
  have hdest := getDestPos_decoded n (id % (n * n) / n) (id % (n * n) % n)
    delta.1 delta.2 d hr hc hdelta
  rw [← hid] at hdest
  rw [htarget, hdest]
  rfl

/-- For an id in range the source computed by the code is `id mod n*n`. -/
theorem getFromPos_eq_spec (n id : Int) (hn : 1 ≤ n) (h0 : 0 ≤ id) :
    getFromPos n id = id % (n * n) :=
  Int.tmod_eq_emod h0 (mul_nonneg (by omega) (by omega))

theorem squareIndex_bounds (n : Int) (rc : Int × Int) (h : onBoard n rc) :
    0 ≤ squareIndex n rc ∧ squareIndex n rc < n * n :=
  ⟨square_index_nonneg n rc.1 rc.2 (by have := h.1; have := h.2.1; omega) h.1 h.2.2.1,
   square_index_lt n rc.1 rc.2 h.2.1 h.2.2.1 h.2.2.2⟩

/-- The integer `(from + dest) / 2` of the code is the index of the square between the
source `(r, c)` and the on-board target; that square is on the board and differs from
both ends. -/
theorem midpoint_arith (n r c : Int) (d : Nat) (delta : Int × Int)
    (hr : 0 ≤ r ∧ r < n) (hc : 0 ≤ c ∧ c < n)
    (hdelta : twoSquareDeltas.get? d = some delta)
    (hon : onBoard n (r + delta.2, c + delta.1)) :
    Int.tdiv ((r * n + c) + ((r + delta.2) * n + (c + delta.1))) 2 =
        (r + delta.2 / 2) * n + (c + delta.1 / 2) ∧
    onBoard n (r + delta.2 / 2, c + delta.1 / 2) ∧
    (r + delta.2 / 2) * n + (c + delta.1 / 2) ≠ r * n + c ∧
    (r + delta.2 / 2) * n + (c + delta.1 / 2) ≠ (r + delta.2) * n + (c + delta.1) := by
  have hd8 : d < 8 := by
    by_contra hcon
    have : (8 : Nat) ≤ d := by omega
    rw [List.get?_eq_none.mpr (by simpa [twoSquareDeltas] using this)] at hdelta
    exact absurd hdelta (by simp)
  have hx : 0 ≤ r * n := mul_nonneg hr.1 (by omega)
  have hs0 : 0 ≤ (r + delta.2) * n + (c + delta.1) :=
    square_index_nonneg n _ _ (by omega) hon.1 hon.2.2.1
  have hsum : 0 ≤ (r * n + c) + ((r + delta.2) * n + (c + delta.1)) := by omega
  rw [Int.tdiv_eq_ediv hsum (by norm_num)]
  obtain ⟨o1, o2, o3, o4⟩ := hon
  have E : ∀ k : Int, (r + k) * n = r * n + k * n := fun k => by ring
  have E1 := E 1
  have E2 := E 2
  have E0 := E 0
  have Em1 := E (-1)
  have Em2 := E (-2)
  simp only [onBoard]
  refine ⟨?_, ⟨?_, ?_, ?_, ?_⟩, ?_, ?_⟩ <;> interval_cases d <;>
    simp [twoSquareDeltas] at hdelta <;> subst hdelta <;>
    (try dsimp only at o1 o2 o3 o4 hs0 hsum ⊢) <;> (try norm_num) <;> omega

/-- An id whose source is non-negative and whose destination is a square other than the
source is an id in range, on a board of positive size. -/
theorem id_range_of_dest (n id : Int) (hpos : 0 ≤ getFromPos n id)
    (hd1 : getDestPos n id ≠ -1) (hd2 : getDestPos n id ≠ getFromPos n id) :
    1 ≤ n ∧ 0 ≤ id ∧ id < 8 * n * n := by
  unfold getDestPos getFromPos at *
  dsimp only at hd1 hd2 hpos
  have hsplit := Int.tdiv_add_tmod id (n * n)
  have hrow := Int.tdiv_add_tmod' (Int.tmod id (n * n)) n
  have hmod : 0 < n * n → Int.tmod id (n * n) < n * n := Int.tmod_lt_of_pos id
  generalize Int.tdiv id (n * n) = dir at *
  generalize Int.tmod id (n * n) = pos at *
  generalize Int.tdiv pos n = row at *
  generalize Int.tmod pos n = col at *
  by_cases hdir : dir = 0 ∨ dir = 1 ∨ dir = 2 ∨ dir = 3 ∨ dir = 4 ∨ dir = 5 ∨ dir = 6 ∨ dir = 7
  · have hn : 1 ≤ n := by
      by_contra hcon
      apply hd1
      rw [if_pos]
      rcases hdir with h | h | h | h | h | h | h | h <;> subst h <;> norm_num <;> omega
    have hnn : 0 < n * n := mul_pos (by omega) (by omega)
    have hlt : pos < n * n := hmod hnn
    have e8 : 8 * n * n = 8 * (n * n) := by ring
    refine ⟨hn, ?_, ?_⟩ <;>
      rcases hdir with h | h | h | h | h | h | h | h <;> subst h <;> omega
  · exfalso
    have h0 : ¬ dir = 0 := fun h => hdir (by simp [h])
    have h1 : ¬ dir = 1 := fun h => hdir (by simp [h])
    have h2 : ¬ dir = 2 := fun h => hdir (by simp [h])
    have h3 : ¬ dir = 3 := fun h => hdir (by simp [h])
    have h4 : ¬ dir = 4 := fun h => hdir (by simp [h])
    have h5 : ¬ dir = 5 := fun h => hdir (by simp [h])
    have h6 : ¬ dir = 6 := fun h => hdir (by simp [h])
    have h7 : ¬ dir = 7 := fun h => hdir (by simp [h])
    simp only [h0, h1, h2, h3, h4, h5, h6, h7, if_false] at hd1 hd2
    split_ifs at hd1 hd2
    · exact hd1 rfl
    · exact hd2 hrow

/-- The geometry of a jump whose target is on the board: the square the code computes as
`(from + dest) / 2` is the square between source and target, it is on the board, and source,
midpoint and target are three different squares. -/
theorem jump_geometry (n id : Int) (hn : 1 ≤ n) (h0 : 0 ≤ id) (h1 : id < 8 * n * n)
    (hon : onBoard n (specTarget n id)) :
    onBoard n (specMidpoint n id) ∧
    Int.tdiv (id % (n * n) + squareIndex n (specTarget n id)) 2 =
      squareIndex n (specMidpoint n id) ∧
    squareIndex n (specMidpoint n id) ≠ id % (n * n) ∧
    squareIndex n (specMidpoint n id) ≠ squareIndex n (specTarget n id) ∧
    squareIndex n (specTarget n id) ≠ id % (n * n) := by
  obtain ⟨d, delta, _, hdelta, hr, hc, _, hsplit, _, htarget, hmid⟩ :=
    id_decompose n id hn h0 h1
  rw [htarget] at hon
  obtain ⟨m1, m2, m3, m4⟩ := midpoint_arith n _ _ d delta hr hc hdelta hon
  rw [htarget, hmid]
  simp only [squareIndex]
  rw [← hsplit] at m1 m3
  refine ⟨m2, m1, m3, m4, ?_⟩
  intro heq
  rw [heq] at m1
  have h2 : 0 ≤ id % (n * n) := Int.emod_nonneg _ (by nlinarith)
  rw [Int.tdiv_eq_ediv (by omega) (by norm_num)] at m1
  omega

/-- The two outcomes of `coordinateToID`. -/
theorem coordinateToID_cases (n c1 r1 c2 r2 : Int) :
    (coordinateDir c1 r1 c2 r2 = none ∧ coordinateToID n c1 r1 c2 r2 = -1) ∨
    ∃ d : Nat, d < 8 ∧ coordinateDir c1 r1 c2 r2 = some (d : Int) ∧
      coordinateToID n c1 r1 c2 r2 = d * (n * n) + (r1 * n + c1) := by
  have hdir : coordinateDir c1 r1 c2 r2 = none ∨
      ∃ d : Nat, d < 8 ∧ coordinateDir c1 r1 c2 r2 = some (d : Int) := by
    unfold coordinateDir
    split_ifs
    · exact Or.inr ⟨0, by omega, rfl⟩
    · exact Or.inr ⟨1, by omega, rfl⟩
    · exact Or.inr ⟨2, by omega, rfl⟩
    · exact Or.inr ⟨3, by omega, rfl⟩
    · exact Or.inr ⟨4, by omega, rfl⟩
    · exact Or.inr ⟨5, by omega, rfl⟩
    · exact Or.inr ⟨6, by omega, rfl⟩
    · exact Or.inr ⟨7, by omega, rfl⟩
    · exact Or.inl rfl
  rcases hdir with hnone | ⟨d, hd8, hsome⟩
  · exact Or.inl ⟨hnone, by simp [coordinateToID, hnone]⟩
  · exact Or.inr ⟨d, hd8, hsome, by simp [coordinateToID, hsome]⟩

/-- The id of an on-board source is `-1` or lies in `[0, 8*n*n)`. -/
theorem coordinateToID_range (n c1 r1 c2 r2 : Int)
    (hc1 : 0 ≤ c1 ∧ c1 < n) (hr1 : 0 ≤ r1 ∧ r1 < n) :
    coordinateToID n c1 r1 c2 r2 = -1 ∨
      (0 ≤ coordinateToID n c1 r1 c2 r2 ∧ coordinateToID n c1 r1 c2 r2 < 8 * n * n) := by
  have hp0 : 0 ≤ r1 * n + c1 := square_index_nonneg n r1 c1 (by omega) hr1.1 hc1.1
  have hp1 : r1 * n + c1 < n * n := square_index_lt n r1 c1 hr1.2 hc1.1 hc1.2
  have hnn : 0 ≤ n * n := mul_nonneg (by omega) (by omega)
  rcases coordinateToID_cases n c1 r1 c2 r2 with ⟨_, h⟩ | ⟨d, hd8, _, hid⟩
  · exact Or.inl h
  · right
    have hdn : (d : Int) * (n * n) ≤ 7 * (n * n) :=
      Int.mul_le_mul_of_nonneg_right (by omega) hnn
    have hd0 : 0 ≤ (d : Int) * (n * n) := mul_nonneg (by omega) hnn
    have e8 : 8 * n * n = 7 * (n * n) + n * n := by ring
    rw [hid, e8]
    constructor <;> omega

/-! ## The action codec on the integers -/

/-- On the integers: on an `n` by `n` board (`n ≥ 1`) and for on-board coordinates,
`coordinateToID` is `-1` exactly when `(c2 - c1, r2 - r1)` is not one of the eight
two-square deltas; for the `d`-th delta of the table it is `d*n*n + r1*n + c1`; and every
value other than `-1` lies in `[0, 8*n*n)`. -/
theorem coordinateToID_spec_integers (n c1 r1 c2 r2 : Int) (hn : 1 ≤ n)
    (hc1 : 0 ≤ c1 ∧ c1 < n) (hr1 : 0 ≤ r1 ∧ r1 < n)
    (hc2 : 0 ≤ c2 ∧ c2 < n) (hr2 : 0 ≤ r2 ∧ r2 < n) :
    (coordinateToID n c1 r1 c2 r2 = -1 ↔ (c2 - c1, r2 - r1) ∉ twoSquareDeltas) ∧
    (∀ d : Nat, twoSquareDeltas.get? d = some (c2 - c1, r2 - r1) →
        coordinateToID n c1 r1 c2 r2 = d * n * n + r1 * n + c1) ∧
    (coordinateToID n c1 r1 c2 r2 ≠ -1 →
        0 ≤ coordinateToID n c1 r1 c2 r2 ∧ coordinateToID n c1 r1 c2 r2 < 8 * n * n) := by
  have hp0 : 0 ≤ r1 * n + c1 := square_index_nonneg n r1 c1 (by omega) hr1.1 hc1.1
  have hnn : 0 ≤ n * n := mul_nonneg (by omega) (by omega)
  have hmem : (c2 - c1, r2 - r1) ∈ twoSquareDeltas ↔
      ∃ d : Nat, coordinateDir c1 r1 c2 r2 = some (d : Int) := by
    rw [List.mem_iff_get?]
    exact exists_congr fun d => (coordinateDir_eq_some_iff c1 r1 c2 r2 d).symm
  have hrange := coordinateToID_range n c1 r1 c2 r2 hc1 hr1
  rcases coordinateToID_cases n c1 r1 c2 r2 with ⟨hnone, hid⟩ | ⟨d, hd8, hsome, hid⟩
  · refine ⟨?_, ?_, ?_⟩
    · rw [hmem]; simp [hid, hnone]
    · intro d hd
      rw [← coordinateDir_eq_some_iff, hnone] at hd
      exact absurd hd (by simp)
    · intro h; exact absurd hid h
  · have hd0 : 0 ≤ (d : Int) * (n * n) := mul_nonneg (by omega) hnn
    refine ⟨?_, ?_, ?_⟩
    · rw [hmem]
      constructor
      · intro h; rw [hid] at h; omega
      · intro h; exact absurd ⟨d, hsome⟩ h
    · intro d2 hd2
      rw [← coordinateDir_eq_some_iff, hsome] at hd2
      have : (d : Int) = d2 := Option.some.inj hd2
      rw [hid, this]; ring
    · intro h
      rcases hrange with h2 | h2
      · exact absurd h2 h
      · exact h2

/-- On the integers: for on-board `(c1, r1)` and `(c2, r2)` whose delta is one of the
eight two-square deltas, the id of `coordinateToID` has `getFromPos = r1*n + c1` and
`getDestPos = r2*n + c2`. -/
theorem decode_coordinateToID_integers (n c1 r1 c2 r2 : Int) (hn : 1 ≤ n)
    (hc1 : 0 ≤ c1 ∧ c1 < n) (hr1 : 0 ≤ r1 ∧ r1 < n)
    (hc2 : 0 ≤ c2 ∧ c2 < n) (hr2 : 0 ≤ r2 ∧ r2 < n)
    (hdelta : (c2 - c1, r2 - r1) ∈ twoSquareDeltas) :
    getFromPos n (coordinateToID n c1 r1 c2 r2) = r1 * n + c1 ∧
    getDestPos n (coordinateToID n c1 r1 c2 r2) = r2 * n + c2 := by
  have hp0 : 0 ≤ r1 * n + c1 := square_index_nonneg n r1 c1 (by omega) hr1.1 hc1.1
  have hp1 : r1 * n + c1 < n * n := square_index_lt n r1 c1 hr1.2 hc1.1 hc1.2
  obtain ⟨d, hd⟩ := List.mem_iff_get?.mp hdelta
  have hsome := (coordinateDir_eq_some_iff c1 r1 c2 r2 d).mpr hd
  have hid : coordinateToID n c1 r1 c2 r2 = d * (n * n) + (r1 * n + c1) := by
    simp [coordinateToID, hsome]
  rw [hid]
  constructor
  · exact (tdiv_tmod_of_bounds d (r1 * n + c1) (n * n) (by omega) hp0 hp1).2
  · rw [getDestPos_decoded n r1 c1 (c2 - c1) (r2 - r1) d hr1 hc1 hd]
    have e1 : r1 + (r2 - r1) = r2 := by ring
    have e2 : c1 + (c2 - c1) = c2 := by ring
    rw [e1, e2, if_pos]
    exact ⟨hr2.1, hr2.2, hc2.1, hc2.2⟩

/-- On the integers: for every id in `[0, 8*n*n)`, `getDestPos` is `-1` exactly when
moving the source square two squares in the direction of the id leaves the board;
otherwise it is `row*n + col` of the target square, and `coordinateToID` of the source and
that target is `id` again. -/
theorem getDestPos_spec_integers (n id : Int) (hn : 1 ≤ n) (h0 : 0 ≤ id) (h1 : id < 8 * n * n) :
    (getDestPos n id = -1 ↔ ¬ onBoard n (specTarget n id)) ∧
    (onBoard n (specTarget n id) →
      getDestPos n id = (specTarget n id).1 * n + (specTarget n id).2 ∧
      coordinateToID n (id % (n * n) % n) (id % (n * n) / n)
        (specTarget n id).2 (specTarget n id).1 = id) := by
  rw [getDestPos_eq_spec n id hn h0 h1]
  constructor
  · constructor
    · intro h hon
      rw [if_pos hon] at h
      have := (squareIndex_bounds n _ hon).1
      omega
    · intro h; rw [if_neg h]
  · intro hon
    refine ⟨by rw [if_pos hon]; rfl, ?_⟩
    obtain ⟨d, delta, _, hdelta, _, _, hid, _, _, htarget, _⟩ := id_decompose n id hn h0 h1
    rw [htarget]
    have hsome := (coordinateDir_eq_some_iff (id % (n * n) % n) (id % (n * n) / n)
      (id % (n * n) % n + delta.1) (id % (n * n) / n + delta.2) d).mpr (by
        rw [hdelta]; congr 1; ext <;> simp)
    simp only [coordinateToID, hsome]
    exact hid.symm

/-! ## Engine helpers -/

theorem getPlayerAtBoardPos_eq (env : LeapFrogEnv) (pos : Int) :
    getPlayerAtBoardPos env pos =
      if 0 ≤ pos ∧ pos < 64 then .ok (ownerAt env.bitboard_ pos.toNat)
      else .error .out_of_range := by
  unfold getPlayerAtBoardPos LeapFrogBitboard.test ownerAt GamePair.get
  by_cases h : 0 ≤ pos ∧ pos < 64
  · cases h1 : env.bitboard_.player1.testBit pos.toNat <;>
      cases h2 : env.bitboard_.player2.testBit pos.toNat <;>
      simp [h, h1, h2, bind, Except.bind, pure, Except.pure]
  · simp [h, bind, Except.bind]

/-- What an accepted action tells about the state, in terms of the code's own values. -/
theorem isLegalAction_ok_true_iff (ndebug : Bool) (n : Int) (env : LeapFrogEnv)
    (a : LeapFrogAction) :
    isLegalAction ndebug n env a = .ok true ↔
      a.player = env.turn_ ∧
      (ndebug = true ∨ (0 ≤ a.action_id ∧ a.action_id < kNumDirections * n * n)) ∧
      (0 ≤ getFromPos n a.action_id ∧ getFromPos n a.action_id < 64 ∧
        ownerAt env.bitboard_ (getFromPos n a.action_id).toNat = a.player) ∧
      getDestPos n a.action_id ≠ -1 ∧
      (0 ≤ Int.tdiv (getFromPos n a.action_id + getDestPos n a.action_id) 2 ∧
        Int.tdiv (getFromPos n a.action_id + getDestPos n a.action_id) 2 < 64 ∧
        ownerAt env.bitboard_
          (Int.tdiv (getFromPos n a.action_id + getDestPos n a.action_id) 2).toNat
          ≠ .kPlayerNone) ∧
      (0 ≤ getDestPos n a.action_id ∧ getDestPos n a.action_id < 64 ∧
        ownerAt env.bitboard_ (getDestPos n a.action_id).toNat = .kPlayerNone) := by
  unfold isLegalAction
  simp only [getPlayerAtBoardPos_eq, cassert]
  by_cases h1 : a.player = env.turn_
  swap
  · simp [h1, pure, Except.pure]
  by_cases h2 : ndebug = true ∨ (0 ≤ a.action_id ∧ a.action_id < kNumDirections * n * n)
  swap
  · have h2a : ¬ (ndebug = true) := fun h => h2 (Or.inl h)
    have h2b : ¬ (0 ≤ a.action_id ∧ a.action_id < kNumDirections * n * n) :=
      fun h => h2 (Or.inr h)
    simp [h1, h2, h2a, h2b, bind, Except.bind]
  have h2c : (ndebug || decide (a.action_id ≥ 0 ∧ a.action_id < kNumDirections * n * n))
      = true := by
    rcases h2 with h | h
    · simp [h]
    · simp [h]
  by_cases h3 : 0 ≤ getFromPos n a.action_id ∧ getFromPos n a.action_id < 64
  swap
  · have h3b : ¬ (0 ≤ getFromPos n a.action_id ∧ getFromPos n a.action_id < 64 ∧
        ownerAt env.bitboard_ (getFromPos n a.action_id).toNat = a.player) :=
      fun h => h3 ⟨h.1, h.2.1⟩
    simp [h1, h2, h2c, h3, h3b, bind, Except.bind]
    intro ha hb
    exact absurd ⟨ha, hb⟩ h3
  by_cases h4 : ownerAt env.bitboard_ (getFromPos n a.action_id).toNat = env.turn_
  swap
  · simp [h1, h2, h2c, h3, h4, bind, Except.bind, pure, Except.pure]
  by_cases h5 : getDestPos n a.action_id = -1
  · simp [h1, h2, h2c, h3, h4, h5, bind, Except.bind, pure, Except.pure]
  by_cases h6 : 0 ≤ Int.tdiv (getFromPos n a.action_id + getDestPos n a.action_id) 2 ∧
      Int.tdiv (getFromPos n a.action_id + getDestPos n a.action_id) 2 < 64
  swap
  · have h6b : ¬ (0 ≤ Int.tdiv (getFromPos n a.action_id + getDestPos n a.action_id) 2 ∧
        Int.tdiv (getFromPos n a.action_id + getDestPos n a.action_id) 2 < 64 ∧
        ownerAt env.bitboard_
          (Int.tdiv (getFromPos n a.action_id + getDestPos n a.action_id) 2).toNat
          ≠ .kPlayerNone) := fun h => h6 ⟨h.1, h.2.1⟩
    simp [h1, h2, h2c, h3, h4, h5, h6, h6b, bind, Except.bind, pure, Except.pure]
  by_cases h7 : ownerAt env.bitboard_
      (Int.tdiv (getFromPos n a.action_id + getDestPos n a.action_id) 2).toNat = .kPlayerNone
  · simp [h1, h2, h2c, h3, h4, h5, h6, h7, bind, Except.bind, pure, Except.pure]
  by_cases h8 : 0 ≤ getDestPos n a.action_id ∧ getDestPos n a.action_id < 64
  swap
  · have h8b : ¬ (0 ≤ getDestPos n a.action_id ∧ getDestPos n a.action_id < 64 ∧
        ownerAt env.bitboard_ (getDestPos n a.action_id).toNat = .kPlayerNone) :=
      fun h => h8 ⟨h.1, h.2.1⟩
    simp [h1, h2, h2c, h3, h4, h5, h6, h7, h8, h8b, bind, Except.bind, pure, Except.pure]
  by_cases h9 : ownerAt env.bitboard_ (getDestPos n a.action_id).toNat = .kPlayerNone
  · simp [h1, h2, h2c, h3, h4, h5, h6, h7, h8, h9, bind, Except.bind, pure, Except.pure]
  · simp [h1, h2, h2c, h3, h4, h5, h6, h7, h8, h9, bind, Except.bind, pure, Except.pure]

theorem act_of_legal (ndebug : Bool) (n : Int) (env : LeapFrogEnv) (a : LeapFrogAction)
    (hl : isLegalAction ndebug n env a = .ok true) :
    act ndebug n env a = .ok (true, applyJump n env a) := by
  obtain ⟨_, _, ⟨hs0, hs1, _⟩, _, ⟨hm0, hm1, _⟩, ⟨hd0, hd1, _⟩⟩ :=
    (isLegalAction_ok_true_iff ndebug n env a).mp hl
  unfold act applyJump
  simp only [hl, LeapFrogBitboard.reset, LeapFrogBitboard.test, LeapFrogBitboard.set,
    hs0, hs1, hm0, hm1, hd0, hd1, bind, Except.bind, pure, Except.pure, and_self, if_true,
    Bool.not_true, Bool.false_eq_true, if_false]
  split_ifs <;> simp

theorem act_of_illegal (ndebug : Bool) (n : Int) (env : LeapFrogEnv) (a : LeapFrogAction)
    (hl : isLegalAction ndebug n env a = .ok false) :
    act ndebug n env a = .ok (false, env) := by
  unfold act
  simp [hl, bind, Except.bind, pure, Except.pure]

theorem act_of_fault (ndebug : Bool) (n : Int) (env : LeapFrogEnv) (a : LeapFrogAction)
    (e : Fault) (hl : isLegalAction ndebug n env a = .error e) :
    act ndebug n env a = .error e := by
  unfold act
  simp [hl, bind, Except.bind]

theorem testBit_clear (b k i : Nat) :
    (b ^^^ (b &&& 2 ^ k)).testBit i = (b.testBit i && !decide (k = i)) := by
  rw [Nat.testBit_xor, Nat.testBit_and, Nat.testBit_two_pow]
  cases b.testBit i <;> cases decide (k = i) <;> rfl

theorem testBit_put (b k i : Nat) :
    (b ||| 2 ^ k).testBit i = (b.testBit i || decide (k = i)) := by
  rw [Nat.testBit_or, Nat.testBit_two_pow]

/-- Everything an accepted action tells about the geometry of the jump. -/
theorem legal_geometry (ndebug : Bool) (n : Int) (env : LeapFrogEnv) (a : LeapFrogAction)
    (hl : isLegalAction ndebug n env a = .ok true) :
    (1 ≤ n ∧ 0 ≤ a.action_id ∧ a.action_id < 8 * n * n) ∧
    onBoard n (specTarget n a.action_id) ∧
    getFromPos n a.action_id = a.action_id % (n * n) ∧
    getDestPos n a.action_id = squareIndex n (specTarget n a.action_id) ∧
    Int.tdiv (getFromPos n a.action_id + getDestPos n a.action_id) 2 =
      squareIndex n (specMidpoint n a.action_id) := by
  obtain ⟨_, _, ⟨hs0, _, hso⟩, hd, ⟨_, _, hmo⟩, ⟨_, _, hdo⟩⟩ :=
    (isLegalAction_ok_true_iff ndebug n env a).mp hl
  have hne : getDestPos n a.action_id ≠ getFromPos n a.action_id := by
    intro heq
    rw [heq] at hmo hdo
    have : Int.tdiv (getFromPos n a.action_id + getFromPos n a.action_id) 2 =
        getFromPos n a.action_id := by
      rw [Int.tdiv_eq_ediv (by omega) (by norm_num)]; omega
    rw [this] at hmo
    exact hmo hdo
  obtain ⟨hn, h0, h1⟩ := id_range_of_dest n a.action_id hs0 hd hne
  have hsrc := getFromPos_eq_spec n a.action_id hn h0
  have hdest := getDestPos_eq_spec n a.action_id hn h0 h1
  have hon : onBoard n (specTarget n a.action_id) := by
    by_contra hcon
    rw [if_neg hcon] at hdest
    exact hd hdest
  rw [if_pos hon] at hdest
  refine ⟨⟨hn, h0, h1⟩, hon, hsrc, hdest, ?_⟩
  rw [hsrc, hdest]
  exact (jump_geometry n a.action_id hn h0 h1 hon).2.1

theorem bits_move (b s t i : Nat) (hst : s ≠ t) :
    ((b ^^^ (b &&& 2 ^ s)) ||| 2 ^ t).testBit i =
      if i = s then false else if i = t then true else b.testBit i := by
  rw [testBit_put, testBit_clear]
  by_cases h1 : i = s
  · subst h1
    simp [Ne.symm hst]
  · by_cases h2 : i = t
    · subst h2
      simp [h1]
    · simp [h1, h2, Ne.symm h1, Ne.symm h2]

theorem bits_capture (b m i : Nat) :
    (if b.testBit m = true then b ^^^ (b &&& 2 ^ m) else b).testBit i =
      if i = m then false else b.testBit i := by
  by_cases hc : b.testBit m = true
  · rw [if_pos hc, testBit_clear]
    by_cases h1 : i = m
    · subst h1
      simp
    · simp [h1, Ne.symm h1]
  · rw [if_neg hc]
    by_cases h1 : i = m
    · subst h1
      simpa using hc
    · simp [h1]

theorem jumpBoards_player1 (g : GamePair) (s t m : Nat) :
    jumpBoards g .kPlayer1 s t m =
      { player1 := (g.player1 ^^^ (g.player1 &&& 2 ^ s)) ||| 2 ^ t
        player2 := if g.player2.testBit m = true then g.player2 ^^^ (g.player2 &&& 2 ^ m)
                   else g.player2 } := by
  by_cases hc : g.player2.testBit m = true <;>
    simp [jumpBoards, GamePair.get, GamePair.put, getNextPlayer, hc]

theorem jumpBoards_player2 (g : GamePair) (s t m : Nat) :
    jumpBoards g .kPlayer2 s t m =
      { player1 := if g.player1.testBit m = true then g.player1 ^^^ (g.player1 &&& 2 ^ m)
                   else g.player1
        player2 := (g.player2 ^^^ (g.player2 &&& 2 ^ s)) ||| 2 ^ t } := by
  by_cases hc : g.player1.testBit m = true <;>
    simp [jumpBoards, GamePair.get, GamePair.put, getNextPlayer, hc]

/-- The bitboards after a jump from bit `s` to bit `t` over bit `m` by player `p`. -/
theorem jumpBoards_bits (g : GamePair) (p : Player) (s t m : Nat)
    (hp : p ≠ .kPlayerNone) (hst : s ≠ t) :
    (∀ i : Nat, ((jumpBoards g p s t m).get p).testBit i =
      if i = s then false else if i = t then true else (g.get p).testBit i) ∧
    (∀ i : Nat, ((jumpBoards g p s t m).get (getNextPlayer p)).testBit i =
      if i = m then false else (g.get (getNextPlayer p)).testBit i) := by
  rcases p with _ | _ | _
  · exact absurd rfl hp
  · rw [jumpBoards_player1]
    exact ⟨fun i => bits_move g.player1 s t i hst, fun i => bits_capture g.player2 m i⟩
  · rw [jumpBoards_player2]
    exact ⟨fun i => bits_move g.player2 s t i hst, fun i => bits_capture g.player1 m i⟩

theorem ownerAt_eq_player1 (g : GamePair) (i : Nat) :
    ownerAt g i = .kPlayer1 ↔ g.player1.testBit i = true := by
  unfold ownerAt
  split_ifs <;> simp_all

theorem ownerAt_eq_player2 (g : GamePair) (i : Nat) :
    ownerAt g i = .kPlayer2 ↔ g.player1.testBit i = false ∧ g.player2.testBit i = true := by
  unfold ownerAt
  split_ifs <;> simp_all

theorem ownerAt_eq_none (g : GamePair) (i : Nat) :
    ownerAt g i = .kPlayerNone ↔ g.player1.testBit i = false ∧ g.player2.testBit i = false := by
  unfold ownerAt
  split_ifs <;> simp_all

/-- With every square the call reads inside the bitset, `isLegalAction` returns. -/
theorem isLegalAction_returns (ndebug : Bool) (n : Int) (env : LeapFrogEnv)
    (a : LeapFrogAction)
    (h2 : ndebug = true ∨ (0 ≤ a.action_id ∧ a.action_id < kNumDirections * n * n))
    (h3 : 0 ≤ getFromPos n a.action_id ∧ getFromPos n a.action_id < 64)
    (h6 : getDestPos n a.action_id ≠ -1 →
      (0 ≤ Int.tdiv (getFromPos n a.action_id + getDestPos n a.action_id) 2 ∧
        Int.tdiv (getFromPos n a.action_id + getDestPos n a.action_id) 2 < 64) ∧
      (0 ≤ getDestPos n a.action_id ∧ getDestPos n a.action_id < 64)) :
    isLegalAction ndebug n env a = .ok true ∨ isLegalAction ndebug n env a = .ok false := by
  unfold isLegalAction
  simp only [getPlayerAtBoardPos_eq, cassert]
  have h2c : (ndebug || decide (a.action_id ≥ 0 ∧ a.action_id < kNumDirections * n * n))
      = true := by
    rcases h2 with h | h
    · simp [h]
    · simp [h]
  by_cases h1 : a.player = env.turn_
  swap
  · simp [h1, pure, Except.pure]
  by_cases h4 : ownerAt env.bitboard_ (getFromPos n a.action_id).toNat = env.turn_
  swap
  · simp [h1, h2, h2c, h3, h4, bind, Except.bind, pure, Except.pure]
  by_cases h5 : getDestPos n a.action_id = -1
  · simp [h1, h2, h2c, h3, h4, h5, bind, Except.bind, pure, Except.pure]
  obtain ⟨h7, h8⟩ := h6 h5
  by_cases h9 : ownerAt env.bitboard_
      (Int.tdiv (getFromPos n a.action_id + getDestPos n a.action_id) 2).toNat = .kPlayerNone
  · simp [h1, h2, h2c, h3, h4, h5, h7, h9, bind, Except.bind, pure, Except.pure]
  by_cases h10 : ownerAt env.bitboard_ (getDestPos n a.action_id).toNat = .kPlayerNone
  · simp [h1, h2, h2c, h3, h4, h5, h7, h8, h9, h10, bind, Except.bind, pure, Except.pure]
  · simp [h1, h2, h2c, h3, h4, h5, h7, h8, h9, h10, bind, Except.bind, pure, Except.pure]

theorem board_area_le (n : Int) (hn : 1 ≤ n) (hn8 : n ≤ 8) : n * n ≤ 64 := by nlinarith

/-! ## Claims on the game engine -/

/-- C1: for every engine state and every action of a player that `isLegalAction` accepts,
`act` returns true and the bitboards change in exactly this way: the mover's bit at the
source square `id mod n*n` is cleared, the mover's bit at the destination square is set
and every other bit of the mover's board is unchanged; the opponent's bit at the square
between source and destination is cleared and every other bit of the opponent's board
is unchanged; a midpoint bit of the mover's own board stays set. -/
theorem act_legal_bitboards (ndebug : Bool) (n : Int) (env : LeapFrogEnv) (a : LeapFrogAction)
    (hp : a.player ≠ .kPlayerNone) (hl : isLegalAction ndebug n env a = .ok true) :
    ∃ env', act ndebug n env a = .ok (true, env') ∧
      (∀ i : Nat, (env'.bitboard_.get a.player).testBit i =
        if (i : Int) = a.action_id % (n * n) then false
        else if (i : Int) = squareIndex n (specTarget n a.action_id) then true
        else (env.bitboard_.get a.player).testBit i) ∧
      (∀ i : Nat, (env'.bitboard_.get (getNextPlayer a.player)).testBit i =
        if (i : Int) = squareIndex n (specMidpoint n a.action_id) then false
        else (env.bitboard_.get (getNextPlayer a.player)).testBit i) ∧
      ((env.bitboard_.get a.player).testBit
          (squareIndex n (specMidpoint n a.action_id)).toNat = true →
        (env'.bitboard_.get a.player).testBit
          (squareIndex n (specMidpoint n a.action_id)).toNat = true) := by
  refine ⟨applyJump n env a, act_of_legal ndebug n env a hl, ?_⟩
  obtain ⟨⟨hn, h0, h1⟩, hon, hsrc, hdest, hmid⟩ := legal_geometry ndebug n env a hl
  obtain ⟨hmon, _, hms, hmd, hds⟩ := jump_geometry n a.action_id hn h0 h1 hon
  have hs0 : 0 ≤ a.action_id % (n * n) := Int.emod_nonneg _ (by nlinarith)
  have hd0 := (squareIndex_bounds n _ hon).1
  have hm0 := (squareIndex_bounds n _ hmon).1
  -- the three squares as bit positions
  obtain ⟨s, hs⟩ : ∃ s : Nat, (s : Int) = a.action_id % (n * n) := ⟨_, Int.toNat_of_nonneg hs0⟩
  obtain ⟨t, ht⟩ : ∃ t : Nat, (t : Int) = squareIndex n (specTarget n a.action_id) :=
    ⟨_, Int.toNat_of_nonneg hd0⟩
  obtain ⟨m, hm⟩ : ∃ m : Nat, (m : Int) = squareIndex n (specMidpoint n a.action_id) :=
    ⟨_, Int.toNat_of_nonneg hm0⟩
  have hst : s ≠ t := by omega
  have hsm : s ≠ m := by omega
  have hmt : m ≠ t := by omega
  have e1 : (getFromPos n a.action_id).toNat = s := by rw [hsrc, ← hs]; rfl
  have e2 : (getDestPos n a.action_id).toNat = t := by rw [hdest, ← ht]; rfl
  have e3 : (Int.tdiv (getFromPos n a.action_id + getDestPos n a.action_id) 2).toNat = m := by
    rw [hmid, ← hm]; rfl
  have hbb : (applyJump n env a).bitboard_ = jumpBoards env.bitboard_ a.player s t m := by
    simp only [applyJump, jumpBoards, e1, e2, e3]
  obtain ⟨k1, k2⟩ := jumpBoards_bits env.bitboard_ a.player s t m hp hst
  rw [hbb, ← hs, ← ht, ← hm]
  simp only [Int.toNat_ofNat, Nat.cast_inj]
  refine ⟨k1, k2, ?_⟩
  intro h
  rw [k1 m, if_neg (Ne.symm hsm), if_neg hmt]
  exact h

theorem act_legal_bitboards_witness :
    (LeapFrogAction.mk 436 .kPlayer1).player ≠ .kPlayerNone ∧
    isLegalAction false 8 initialEnv ⟨436, .kPlayer1⟩ = .ok true ∧
    ∃ env', act false 8 initialEnv ⟨436, .kPlayer1⟩ = .ok (true, env') ∧
      (∀ i : Nat, (env'.bitboard_.get .kPlayer1).testBit i =
        if (i : Int) = (436 : Int) % (8 * 8) then false
        else if (i : Int) = squareIndex 8 (specTarget 8 436) then true
        else (initialEnv.bitboard_.get .kPlayer1).testBit i) ∧
      (∀ i : Nat, (env'.bitboard_.get (getNextPlayer .kPlayer1)).testBit i =
        if (i : Int) = squareIndex 8 (specMidpoint 8 436) then false
        else (initialEnv.bitboard_.get (getNextPlayer .kPlayer1)).testBit i) ∧
      ((initialEnv.bitboard_.get .kPlayer1).testBit
          (squareIndex 8 (specMidpoint 8 436)).toNat = true →
        (env'.bitboard_.get .kPlayer1).testBit
          (squareIndex 8 (specMidpoint 8 436)).toNat = true) :=
  ⟨by decide, by decide,
    act_legal_bitboards false 8 initialEnv ⟨436, .kPlayer1⟩ (by decide) (by decide)⟩

/-- C2: for every engine state and every action, `act` returns true exactly when
`isLegalAction` accepts the action; when `act` returns false the environment (bitboards,
action list, snapshot history and turn) is unchanged, and it does return false whenever
`isLegalAction` rejects the action. -/
theorem act_true_iff_legal (ndebug : Bool) (n : Int) (env : LeapFrogEnv) (a : LeapFrogAction) :
    ((∃ env', act ndebug n env a = .ok (true, env')) ↔
      isLegalAction ndebug n env a = .ok true) ∧
    (∀ env', act ndebug n env a = .ok (false, env') → env' = env) ∧
    (isLegalAction ndebug n env a = .ok false → act ndebug n env a = .ok (false, env)) := by
  cases h : isLegalAction ndebug n env a with
  | error e =>
    have ha := act_of_fault ndebug n env a e h
    simp [ha]
  | ok b =>
    cases b with
    | true =>
      have ha := act_of_legal ndebug n env a h
      simp [ha]
    | false =>
      have ha := act_of_illegal ndebug n env a h
      simp [ha]

/-- C3: on a board of size 1 to 8 (the bitboards have 64 bits), in every engine state
whose side to move is a player and whose two bitboards are disjoint, and for every action
whose id lies in `[0, 8*n*n)`, `isLegalAction` returns, and it returns true if and only if
the five conditions hold: the action's player is the side to move; the source square
`id mod n*n` holds a piece of that player; the destination square is on the board; the
square exactly between source and destination holds a piece of either player; and the
destination square is empty. -/
theorem isLegalAction_iff_conditions (ndebug : Bool) (n : Int) (env : LeapFrogEnv)
    (a : LeapFrogAction) (hn : 1 ≤ n) (hn8 : n ≤ 8)
    (hturn : env.turn_ ≠ .kPlayerNone)
    (hdisj : env.bitboard_.player1 &&& env.bitboard_.player2 = 0)
    (h0 : 0 ≤ a.action_id) (h1 : a.action_id < 8 * n * n) :
    (isLegalAction ndebug n env a = .ok true ↔ legalConditions n env a) ∧
    (isLegalAction ndebug n env a = .ok false ↔ ¬ legalConditions n env a) := by
  have harea := board_area_le n hn hn8
  have hnn : 0 < n * n := mul_pos (by omega) (by omega)
  have hsrc := getFromPos_eq_spec n a.action_id hn h0
  have hdest := getDestPos_eq_spec n a.action_id hn h0 h1
  have hs0 : 0 ≤ a.action_id % (n * n) := Int.emod_nonneg _ hnn.ne'
  have hs1 : a.action_id % (n * n) < n * n := Int.emod_lt_of_pos _ hnn
  have hdisj2 : ∀ i : Nat, ¬ (env.bitboard_.player1.testBit i = true ∧
      env.bitboard_.player2.testBit i = true) := by
    intro i ⟨hb1, hb2⟩
    have := Nat.testBit_and env.bitboard_.player1 env.bitboard_.player2 i
    rw [hdisj, hb1, hb2] at this
    simp at this
  -- the main equivalence
  have hiff : isLegalAction ndebug n env a = .ok true ↔ legalConditions n env a := by
    rw [isLegalAction_ok_true_iff]
    unfold legalConditions
    constructor
    · rintro ⟨hp, -, ⟨-, -, hso⟩, hd, ⟨-, -, hmo⟩, ⟨-, -, hdo⟩⟩
      have hon : onBoard n (specTarget n a.action_id) := by
        by_contra hcon
        rw [if_neg hcon] at hdest
        exact hd hdest
      rw [if_pos hon] at hdest
      obtain ⟨hmon, hmid, -⟩ := jump_geometry n a.action_id hn h0 h1 hon
      rw [hsrc, hdest, hmid] at hmo
      rw [hdest] at hdo
      rw [hsrc] at hso
      have hm0 := (squareIndex_bounds n _ hmon).1
      have hd0 := (squareIndex_bounds n _ hon).1
      refine ⟨hp, ?_, hon, ?_, ?_⟩
      · rcases hpl : a.player with _ | _ | _
        · exact absurd (hp ▸ hpl) hturn
        · rw [hpl] at hso
          exact ⟨hs0, (ownerAt_eq_player1 _ _).mp hso⟩
        · rw [hpl] at hso
          exact ⟨hs0, ((ownerAt_eq_player2 _ _).mp hso).2⟩
      · by_cases hb1 : env.bitboard_.player1.testBit
            (squareIndex n (specMidpoint n a.action_id)).toNat = true
        · exact Or.inl ⟨hm0, hb1⟩
        · right
          refine ⟨hm0, ?_⟩
          by_contra hb2
          exact hmo ((ownerAt_eq_none _ _).mpr ⟨by simpa using hb1, by simpa using hb2⟩)
      · have := (ownerAt_eq_none _ _).mp hdo
        exact ⟨fun h => absurd h.2 (by simp [this.1]), fun h => absurd h.2 (by simp [this.2])⟩
    · rintro ⟨hp, hso, hon, hmo, hdo⟩
      rw [if_pos hon] at hdest
      obtain ⟨hmon, hmid, -⟩ := jump_geometry n a.action_id hn h0 h1 hon
      have hm := squareIndex_bounds n _ hmon
      have hd := squareIndex_bounds n _ hon
      rw [hsrc, hdest, hmid]
      refine ⟨hp, Or.inr ⟨h0, by simpa [kNumDirections] using h1⟩, ⟨hs0, by omega, ?_⟩,
        by omega, ⟨hm.1, by omega, ?_⟩, ⟨hd.1, by omega, ?_⟩⟩
      · rcases hpl : a.player with _ | _ | _
        · exact absurd (hp ▸ hpl) hturn
        · rw [hpl] at hso
          exact (ownerAt_eq_player1 _ _).mpr hso.2
        · rw [hpl] at hso
          refine (ownerAt_eq_player2 _ _).mpr ⟨?_, hso.2⟩
          by_contra hb1
          exact hdisj2 _ ⟨by simpa using hb1, hso.2⟩
      · intro hnone
        have := (ownerAt_eq_none _ _).mp hnone
        rcases hmo with h | h
        · exact absurd h.2 (by simp [this.1])
        · exact absurd h.2 (by simp [this.2])
      · refine (ownerAt_eq_none _ _).mpr ⟨?_, ?_⟩
        · by_contra hb
          exact hdo.1 ⟨hd.1, by simpa using hb⟩
        · by_contra hb
          exact hdo.2 ⟨hd.1, by simpa using hb⟩
  -- the call returns
  have hret : isLegalAction ndebug n env a = .ok true ∨
      isLegalAction ndebug n env a = .ok false := by
    apply isLegalAction_returns
    · exact Or.inr ⟨h0, by simpa [kNumDirections] using h1⟩
    · rw [hsrc]; exact ⟨hs0, by omega⟩
    · intro hd
      have hon : onBoard n (specTarget n a.action_id) := by
        by_contra hcon
        rw [if_neg hcon] at hdest
        exact hd hdest
      rw [if_pos hon] at hdest
      obtain ⟨hmon, hmid, -⟩ := jump_geometry n a.action_id hn h0 h1 hon
      have hm := squareIndex_bounds n _ hmon
      have hd := squareIndex_bounds n _ hon
      rw [hsrc, hdest, hmid]
      exact ⟨⟨hm.1, by omega⟩, ⟨hd.1, by omega⟩⟩
  refine ⟨hiff, ?_⟩
  rw [← hiff]
  rcases hret with h | h <;> simp [h]

theorem isLegalAction_iff_conditions_witness :
    (1 : Int) ≤ 8 ∧ (8 : Int) ≤ 8 ∧ initialEnv.turn_ ≠ .kPlayerNone ∧
    initialEnv.bitboard_.player1 &&& initialEnv.bitboard_.player2 = 0 ∧
    (0 : Int) ≤ (LeapFrogAction.mk 436 .kPlayer1).action_id ∧
    (LeapFrogAction.mk 436 .kPlayer1).action_id < 8 * 8 * 8 ∧
    (isLegalAction false 8 initialEnv ⟨436, .kPlayer1⟩ = .ok true ↔
      legalConditions 8 initialEnv ⟨436, .kPlayer1⟩) ∧
    (isLegalAction false 8 initialEnv ⟨436, .kPlayer1⟩ = .ok false ↔
      ¬ legalConditions 8 initialEnv ⟨436, .kPlayer1⟩) :=
  ⟨by decide, by decide, by decide, by decide, by decide, by decide,
    isLegalAction_iff_conditions false 8 initialEnv ⟨436, .kPlayer1⟩ (by decide) (by decide)
      (by decide) (by decide) (by decide) (by decide)⟩

/-- C4 (the code at the failing input): the move text "a1a2" parses to the invalid id `-1`;
for the side to move, `isLegalAction` on id `-1` trips its range assertion, and with
assertions compiled out it reads a bitboard at index `-1`, which raises `std::out_of_range`;
`act` ends the same way. -/
theorem isLegalAction_invalid_id_faults :
    actionStringToID false 8 ["b".toList, "a1a2".toList] = .ok (-1) ∧
    actionStringToID true 8 ["b".toList, "a1a2".toList] = .ok (-1) ∧
    isLegalAction false 8 initialEnv ⟨-1, .kPlayer1⟩ = .error .assertion ∧
    isLegalAction true 8 initialEnv ⟨-1, .kPlayer1⟩ = .error .out_of_range ∧
    act false 8 initialEnv ⟨-1, .kPlayer1⟩ = .error .assertion ∧
    act true 8 initialEnv ⟨-1, .kPlayer1⟩ = .error .out_of_range := by
  decide

/-! ## Claims on the move text -/

/-! ### Helpers -/

theorem actionStringToID_player (ndebug : Bool) (n : Int) (pc : Char) (text : List Char) :
    actionStringToID ndebug n [[pc], text] = actionStringToID ndebug n [['b'], text] := rfl

set_option maxRecDepth 100000 in
theorem roundtrip_all_ids : ∀ ndebug : Bool, ∀ k : Nat, k < 512 →
    getDestPos 8 (k : Int) ≠ -1 →
    actionStringToID ndebug 8 [['b'], actionIDtoString 8 (k : Int)] = .ok (k : Int) := by
  decide

theorem getLegalActionsLoop_mem (ndebug : Bool) (n : Int) (env : LeapFrogEnv) :
    ∀ (l : List Nat) (acts : List LeapFrogAction),
      getLegalActionsLoop ndebug n env l = .ok acts →
      ∀ a ∈ acts, isLegalAction ndebug n env a = .ok true := by
  intro l
  induction l with
  | nil =>
    intro acts h a ha
    simp only [getLegalActionsLoop, pure, Except.pure, Except.ok.injEq] at h
    subst h
    simp at ha
  | cons k rest ih =>
    intro acts h a ha
    unfold getLegalActionsLoop at h
    simp only [bind, Except.bind, pure, Except.pure] at h
    cases hl : isLegalAction ndebug n env ⟨(k : Int), env.turn_⟩ with
    | error e => rw [hl] at h; simp at h
    | ok b =>
      rw [hl] at h
      cases hr : getLegalActionsLoop ndebug n env rest with
      | error e => rw [hr] at h; simp at h
      | ok tail =>
        rw [hr] at h
        simp only [Except.ok.injEq] at h
        subst h
        cases b with
        | true =>
          simp only [if_true, List.mem_cons] at ha
          rcases ha with ha | ha
          · rw [ha]; exact hl
          · exact ih tail hr a ha
        | false =>
          simp only [Bool.false_eq_true, if_false] at ha
          exact ih tail hr a ha

theorem bind_eq_ok {α β : Type} (x : Except Fault α) (f : α → Except Fault β) (b : β) :
    (x >>= f) = .ok b ↔ ∃ a, x = .ok a ∧ f a = .ok b := by
  cases x <;> simp [bind, Except.bind]

theorem stoi_no_digit (c : Char) (hc : isdigit c = false) :
    stoi [c] = .error .invalid_argument := by
  unfold stoi
  cases hs : isspace c
  · have e : List.dropWhile isspace [c] = [c] := by simp [List.dropWhile, hs]
    simp only [e]
    by_cases h1 : c = '-'
    · simp [h1]
    · by_cases h2 : c = '+'
      · simp [h2]
      · simp [h1, h2, List.takeWhile, hc]
  · have e : List.dropWhile isspace [c] = [] := by simp [List.dropWhile, hs]
    simp only [e]
    simp

theorem actionStringToID_no_row_digit (ndebug : Bool) (n : Int) (pc c0 c1 : Char)
    (rest : List Char) (hc : isdigit c1 = false) :
    actionStringToID ndebug n [[pc], c0 :: c1 :: rest] = .error .invalid_argument := by
  have hidx : find_first_not_of_digits (c0 :: c1 :: rest) 1 = 1 := by
    simp [find_first_not_of_digits, List.takeWhile, hc]
  have hsub : substr (c0 :: c1 :: rest) 1 (to_size_t 1) = .ok [c1] := by
    simp [substr, to_size_t]
  unfold actionStringToID
  simp only [hidx, hsub, stoi_no_digit c1 hc, cassert, bind, Except.bind]
  simp

theorem actionStringToID_result_range (ndebug : Bool) (n : Int) (args : List (List Char)) (id : Int)
    (h : actionStringToID ndebug n args = .ok id) :
    id = -1 ∨ (0 ≤ id ∧ id < 8 * n * n) := by
  unfold actionStringToID at h
  rw [bind_eq_ok] at h
  obtain ⟨_, _, h⟩ := h
  rcases args with _ | ⟨arg0, _ | ⟨cmd, rest⟩⟩
  · simp at h
  · simp only [bind_eq_ok] at h
    obtain ⟨_, _, h⟩ := h
    simp at h
  · simp only [bind_eq_ok] at h
    obtain ⟨_, _, s1, _, r1r, _, s2, _, r2r, _, r1, _, r2, _, ch1, _, c1, _, ch2, _, c2, _, h⟩ := h
    split_ifs at h with hneg hbig
    · left
      simp only [pure, Except.pure, Except.ok.injEq] at h
      exact h.symm
    · left
      simp only [pure, Except.pure, Except.ok.injEq] at h
      exact h.symm
    · simp only [pure, Except.pure, Except.ok.injEq] at h
      rw [← h]
      exact coordinateToID_range n c1 r1 c2 r2 ⟨by omega, by omega⟩ ⟨by omega, by omega⟩

theorem takeWhile_digits_append (ds rest : List Char)
    (hds : ∀ c ∈ ds, isdigit c = true) (hrest : ∀ c, rest.head? = some c → isdigit c = false) :
    (ds ++ rest).takeWhile isdigit = ds := by
  induction ds with
  | nil =>
    cases rest with
    | nil => rfl
    | cons c t => simp [List.takeWhile, hrest c rfl]
  | cons d t ih =>
    have hd : isdigit d = true := hds d (by simp)
    have ih2 := ih (fun c hc => hds c (by simp [hc]))
    simp only [List.cons_append, List.takeWhile, hd]
    exact congrArg (List.cons d) ih2

/-- Facts about one character, checked over the ASCII range. -/
theorem digit_char_facts : ∀ k : Nat, k < 128 → 48 ≤ k → k ≤ 57 →
    isdigit (Char.ofNat k) = true ∧ isspace (Char.ofNat k) = false ∧
    Char.ofNat k ≠ '-' ∧ Char.ofNat k ≠ '+' := by
  decide

theorem letter_char_facts : ∀ ndebug : Bool, ∀ k : Nat, k < 128 →
    isColumnLetter (Char.ofNat k) →
    isdigit (Char.ofNat k) = false ∧
    charToPos ndebug (Char.ofNat k) = .ok (letterIndex (Char.ofNat k)) ∧
    0 ≤ letterIndex (Char.ofNat k) := by
  decide

theorem digit_facts (c : Char) (h : 48 ≤ c.toNat ∧ c.toNat ≤ 57) :
    isdigit c = true ∧ isspace c = false ∧ c ≠ '-' ∧ c ≠ '+' := by
  have := digit_char_facts c.toNat (by omega) h.1 h.2
  rwa [Char.ofNat_toNat] at this

theorem letter_facts (ndebug : Bool) (c : Char) (h : isColumnLetter c) :
    isdigit c = false ∧ charToPos ndebug c = .ok (letterIndex c) ∧ 0 ≤ letterIndex c := by
  have hlt : c.toNat < 128 := by
    rcases h.1 with h1 | h1 <;> omega
  have := letter_char_facts ndebug c.toNat hlt (by rwa [Char.ofNat_toNat])
  rwa [Char.ofNat_toNat] at this

theorem stoi_digits (ds rest : List Char) (hds : isRowNumber ds)
    (hrest : ∀ c, rest.head? = some c → isdigit c = false)
    (hv : digitsValue ds ≤ 2147483647) :
    stoi (ds ++ rest) = .ok (digitsValue ds : Int) := by
  obtain ⟨hne, hall⟩ := hds
  have hall2 : ∀ c ∈ ds, isdigit c = true := fun c hc => (digit_facts c (hall c hc)).1
  cases ds with
  | nil => exact absurd rfl hne
  | cons d t =>
    obtain ⟨_, hsp, hm, hp⟩ := digit_facts d (hall d (by simp))
    have htw := takeWhile_digits_append (d :: t) rest hall2 hrest
    unfold stoi
    have e : List.dropWhile isspace (d :: t ++ rest) = d :: t ++ rest := by
      simp [List.dropWhile, hsp]
    simp only [e]
    simp only [List.cons_append, hm, hp, if_false]
    rw [← List.cons_append, htw]
    have hv2 : ¬ ((digitsValue (d :: t) : Int) < -2147483648 ∨
        2147483647 < (digitsValue (d :: t) : Int)) := by omega
    simp [hv2]
    omega

theorem drop_take_append (a b : List Char) : (a ++ b).take a.length = a := by
  simp

theorem parse_wellformed_aux (ndebug : Bool) (n : Int) (pc l1 l2 : Char) (ds1 ds2 : List Char)
    (hl1 : isColumnLetter l1) (hl2 : isColumnLetter l2)
    (hd1 : isRowNumber ds1) (hd2 : isRowNumber ds2)
    (hv1 : digitsValue ds1 ≤ 2147483647) (hv2 : digitsValue ds2 ≤ 2147483647) :
    actionStringToID ndebug n [[pc], l1 :: (ds1 ++ l2 :: ds2)] =
      .ok (specParse n l1 ds1 l2 ds2) := by
  obtain ⟨hl1d, hl1p, hl1n⟩ := letter_facts ndebug l1 hl1
  obtain ⟨hl2d, hl2p, hl2n⟩ := letter_facts ndebug l2 hl2
  have hall1 : ∀ c ∈ ds1, isdigit c = true := fun c hc => (digit_facts c (hd1.2 c hc)).1
  have hidx : find_first_not_of_digits (l1 :: (ds1 ++ l2 :: ds2)) 1 =
      ((1 + ds1.length : Nat) : Int) := by
    unfold find_first_not_of_digits
    have htw : List.takeWhile isdigit (ds1 ++ l2 :: ds2) = ds1 :=
      takeWhile_digits_append ds1 (l2 :: ds2) hall1 (by
        intro c hc; simp at hc; rw [← hc]; exact hl2d)
    simp only [List.drop_succ_cons, List.drop_zero, htw]
    rw [if_pos (by simp; omega)]
  have hsz1 : to_size_t ((1 + ds1.length : Nat) : Int) = 1 + ds1.length := by
    unfold to_size_t
    rw [if_neg (by omega)]
    exact Int.toNat_ofNat _
  have hsz2 : to_size_t (((1 + ds1.length : Nat) : Int) + 1) = 1 + ds1.length + 1 := by
    unfold to_size_t
    rw [if_neg (by omega)]
    omega
  have hsub1 : substr (l1 :: (ds1 ++ l2 :: ds2)) 1 (1 + ds1.length) = .ok (ds1 ++ [l2]) := by
    unfold substr
    rw [if_neg (by simp)]
    congr 1
    simp only [List.drop_succ_cons, List.drop_zero]
    have : ds1 ++ l2 :: ds2 = (ds1 ++ [l2]) ++ ds2 := by simp
    rw [this]
    have hlen : 1 + ds1.length = (ds1 ++ [l2]).length := by simp; omega
    rw [hlen]
    exact drop_take_append _ _
  have hsub2 : substr (l1 :: (ds1 ++ l2 :: ds2)) (1 + ds1.length + 1)
      ((l1 :: (ds1 ++ l2 :: ds2)).length - (1 + ds1.length + 1)) = .ok ds2 := by
    unfold substr
    rw [if_neg (by simp; omega)]
    congr 1
    have : l1 :: (ds1 ++ l2 :: ds2) = (l1 :: (ds1 ++ [l2])) ++ ds2 := by simp
    rw [this]
    have hlen : 1 + ds1.length + 1 = (l1 :: (ds1 ++ [l2])).length := by simp; omega
    rw [hlen, List.drop_left]
    simp
    omega
  have hst1 : stoi (ds1 ++ [l2]) = .ok (digitsValue ds1 : Int) :=
    stoi_digits ds1 [l2] hd1 (by intro c hc; simp at hc; rw [← hc]; exact hl2d) hv1
  have hst2 : stoi ds2 = .ok (digitsValue ds2 : Int) := by
    have := stoi_digits ds2 [] hd2 (by intro c hc; simp at hc) hv2
    simpa using this
  have hck1 : checkedInt ((digitsValue ds1 : Int) - 1) = .ok ((digitsValue ds1 : Int) - 1) := by
    unfold checkedInt; rw [if_pos (by omega)]
  have hck2 : checkedInt ((digitsValue ds2 : Int) - 1) = .ok ((digitsValue ds2 : Int) - 1) := by
    unfold checkedInt; rw [if_pos (by omega)]
  have hat0 : strAt (l1 :: (ds1 ++ l2 :: ds2)) 0 = .ok l1 := by
    unfold strAt
    rw [if_pos (by simp; omega)]
    rfl
  have hat1 : strAt (l1 :: (ds1 ++ l2 :: ds2)) ((1 + ds1.length : Nat) : Int) = .ok l2 := by
    unfold strAt
    rw [if_pos (by simp; omega)]
    congr 1
    rw [Int.toNat_ofNat, Nat.add_comm]
    simp [List.getD_eq_getElem?_getD]
    exact List.getElem_append_right (Nat.le_refl _) |>.trans (by simp)
  unfold actionStringToID
  simp only [hidx, hsz1, hsz2, hsub1, hsub2, hst1, hst2, hck1, hck2, hat0, hat1, hl1p, hl2p,
    cassert, bind, Except.bind, pure, Except.pure]
  simp only [List.length_cons, List.length_nil, specParse]
  have a1 : (ndebug || (0 + 1 + 1 == 2)) = true := by cases ndebug <;> rfl
  have a2 : (ndebug || (0 + 1 == 1)) = true := by cases ndebug <;> rfl
  simp only [a1, a2, if_true]
  split_ifs <;> first | rfl | (exfalso; omega)

/-! ### Claims -/

/-- C5: on the 8 by 8 board, for every id in `[0, 8*64)` whose destination square is on
the board, and so for every action returned by `getLegalActions` in any engine state,
rendering the id with `actionIDtoString` and parsing the text back with `actionStringToID`
yields the same id; id 338 renders as "c3a1" and "c3a1" parses to 338. -/
theorem actionID_text_roundtrip (ndebug : Bool) (pc : Char) :
    (∀ id : Int, 0 ≤ id → id < 8 * 64 → onBoard 8 (specTarget 8 id) →
      actionStringToID ndebug 8 [[pc], actionIDtoString 8 id] = .ok id) ∧
    (∀ (env : LeapFrogEnv) (acts : List LeapFrogAction),
      getLegalActions ndebug 8 env = .ok acts → ∀ a ∈ acts,
      actionStringToID ndebug 8 [[pc], actionIDtoString 8 a.action_id] = .ok a.action_id) ∧
    actionIDtoString 8 338 = "c3a1".toList ∧
    actionStringToID ndebug 8 [[pc], "c3a1".toList] = .ok 338 := by
  have main : ∀ id : Int, 0 ≤ id → id < 8 * 64 → onBoard 8 (specTarget 8 id) →
      actionStringToID ndebug 8 [[pc], actionIDtoString 8 id] = .ok id := by
    intro id h0 h1 hon
    have hdest := getDestPos_eq_spec 8 id (by norm_num) h0 (by omega)
    rw [if_pos hon] at hdest
    have hd0 := (squareIndex_bounds 8 _ hon).1
    obtain ⟨k, hk⟩ : ∃ k : Nat, (k : Int) = id := ⟨id.toNat, Int.toNat_of_nonneg h0⟩
    subst hk
    rw [actionStringToID_player]
    exact roundtrip_all_ids ndebug k (by omega) (by omega)
  refine ⟨main, ?_, by decide, ?_⟩
  · intro env acts h a ha
    have hl := getLegalActionsLoop_mem ndebug 8 env _ acts h a ha
    obtain ⟨⟨_, h0, h1⟩, hon, _⟩ := legal_geometry ndebug 8 env a hl
    exact main a.action_id h0 (by omega) hon
  · rw [actionStringToID_player]
    cases ndebug <;> decide

theorem actionID_text_roundtrip_witness :
    actionStringToID false 8 [['b'], actionIDtoString 8 338] = .ok 338 :=
  (actionID_text_roundtrip false 'b').1 338 (by decide) (by decide) (by decide)

/-- C6 (the code at the failing inputs): the move texts "abcd" (no row digits) and "a12"
(no second column letter) make `std::stoi` raise `std::invalid_argument`, with and
without assertions, and the reserved letter in "i1i3" trips the assertion of `charToPos`;
with assertions compiled out "i1i3" yields the invalid id `-1`, which is what the
checks `c1 < 0 || c2 < 0` after the two `charToPos` calls are written for. -/
theorem actionStringToID_raises :
    actionStringToID false 8 ["b".toList, "abcd".toList] = .error .invalid_argument ∧
    actionStringToID true 8 ["b".toList, "abcd".toList] = .error .invalid_argument ∧
    actionStringToID false 8 ["b".toList, "a12".toList] = .error .invalid_argument ∧
    actionStringToID true 8 ["b".toList, "a12".toList] = .error .invalid_argument ∧
    actionStringToID false 8 ["b".toList, "i1i3".toList] = .error .assertion ∧
    actionStringToID true 8 ["b".toList, "i1i3".toList] = .ok (-1) := by
  decide

/-- The outcomes of `actionStringToID` on an arbitrary move text: whenever it returns, the
result is the invalid id `-1` or an action id in `[0, 8*n*n)`; a text whose second
character is not a digit raises `std::invalid_argument`. -/
theorem actionStringToID_outcome (ndebug : Bool) (n : Int) (pc : Char) (text : List Char) :
    (∀ id : Int, actionStringToID ndebug n [[pc], text] = .ok id →
      id = -1 ∨ (0 ≤ id ∧ id < 8 * n * n)) ∧
    (∀ (c0 c1 : Char) (rest : List Char), text = c0 :: c1 :: rest → isdigit c1 = false →
      actionStringToID ndebug n [[pc], text] = .error .invalid_argument) := by
  constructor
  · intro id h
    exact actionStringToID_result_range ndebug n _ id h
  · intro c0 c1 rest ht hc
    rw [ht]
    exact actionStringToID_no_row_digit ndebug n pc c0 c1 rest hc

theorem actionStringToID_outcome_witness :
    actionStringToID false 8 [['b'], "c3a1".toList] = .ok 338 ∧
    ((338 : Int) = -1 ∨ ((0 : Int) ≤ 338 ∧ (338 : Int) < 8 * 8 * 8)) ∧
    actionStringToID false 8 [['b'], "abcd".toList] = .error .invalid_argument :=
  ⟨by decide,
    (actionStringToID_outcome false 8 'b' "c3a1".toList).1 338 (by decide),
    (actionStringToID_outcome false 8 'b' "abcd".toList).2 'a' 'b' ['c', 'd'] (by decide)
      (by decide)⟩

/-- C7: for every move text of the form letter, digits, letter, digits whose letters are
column letters other than `i` and `I` and whose row numbers fit in a 32-bit `int`,
`actionStringToID` returns `-1` if a zero-based row (the decimal number minus one) or
column (the letter index without regard to case, letters after `i` shifted down by one)
is negative or not below the board size, and `coordinateToID` of the zero-based
coordinates otherwise. -/
theorem actionStringToID_wellformed (ndebug : Bool) (n : Int) (pc l1 l2 : Char)
    (ds1 ds2 : List Char)
    (hl1 : isColumnLetter l1) (hl2 : isColumnLetter l2)
    (hd1 : isRowNumber ds1) (hd2 : isRowNumber ds2)
    (hv1 : digitsValue ds1 ≤ 2147483647) (hv2 : digitsValue ds2 ≤ 2147483647) :
    actionStringToID ndebug n [[pc], l1 :: (ds1 ++ l2 :: ds2)] =
      .ok (specParse n l1 ds1 l2 ds2) :=
  parse_wellformed_aux ndebug n pc l1 l2 ds1 ds2 hl1 hl2 hd1 hd2 hv1 hv2

theorem actionStringToID_wellformed_witness :
    isColumnLetter 'c' ∧ isColumnLetter 'a' ∧ isRowNumber ['3'] ∧ isRowNumber ['1'] ∧
    digitsValue ['3'] ≤ 2147483647 ∧ digitsValue ['1'] ≤ 2147483647 ∧
    specParse 8 'c' ['3'] 'a' ['1'] = 338 ∧
    actionStringToID false 8 [['b'], 'c' :: (['3'] ++ 'a' :: ['1'])] =
      .ok (specParse 8 'c' ['3'] 'a' ['1']) :=
  ⟨by decide, by decide, by decide, by decide, by decide, by decide, by decide,
    actionStringToID_wellformed false 8 'b' 'c' 'a' ['3'] ['1'] (by decide) (by decide)
      (by decide) (by decide) (by decide) (by decide)⟩

/-! ## Helpers for the reachable states -/

theorem act_ok_cases (ndebug : Bool) (n : Int) (env env' : LeapFrogEnv) (a : LeapFrogAction)
    (flag : Bool) (h : act ndebug n env a = .ok (flag, env')) :
    (flag = false ∧ env' = env ∧ isLegalAction ndebug n env a = .ok false) ∨
    (flag = true ∧ env' = applyJump n env a ∧ isLegalAction ndebug n env a = .ok true) := by
  cases hl : isLegalAction ndebug n env a with
  | error e =>
    rw [act_of_fault ndebug n env a e hl] at h
    exact absurd h (by simp)
  | ok b =>
    cases b with
    | true =>
      rw [act_of_legal ndebug n env a hl] at h
      simp only [Except.ok.injEq, Prod.mk.injEq] at h
      exact Or.inr ⟨h.1.symm, h.2.symm, rfl⟩
    | false =>
      rw [act_of_illegal ndebug n env a hl] at h
      simp only [Except.ok.injEq, Prod.mk.injEq] at h
      exact Or.inl ⟨h.1.symm, h.2.symm, rfl⟩

theorem applyJump_bitboard (n : Int) (env : LeapFrogEnv) (a : LeapFrogAction) :
    (applyJump n env a).bitboard_ =
      jumpBoards env.bitboard_ a.player (getFromPos n a.action_id).toNat
        (getDestPos n a.action_id).toNat
        (Int.tdiv (getFromPos n a.action_id + getDestPos n a.action_id) 2).toNat := rfl

theorem and_eq_zero_iff_bits (x y : Nat) :
    x &&& y = 0 ↔ ∀ i : Nat, ¬ (x.testBit i = true ∧ y.testBit i = true) := by
  constructor
  · intro h i ⟨h1, h2⟩
    have := Nat.testBit_and x y i
    rw [h, h1, h2] at this
    simp at this
  · intro h
    apply Nat.eq_of_testBit_eq
    intro i
    rw [Nat.testBit_and, Nat.zero_testBit]
    cases h1 : x.testBit i
    · rfl
    · cases h2 : y.testBit i
      · rfl
      · exact absurd ⟨h1, h2⟩ (h i)

/-- A jump onto a square that is empty on both boards keeps the two boards disjoint. -/
theorem jumpBoards_disjoint (g : GamePair) (p : Player) (s t m : Nat)
    (hp : p ≠ .kPlayerNone) (hd : g.player1 &&& g.player2 = 0)
    (ht : ownerAt g t = .kPlayerNone) :
    (jumpBoards g p s t m).player1 &&& (jumpBoards g p s t m).player2 = 0 := by
  rw [and_eq_zero_iff_bits] at hd ⊢
  obtain ⟨ht1, ht2⟩ := (ownerAt_eq_none g t).mp ht
  intro i
  rcases p with _ | _ | _
  · exact absurd rfl hp
  · rw [jumpBoards_player1]
    simp only [testBit_put, testBit_clear, bits_capture]
    rintro ⟨h1, h2⟩
    by_cases hit : t = i
    · subst hit
      by_cases hm : t = m
      · simp [hm] at h2
      · simp [hm, ht2] at h2
    · by_cases hm : i = m
      · simp [hm] at h2
      · simp only [hm, if_false] at h2
        simp only [hit, decide_False, Bool.or_false, Bool.and_eq_true] at h1
        exact hd i ⟨h1.1, h2⟩
  · rw [jumpBoards_player2]
    simp only [testBit_put, testBit_clear, bits_capture]
    rintro ⟨h1, h2⟩
    by_cases hit : t = i
    · subst hit
      by_cases hm : t = m
      · simp [hm] at h1
      · simp [hm, ht1] at h1
    · by_cases hm : i = m
      · simp [hm] at h1
      · simp only [hm, if_false] at h1
        simp only [hit, decide_False, Bool.or_false, Bool.and_eq_true] at h2
        exact hd i ⟨h1, h2.1⟩

theorem getNextPlayer_ne_none (p : Player) (hp : p ≠ .kPlayerNone) :
    getNextPlayer p ≠ .kPlayerNone := by
  cases p <;> simp_all [getNextPlayer]

theorem getNextPlayer_ne_self (p : Player) (hp : p ≠ .kPlayerNone) :
    getNextPlayer p ≠ p := by
  cases p <;> simp_all [getNextPlayer]

theorem historyInvariant_applyJump (ndebug : Bool) (n : Int) (env : LeapFrogEnv)
    (a : LeapFrogAction) (hinv : HistoryInvariant env)
    (hl : isLegalAction ndebug n env a = .ok true) :
    HistoryInvariant (applyJump n env a) := by
  obtain ⟨hturn, hlen, hlast, hp1, hp2⟩ := hinv
  have hpl := ((isLegalAction_ok_true_iff ndebug n env a).mp hl).1
  have hreal : a.player ≠ .kPlayerNone := hpl ▸ hturn
  refine ⟨?_, ?_, ?_, ?_, ?_⟩
  · exact getNextPlayer_ne_none _ hreal
  · simp [applyJump, hlen]
  · simp [applyJump]
  · show getNextPlayer a.player = .kPlayer1 ↔ (env.actions_ ++ [a]).length % 2 = 0
    rw [hpl, List.length_append, List.length_singleton]
    rcases hc : env.turn_ with _ | _ | _
    · exact absurd hc hturn
    · have := hp1.mp hc
      simp [getNextPlayer]; omega
    · have := hp2.mp hc
      simp [getNextPlayer]; omega
  · show getNextPlayer a.player = .kPlayer2 ↔ (env.actions_ ++ [a]).length % 2 = 1
    rw [hpl, List.length_append, List.length_singleton]
    rcases hc : env.turn_ with _ | _ | _
    · exact absurd hc hturn
    · have := hp1.mp hc
      simp [getNextPlayer]; omega
    · have := hp2.mp hc
      simp [getNextPlayer]; omega

theorem reset_historyInvariant (n : Int) (env : LeapFrogEnv) (h : reset n = .ok env) :
    HistoryInvariant env := by
  unfold reset at h
  simp only [bind_eq_ok] at h
  obtain ⟨p1, _, p2, _, h⟩ := h
  simp only [pure, Except.pure, Except.ok.injEq] at h
  subst h
  exact ⟨by simp, by simp, by simp, by simp, by simp⟩

theorem reachable_historyInvariant (ndebug : Bool) (n : Int) (env : LeapFrogEnv)
    (h : Reachable ndebug n env) : HistoryInvariant env := by
  induction h with
  | start h0 => exact reset_historyInvariant n _ h0
  | step a _ hact ih =>
    rcases act_ok_cases ndebug n _ _ a _ hact with ⟨_, he, _⟩ | ⟨_, he, hl⟩
    · rw [he]; exact ih
    · rw [he]; exact historyInvariant_applyJump ndebug n _ a ih hl

theorem reachable_disjoint (ndebug : Bool) (env : LeapFrogEnv)
    (h : Reachable ndebug 8 env) :
    env.bitboard_.player1 &&& env.bitboard_.player2 = 0 := by
  induction h with
  | start h0 =>
    rw [reset_eq_initialEnv] at h0
    simp only [Except.ok.injEq] at h0
    subst h0
    decide
  | step a hr hact ih =>
    rcases act_ok_cases ndebug 8 _ _ a _ hact with ⟨_, he, _⟩ | ⟨_, he, hl⟩
    · rw [he]; exact ih
    · rw [he, applyJump_bitboard]
      have hturn := (reachable_historyInvariant ndebug 8 _ hr).1
      obtain ⟨hpl, _, _, _, _, ⟨_, _, hdo⟩⟩ := (isLegalAction_ok_true_iff ndebug 8 _ a).mp hl
      exact jumpBoards_disjoint _ _ _ _ _ (hpl ▸ hturn) ih hdo

/-- On a board of size 1 to 8 every id in range is judged without a fault. -/
theorem isLegalAction_returns_in_range (ndebug : Bool) (n : Int) (env : LeapFrogEnv)
    (a : LeapFrogAction) (hn : 1 ≤ n) (hn8 : n ≤ 8)
    (h0 : 0 ≤ a.action_id) (h1 : a.action_id < 8 * n * n) :
    isLegalAction ndebug n env a = .ok true ∨ isLegalAction ndebug n env a = .ok false := by
  have harea := board_area_le n hn hn8
  have hnn : 0 < n * n := mul_pos (by omega) (by omega)
  have hsrc := getFromPos_eq_spec n a.action_id hn h0
  have hdest := getDestPos_eq_spec n a.action_id hn h0 h1
  have hs0 : 0 ≤ a.action_id % (n * n) := Int.emod_nonneg _ hnn.ne'
  have hs1 : a.action_id % (n * n) < n * n := Int.emod_lt_of_pos _ hnn
  apply isLegalAction_returns
  · exact Or.inr ⟨h0, by simpa [kNumDirections] using h1⟩
  · rw [hsrc]; exact ⟨hs0, by omega⟩
  · intro hd
    have hon : onBoard n (specTarget n a.action_id) := by
      by_contra hcon
      rw [if_neg hcon] at hdest
      exact hd hdest
    rw [if_pos hon] at hdest
    obtain ⟨hmon, hmid, -⟩ := jump_geometry n a.action_id hn h0 h1 hon
    have hm := squareIndex_bounds n _ hmon
    have hd := squareIndex_bounds n _ hon
    rw [hsrc, hdest, hmid]
    exact ⟨⟨hm.1, by omega⟩, ⟨hd.1, by omega⟩⟩

/-- The loop of `getLegalActions` is a filter when no candidate faults. -/
theorem getLegalActionsLoop_eq_filter (ndebug : Bool) (n : Int) (env : LeapFrogEnv) :
    ∀ l : List Nat,
      (∀ k ∈ l, isLegalAction ndebug n env ⟨(k : Int), env.turn_⟩ = .ok true ∨
        isLegalAction ndebug n env ⟨(k : Int), env.turn_⟩ = .ok false) →
      getLegalActionsLoop ndebug n env l =
        .ok ((l.filter (fun k : Nat =>
          decide (isLegalAction ndebug n env ⟨(k : Int), env.turn_⟩ = .ok true))).map
          (fun k : Nat => (⟨(k : Int), env.turn_⟩ : LeapFrogAction))) := by
  intro l
  induction l with
  | nil => intro _; rfl
  | cons k rest ih =>
    intro h
    have ih2 := ih (fun j hj => h j (List.mem_cons_of_mem _ hj))
    unfold getLegalActionsLoop
    rcases h k (List.mem_cons_self _ _) with hk | hk
    · simp [hk, ih2, bind, Except.bind, pure, Except.pure]
    · simp [hk, ih2, bind, Except.bind, pure, Except.pure]

theorem getLegalActions_spec_aux (ndebug : Bool) (n : Int) (env : LeapFrogEnv)
    (hn : 1 ≤ n) (hn8 : n ≤ 8) :
    ∃ acts : List LeapFrogAction, getLegalActions ndebug n env = .ok acts ∧
      (∀ a : LeapFrogAction, a ∈ acts ↔
        (a.player = env.turn_ ∧ 0 ≤ a.action_id ∧ a.action_id < 8 * n * n ∧
          isLegalAction ndebug n env a = .ok true)) ∧
      acts.Pairwise (fun a b => a.action_id < b.action_id) ∧ acts.Nodup := by
  have hN : ((kNumDirections * n * n).toNat : Int) = 8 * n * n := by
    have : 0 ≤ 8 * n * n := by nlinarith
    simp only [kNumDirections]
    omega
  have hret : ∀ k ∈ List.range (kNumDirections * n * n).toNat,
      isLegalAction ndebug n env ⟨(k : Int), env.turn_⟩ = .ok true ∨
      isLegalAction ndebug n env ⟨(k : Int), env.turn_⟩ = .ok false := by
    intro k hk
    rw [List.mem_range] at hk
    exact isLegalAction_returns_in_range ndebug n env _ hn hn8 (by simp) (by
      show (k : Int) < 8 * n * n
      omega)
  have hsorted : ((List.range (kNumDirections * n * n).toNat).filter (fun k : Nat =>
        decide (isLegalAction ndebug n env ⟨(k : Int), env.turn_⟩ = .ok true))).map
        (fun k : Nat => (⟨(k : Int), env.turn_⟩ : LeapFrogAction)) |>.Pairwise
        (fun a b => a.action_id < b.action_id) := by
    rw [List.pairwise_map]
    apply List.Pairwise.filter
    exact (List.pairwise_lt_range _).imp (fun h => by
      show ((_ : Nat) : Int) < ((_ : Nat) : Int)
      exact_mod_cast h)
  refine ⟨_, getLegalActionsLoop_eq_filter ndebug n env _ hret, ?_, hsorted, ?_⟩
  · intro a
    simp only [List.mem_map, List.mem_filter, List.mem_range, decide_eq_true_eq]
    constructor
    · rintro ⟨k, ⟨hk, hl⟩, rfl⟩
      exact ⟨rfl, by simp, by show (k : Int) < 8 * n * n; omega, hl⟩
    · rintro ⟨hp, h0, h1, hl⟩
      refine ⟨a.action_id.toNat, ⟨by omega, ?_⟩, ?_⟩
      · rw [Int.toNat_of_nonneg h0, ← hp]; exact hl
      · rw [Int.toNat_of_nonneg h0, ← hp]
  · have hne : List.Pairwise (fun a b : LeapFrogAction => a ≠ b) _ :=
      hsorted.imp (fun {a b} h he => by rw [he] at h; exact lt_irrefl _ h)
    exact hne

/-! ## Claims on the initial state and the reachable states -/

set_option maxRecDepth 100000 in
/-- C11: `reset()` on the 8 by 8 board reads nothing of the prior state and produces one
state, `initialEnv`: the turn is Player 1, the action list is empty, the history holds
exactly one snapshot, equal to the current bitboards, each player has exactly 12 pieces,
on the squares of the documented diagram, and `getLegalActions` is not empty (it holds
Player 1's jump e7c7 over d7, id 436), so that `isTerminal` is false. -/
theorem reset_initial_state : ∀ ndebug : Bool,
    reset 8 = .ok initialEnv ∧
    initialEnv.turn_ = .kPlayer1 ∧ initialEnv.actions_ = [] ∧
    initialEnv.bitboard_history_ = [initialEnv.bitboard_] ∧
    pieceCount initialEnv.bitboard_.player1 = 12 ∧
    pieceCount initialEnv.bitboard_.player2 = 12 ∧
    (∀ row : Nat, row < 8 → ∀ col : Nat, col < 8 →
      ownerAt initialEnv.bitboard_ (row * 8 + col) = diagramPlayer row col) ∧
    (∃ acts, getLegalActions ndebug 8 initialEnv = .ok acts ∧ acts ≠ [] ∧
      (⟨436, .kPlayer1⟩ : LeapFrogAction) ∈ acts) ∧
    actionIDtoString 8 436 = "e7c7".toList ∧
    isTerminal ndebug 8 initialEnv = .ok false := by
  intro ndebug
  refine ⟨by decide, rfl, rfl, rfl, by decide, by decide, by decide, ?_, by decide, ?_⟩
  · cases ndebug
    · exact ⟨_, rfl, by decide, by decide⟩
    · exact ⟨_, rfl, by decide, by decide⟩
  · cases ndebug <;> decide

/-- C12: in every engine state reachable from `reset()` on the 8 by 8 board by any
sequence of `act` calls, the two players' bitboards are disjoint: no square is occupied
by both players. -/
theorem reachable_bitboards_disjoint (ndebug : Bool) (env : LeapFrogEnv)
    (h : Reachable ndebug 8 env) :
    env.bitboard_.player1 &&& env.bitboard_.player2 = 0 ∧
    ∀ i : Nat, ¬ (env.bitboard_.player1.testBit i = true ∧
      env.bitboard_.player2.testBit i = true) := by
  have hd := reachable_disjoint ndebug env h
  exact ⟨hd, (and_eq_zero_iff_bits _ _).mp hd⟩

theorem reachable_bitboards_disjoint_witness :
    Reachable false 8 (applyJump 8 initialEnv ⟨436, .kPlayer1⟩) ∧
    (applyJump 8 initialEnv ⟨436, .kPlayer1⟩).bitboard_.player1 &&&
      (applyJump 8 initialEnv ⟨436, .kPlayer1⟩).bitboard_.player2 = 0 ∧
    ∀ i : Nat, ¬ ((applyJump 8 initialEnv ⟨436, .kPlayer1⟩).bitboard_.player1.testBit i = true ∧
      (applyJump 8 initialEnv ⟨436, .kPlayer1⟩).bitboard_.player2.testBit i = true) :=
  have hr : Reachable false 8 (applyJump 8 initialEnv ⟨436, .kPlayer1⟩) :=
    Reachable.step ⟨436, .kPlayer1⟩ (Reachable.start reset_eq_initialEnv)
      (act_of_legal false 8 initialEnv ⟨436, .kPlayer1⟩ (by decide))
  ⟨hr, reachable_bitboards_disjoint false _ hr⟩

/-- C13: in every engine state reachable from `reset()` by any sequence of `act` calls,
accepted or rejected, the history has one snapshot more than there are actions, its last
snapshot is the current pair of bitboards, and the turn is Player 1 exactly when the
number of actions is even and Player 2 exactly when it is odd; `act` accepts every action
that `isLegalAction` accepts, an accepted `act` appends exactly one action and one
snapshot (the new bitboards) and flips the turn, and a rejected one changes nothing. -/
theorem reachable_history_turn (ndebug : Bool) (n : Int) (env : LeapFrogEnv)
    (h : Reachable ndebug n env) :
    env.bitboard_history_.length = env.actions_.length + 1 ∧
    env.bitboard_history_.getLast? = some env.bitboard_ ∧
    (env.turn_ = .kPlayer1 ↔ env.actions_.length % 2 = 0) ∧
    (env.turn_ = .kPlayer2 ↔ env.actions_.length % 2 = 1) ∧
    (∀ (a : LeapFrogAction) (env' : LeapFrogEnv), act ndebug n env a = .ok (true, env') →
      env'.actions_ = env.actions_ ++ [a] ∧
      env'.bitboard_history_ = env.bitboard_history_ ++ [env'.bitboard_] ∧
      env'.turn_ = getNextPlayer env.turn_ ∧ env'.turn_ ≠ env.turn_) ∧
    (∀ (a : LeapFrogAction) (env' : LeapFrogEnv), act ndebug n env a = .ok (false, env') →
      env' = env) ∧
    (∀ a : LeapFrogAction, isLegalAction ndebug n env a = .ok true →
      ∃ env' : LeapFrogEnv, act ndebug n env a = .ok (true, env') ∧
        env'.actions_ = env.actions_ ++ [a] ∧
        env'.bitboard_history_ = env.bitboard_history_ ++ [env'.bitboard_] ∧
        env'.actions_.length = env.actions_.length + 1 ∧
        env'.bitboard_history_.length = env.bitboard_history_.length + 1 ∧
        env'.turn_ = getNextPlayer env.turn_ ∧ env'.turn_ ≠ env.turn_ ∧
        Reachable ndebug n env') := by
  obtain ⟨hturn, hlen, hlast, hp1, hp2⟩ := reachable_historyInvariant ndebug n env h
  have hacc : ∀ (a : LeapFrogAction) (env' : LeapFrogEnv),
      act ndebug n env a = .ok (true, env') →
      env'.actions_ = env.actions_ ++ [a] ∧
      env'.bitboard_history_ = env.bitboard_history_ ++ [env'.bitboard_] ∧
      env'.turn_ = getNextPlayer env.turn_ ∧ env'.turn_ ≠ env.turn_ := by
    intro a env' hact
    rcases act_ok_cases ndebug n _ _ a _ hact with ⟨hf, _, _⟩ | ⟨_, he, hl⟩
    · exact absurd hf (by simp)
    · have hpl := ((isLegalAction_ok_true_iff ndebug n env a).mp hl).1
      subst he
      refine ⟨rfl, rfl, ?_, ?_⟩
      · show getNextPlayer a.player = getNextPlayer env.turn_
        rw [hpl]
      · show getNextPlayer a.player ≠ env.turn_
        rw [hpl]
        exact getNextPlayer_ne_self _ hturn
  refine ⟨hlen, hlast, hp1, hp2, hacc, ?_, ?_⟩
  · intro a env' hact
    rcases act_ok_cases ndebug n _ _ a _ hact with ⟨_, he, _⟩ | ⟨hf, _, _⟩
    · exact he
    · exact absurd hf (by simp)
  · intro a hl
    have hact := act_of_legal ndebug n env a hl
    obtain ⟨e1, e2, e3, e4⟩ := hacc a _ hact
    refine ⟨applyJump n env a, hact, e1, e2, ?_, ?_, e3, e4, Reachable.step a h hact⟩
    · rw [e1]; simp
    · rw [e2]; simp

set_option maxRecDepth 100000 in
theorem reachable_history_turn_witness :
    act false 8 initialEnv ⟨436, .kPlayer1⟩ =
      .ok (true, applyJump 8 initialEnv ⟨436, .kPlayer1⟩) ∧
    Reachable false 8 (applyJump 8 initialEnv ⟨436, .kPlayer1⟩) ∧
    (applyJump 8 initialEnv ⟨436, .kPlayer1⟩).actions_ = [⟨436, .kPlayer1⟩] ∧
    (applyJump 8 initialEnv ⟨436, .kPlayer1⟩).turn_ = .kPlayer2 ∧
    (applyJump 8 initialEnv ⟨436, .kPlayer1⟩).bitboard_history_ =
      [initialEnv.bitboard_, (applyJump 8 initialEnv ⟨436, .kPlayer1⟩).bitboard_] ∧
    (applyJump 8 initialEnv ⟨436, .kPlayer1⟩).bitboard_ ≠ initialEnv.bitboard_ ∧
    (applyJump 8 initialEnv ⟨436, .kPlayer1⟩).bitboard_history_.length =
      (applyJump 8 initialEnv ⟨436, .kPlayer1⟩).actions_.length + 1 ∧
    isLegalAction false 8 (applyJump 8 initialEnv ⟨436, .kPlayer1⟩) ⟨35, .kPlayer2⟩ =
      .ok true ∧
    ∃ env' : LeapFrogEnv,
      act false 8 (applyJump 8 initialEnv ⟨436, .kPlayer1⟩) ⟨35, .kPlayer2⟩ =
        .ok (true, env') ∧
      env'.actions_ = [⟨436, .kPlayer1⟩, ⟨35, .kPlayer2⟩] ∧
      env'.bitboard_history_.length = 3 ∧
      env'.turn_ = .kPlayer1 :=
  have hact : act false 8 initialEnv ⟨436, .kPlayer1⟩ =
      .ok (true, applyJump 8 initialEnv ⟨436, .kPlayer1⟩) :=
    act_of_legal false 8 initialEnv ⟨436, .kPlayer1⟩ (by decide)
  have hr : Reachable false 8 (applyJump 8 initialEnv ⟨436, .kPlayer1⟩) :=
    Reachable.step ⟨436, .kPlayer1⟩ (Reachable.start reset_eq_initialEnv) hact
  let ⟨hlen, _, _, _, _, _, hlegal⟩ :=
    reachable_history_turn false 8 (applyJump 8 initialEnv ⟨436, .kPlayer1⟩) hr
  let ⟨env', h1, h2, _, _, h5, h6, _, _⟩ := hlegal ⟨35, .kPlayer2⟩ (by decide)
  ⟨hact, hr, rfl, rfl, rfl, by decide, hlen, by decide, env', h1, h2, h5, h6⟩

/-! ## Claims on the legal actions, termination and scores -/

/-- C14: on a board of size 1 to 8, for every engine state, `getLegalActions` returns
exactly the actions `(id, turn)` with `id` in `[0, 8*n*n)` that `isLegalAction` accepts,
each exactly once, in strictly ascending order of id. -/
theorem getLegalActions_spec (ndebug : Bool) (n : Int) (env : LeapFrogEnv)
    (hn : 1 ≤ n) (hn8 : n ≤ 8) :
    ∃ acts : List LeapFrogAction, getLegalActions ndebug n env = .ok acts ∧
      (∀ a : LeapFrogAction, a ∈ acts ↔
        (a.player = env.turn_ ∧ 0 ≤ a.action_id ∧ a.action_id < 8 * n * n ∧
          isLegalAction ndebug n env a = .ok true)) ∧
      acts.Pairwise (fun a b => a.action_id < b.action_id) ∧ acts.Nodup :=
  getLegalActions_spec_aux ndebug n env hn hn8

theorem getLegalActions_spec_witness :
    (1 : Int) ≤ 8 ∧ (8 : Int) ≤ 8 ∧
    ∃ acts : List LeapFrogAction, getLegalActions false 8 initialEnv = .ok acts ∧
      (∀ a : LeapFrogAction, a ∈ acts ↔
        (a.player = initialEnv.turn_ ∧ 0 ≤ a.action_id ∧ a.action_id < 8 * 8 * 8 ∧
          isLegalAction false 8 initialEnv a = .ok true)) ∧
      acts.Pairwise (fun a b => a.action_id < b.action_id) ∧ acts.Nodup :=
  ⟨by decide, by decide, getLegalActions_spec false 8 initialEnv (by decide) (by decide)⟩

/-- The terminal test, given the list of legal actions. -/
theorem isTerminal_of_legal (ndebug : Bool) (n : Int) (env : LeapFrogEnv)
    (acts : List LeapFrogAction) (h : getLegalActions ndebug n env = .ok acts) :
    isTerminal ndebug n env =
      .ok (decide (acts = [] ∨ (env.actions_.length : Int) > 5 * n * n)) := by
  unfold isTerminal
  by_cases hc : (env.actions_.length : Int) > 5 * n * n
  · simp [hc, pure, Except.pure]
  · cases acts <;> simp [hc, h, bind, Except.bind, pure, Except.pure]

theorem isTerminal_of_cap (ndebug : Bool) (n : Int) (env : LeapFrogEnv)
    (hc : (env.actions_.length : Int) > 5 * n * n) :
    isTerminal ndebug n env = .ok true := by
  unfold isTerminal
  simp [hc, pure, Except.pure]

/-- C15: on a board of size 1 to 8, for every engine state, `isTerminal` returns, and it
is true if and only if `getLegalActions` is empty or the number of actions exceeds
`5*n*n`; with `5*n*n + 1` actions it is true whatever legal moves remain, and with exactly
`5*n*n` actions and a legal move it is false. -/
theorem isTerminal_spec (ndebug : Bool) (n : Int) (env : LeapFrogEnv)
    (hn : 1 ≤ n) (hn8 : n ≤ 8) :
    ∃ (acts : List LeapFrogAction) (t : Bool),
      getLegalActions ndebug n env = .ok acts ∧ isTerminal ndebug n env = .ok t ∧
      (t = true ↔ (acts = [] ∨ (env.actions_.length : Int) > 5 * n * n)) ∧
      ((env.actions_.length : Int) = 5 * n * n + 1 → t = true) ∧
      ((env.actions_.length : Int) = 5 * n * n → acts ≠ [] → t = false) := by
  obtain ⟨acts, hacts, _⟩ := getLegalActions_spec_aux ndebug n env hn hn8
  refine ⟨acts, _, hacts, isTerminal_of_legal ndebug n env acts hacts, by simp, ?_, ?_⟩
  · intro h
    simp only [decide_eq_true_eq]
    right; omega
  · intro h hne
    simp only [decide_eq_false_iff_not, not_or]
    exact ⟨hne, by omega⟩

theorem isTerminal_spec_witness :
    (1 : Int) ≤ 8 ∧ (8 : Int) ≤ 8 ∧
    ∃ (acts : List LeapFrogAction) (t : Bool),
      getLegalActions false 8 initialEnv = .ok acts ∧ isTerminal false 8 initialEnv = .ok t ∧
      (t = true ↔ (acts = [] ∨ (initialEnv.actions_.length : Int) > 5 * 8 * 8)) ∧
      ((initialEnv.actions_.length : Int) = 5 * 8 * 8 + 1 → t = true) ∧
      ((initialEnv.actions_.length : Int) = 5 * 8 * 8 → acts ≠ [] → t = false) :=
  ⟨by decide, by decide, isTerminal_spec false 8 initialEnv (by decide) (by decide)⟩

theorem getEvalScore_of_legal (ndebug : Bool) (n : Int) (env : LeapFrogEnv)
    (acts : List LeapFrogAction) (h : getLegalActions ndebug n env = .ok acts) :
    getEvalScore ndebug n env false =
      .ok (if acts = [] then
            (match getNextPlayer env.turn_ with
              | .kPlayer1 => 1 + 1 / 100000
              | .kPlayer2 => -1 - 1 / 100000
              | _ => 0)
           else 0) := by
  unfold getEvalScore eval
  cases acts with
  | nil =>
    cases hp : getNextPlayer env.turn_ <;>
      simp [h, hp, bind, Except.bind, pure, Except.pure]
  | cons a t => simp [h, bind, Except.bind, pure, Except.pure]

/-- C16: on a board of size 1 to 8, in every engine state whose side to move is a player,
`getEvalScore(false)` returns; the score is strictly positive (`1 + 1e-5`) exactly when
the side to move is Player 2 and has no legal action, strictly negative (`-1 - 1e-5`)
exactly when the side to move is Player 1 and has no legal action, and 0 whenever the
side to move has a legal action, whatever the number of actions played. -/
theorem getEvalScore_no_resign (ndebug : Bool) (n : Int) (env : LeapFrogEnv)
    (hn : 1 ≤ n) (hn8 : n ≤ 8) (hturn : env.turn_ ≠ .kPlayerNone) :
    ∃ (acts : List LeapFrogAction) (score : Rat),
      getLegalActions ndebug n env = .ok acts ∧
      getEvalScore ndebug n env false = .ok score ∧
      (0 < score ↔ (env.turn_ = .kPlayer2 ∧ acts = [])) ∧
      (score < 0 ↔ (env.turn_ = .kPlayer1 ∧ acts = [])) ∧
      (acts ≠ [] → score = 0) ∧
      (0 < score → score = 1 + 1 / 100000) ∧
      (score < 0 → score = -1 - 1 / 100000) := by
  obtain ⟨acts, hacts, _⟩ := getLegalActions_spec_aux ndebug n env hn hn8
  refine ⟨acts, _, hacts, getEvalScore_of_legal ndebug n env acts hacts, ?_⟩
  by_cases hempty : acts = []
  · rcases hc : env.turn_ with _ | _ | _
    · exact absurd hc hturn
    · simp only [hempty, if_true, getNextPlayer]
      norm_num
      decide
    · simp only [hempty, if_true, getNextPlayer]
      norm_num
      decide
  · simp [hempty]

theorem getEvalScore_no_resign_witness :
    (1 : Int) ≤ 8 ∧ (8 : Int) ≤ 8 ∧ initialEnv.turn_ ≠ .kPlayerNone ∧
    ∃ (acts : List LeapFrogAction) (score : Rat),
      getLegalActions false 8 initialEnv = .ok acts ∧
      getEvalScore false 8 initialEnv false = .ok score ∧
      (0 < score ↔ (initialEnv.turn_ = .kPlayer2 ∧ acts = [])) ∧
      (score < 0 ↔ (initialEnv.turn_ = .kPlayer1 ∧ acts = [])) ∧
      (acts ≠ [] → score = 0) ∧
      (0 < score → score = 1 + 1 / 100000) ∧
      (score < 0 → score = -1 - 1 / 100000) :=
  ⟨by decide, by decide, by decide,
    getEvalScore_no_resign false 8 initialEnv (by decide) (by decide) (by decide)⟩

/-- C17: in every engine state whose side to move is a player, `getEvalScore(true)` names
the opponent of the side to move as the winner whatever the board holds: the score is
`-1 - 1e-5`, strictly negative, when the turn is Player 1 and `1 + 1e-5`, strictly
positive, when the turn is Player 2, and it is never 0. -/
theorem getEvalScore_resign (ndebug : Bool) (n : Int) (env : LeapFrogEnv)
    (hturn : env.turn_ ≠ .kPlayerNone) :
    ∃ score : Rat, getEvalScore ndebug n env true = .ok score ∧
      (env.turn_ = .kPlayer1 → score = -1 - 1 / 100000 ∧ score < 0) ∧
      (env.turn_ = .kPlayer2 → score = 1 + 1 / 100000 ∧ 0 < score) ∧
      score ≠ 0 := by
  unfold getEvalScore
  rcases hc : env.turn_ with _ | _ | _
  · exact absurd hc hturn
  · refine ⟨-1 - 1 / 100000, by simp [getNextPlayer, bind, Except.bind, pure, Except.pure], ?_⟩
    norm_num
    decide
  · refine ⟨1 + 1 / 100000, by simp [getNextPlayer, bind, Except.bind, pure, Except.pure], ?_⟩
    norm_num
    decide

theorem getEvalScore_resign_witness :
    initialEnv.turn_ ≠ .kPlayerNone ∧
    ∃ score : Rat, getEvalScore false 8 initialEnv true = .ok score ∧
      (initialEnv.turn_ = .kPlayer1 → score = -1 - 1 / 100000 ∧ score < 0) ∧
      (initialEnv.turn_ = .kPlayer2 → score = 1 + 1 / 100000 ∧ 0 < score) ∧
      score ≠ 0 :=
  ⟨by decide, getEvalScore_resign false 8 initialEnv (by decide)⟩

/-- C19: for every action with id in `[0, 8*n*n)` and every rotation, `getActionFeatures`
returns a vector of length `8*n*n` whose entry at index `id` is 1 and whose every other
entry is 0; the rotated action id is the id itself under every rotation. -/
theorem getActionFeatures_one_hot {Rotation : Type} (n : Int) (a : LeapFrogAction)
    (rotation : Rotation) (h0 : 0 ≤ a.action_id) (h1 : a.action_id < 8 * n * n) :
    ∃ v : List Rat, getActionFeatures n a rotation = .ok v ∧
      (v.length : Int) = 8 * n * n ∧
      (∀ i : Nat, i < v.length →
        v.get? i = some (if (i : Int) = a.action_id then 1 else 0)) ∧
      getRotateAction a.action_id rotation = a.action_id := by
  have hlen : ((getPolicySize n).toNat : Int) = 8 * n * n := by
    simp only [getPolicySize, kNumDirections]
    omega
  unfold getActionFeatures vectorSet getRotateAction
  simp only [List.length_replicate]
  rw [if_pos ⟨h0, by omega⟩]
  refine ⟨_, rfl, by simpa using hlen, ?_, trivial⟩
  intro i hi
  simp only [List.length_set, List.length_replicate] at hi
  rw [List.get?_eq_getElem?, List.getElem?_set]
  by_cases hia : (i : Int) = a.action_id
  · have : a.action_id.toNat = i := by omega
    simp [hia, this, hi]
  · have : a.action_id.toNat ≠ i := by omega
    simp [hia, this, hi]

theorem getActionFeatures_one_hot_witness :
    (0 : Int) ≤ (LeapFrogAction.mk 436 .kPlayer1).action_id ∧
    (LeapFrogAction.mk 436 .kPlayer1).action_id < 8 * 8 * 8 ∧
    ∃ v : List Rat, getActionFeatures 8 (LeapFrogAction.mk 436 .kPlayer1) (3 : Nat) = .ok v ∧
      (v.length : Int) = 8 * 8 * 8 ∧
      (∀ i : Nat, i < v.length →
        v.get? i = some (if (i : Int) = (LeapFrogAction.mk 436 .kPlayer1).action_id
          then 1 else 0)) ∧
      getRotateAction (LeapFrogAction.mk 436 .kPlayer1).action_id (3 : Nat) =
        (LeapFrogAction.mk 436 .kPlayer1).action_id :=
  ⟨by decide, by decide,
    getActionFeatures_one_hot 8 (LeapFrogAction.mk 436 .kPlayer1) (3 : Nat) (by decide)
      (by decide)⟩

/-! ## Helpers for the feature vector -/

theorem writesOf_refl (g : Nat → Rat) (f : List Rat) : WritesOf g (fun _ => False) f f :=
  ⟨rfl, fun _ _ => ⟨fun h => absurd h id, fun _ => rfl⟩⟩

theorem writesOf_set (g : Nat → Rat) (f : List Rat) (j : Nat) (hj : j < f.length) :
    WritesOf g (fun i => i = j) f (f.set j (g j)) := by
  refine ⟨by simp, fun i hi => ⟨?_, ?_⟩⟩
  · intro h
    subst h
    simp [List.get?_eq_getElem?, List.getElem?_set, hi]
  · intro h
    simp [List.get?_eq_getElem?, List.getElem?_set, Ne.symm h]

theorem writesOf_trans (g : Nat → Rat) (W1 W2 : Nat → Prop) (f f1 f2 : List Rat)
    (h1 : WritesOf g W1 f f1) (h2 : WritesOf g W2 f1 f2) :
    WritesOf g (fun i => W1 i ∨ W2 i) f f2 := by
  refine ⟨h2.1.trans h1.1, fun i hi => ⟨?_, ?_⟩⟩
  · intro h
    by_cases hw2 : W2 i
    · exact (h2.2 i (h1.1 ▸ hi)).1 hw2
    · rw [(h2.2 i (h1.1 ▸ hi)).2 hw2]
      rcases h with h | h
      · exact (h1.2 i hi).1 h
      · exact absurd h hw2
  · intro h
    rw [(h2.2 i (h1.1 ▸ hi)).2 (fun hw => h (Or.inr hw))]
    exact (h1.2 i hi).2 (fun hw => h (Or.inl hw))

theorem writesOf_congr (g : Nat → Rat) (W W' : Nat → Prop) (f f' : List Rat)
    (h : WritesOf g W f f') (hw : ∀ i, i < f.length → (W i ↔ W' i)) : WritesOf g W' f f' :=
  ⟨h.1, fun i hi => ⟨fun h1 => (h.2 i hi).1 ((hw i hi).mpr h1),
    fun h1 => (h.2 i hi).2 (fun h2 => h1 ((hw i hi).mp h2))⟩⟩

theorem vectorSet_writes (g : Nat → Rat) (f : List Rat) (j : Nat) (x : Rat)
    (hj : j < f.length) (hx : x = g j) :
    ∃ f', vectorSet f (j : Int) x = .ok f' ∧ WritesOf g (fun i => i = j) f f' := by
  refine ⟨f.set j (g j), ?_, writesOf_set g f j hj⟩
  unfold vectorSet
  rw [if_pos ⟨by omega, by omega⟩, hx]
  rfl

theorem featureAt_plane (n : Int) (env : LeapFrogEnv) (S plane p : Nat)
    (hS : (n * n).toNat = S) (hp : p < S) :
    featureAt n env (p + plane * S) =
      if plane < 16 then
        match env.bitboard_history_.reverse.get? (plane / 2) with
        | some snapshot =>
          if (snapshot.get (if plane % 2 = 0 then env.turn_
              else getNextPlayer env.turn_)).testBit p then 1 else 0
        | none => 0
      else if plane = 16 then (if env.turn_ = .kPlayer1 then 1 else 0)
      else (if env.turn_ = .kPlayer2 then 1 else 0) := by
  have h1 : (p + plane * S) / S = plane := by
    rw [Nat.add_mul_div_right _ _ (by omega), Nat.div_eq_of_lt hp, Nat.zero_add]
  have h2 : (p + plane * S) % S = p := by
    rw [Nat.add_mul_mod_self_right, Nat.mod_eq_of_lt hp]
  unfold featureAt
  simp only [hS, h1, h2]

theorem test_ok (b : LeapFrogBitboard) (p : Nat) (hp : p < 64) :
    b.test (p : Int) = .ok (b.testBit p) := by
  unfold LeapFrogBitboard.test
  rw [if_pos ⟨by omega, by omega⟩]
  rfl

theorem writeOccupancy_writes {Rotation : Type} (reversed : Rotation) (g : Nat → Rat)
    (own opp : LeapFrogBitboard) (S k : Nat) (hS : S ≤ 64)
    (hown : ∀ p, p < S → g (p + 2 * k * S) = if own.testBit p then 1 else 0)
    (hopp : ∀ p, p < S → g (p + (2 * k + 1) * S) = if opp.testBit p then 1 else 0) :
    ∀ (ps : List Nat) (f : List Rat), (∀ p ∈ ps, p < S) → (2 * k + 2) * S ≤ f.length →
      ∃ f', writeOccupancy reversed own opp (S : Int) (2 * (k : Int)) ps f = .ok f' ∧
        WritesOf g (fun i => ∃ p ∈ ps, i = p + 2 * k * S ∨ i = p + (2 * k + 1) * S) f f' := by
  intro ps
  induction ps with
  | nil =>
    intro f _ _
    exact ⟨f, rfl, writesOf_congr g _ _ f f (writesOf_refl g f) (fun i _ => by simp)⟩
  | cons p rest ih =>
    intro f hps hlen
    have hp : p < S := hps p (List.mem_cons_self _ _)
    have e1 : (2 * k + 2) * S = 2 * k * S + S + S := by ring
    have e2 : (2 * k + 1) * S = 2 * k * S + S := by ring
    have hi1 : ((p : Int) + 2 * (k : Int) * (S : Int)) = ((p + 2 * k * S : Nat) : Int) := by
      push_cast; ring
    have hi2 : ((p : Int) + (2 * (k : Int) + 1) * (S : Int)) =
        ((p + (2 * k + 1) * S : Nat) : Int) := by
      push_cast; ring
    obtain ⟨f1, hf1, w1⟩ := vectorSet_writes g f (p + 2 * k * S)
      (if own.testBit p then 1 else 0) (by omega) (hown p hp).symm
    obtain ⟨f2, hf2, w2⟩ := vectorSet_writes g f1 (p + (2 * k + 1) * S)
      (if opp.testBit p then 1 else 0) (by rw [w1.1]; omega) (hopp p hp).symm
    have w12 := writesOf_trans g _ _ f f1 f2 w1 w2
    obtain ⟨f3, hf3, w3⟩ := ih f2 (fun q hq => hps q (List.mem_cons_of_mem _ hq))
      (by rw [w12.1]; exact hlen)
    refine ⟨f3, ?_, ?_⟩
    · unfold writeOccupancy
      simp only [getRotatePosition, test_ok own p (by omega), test_ok opp p (by omega),
        hi1, hi2, hf1, hf2, bind, Except.bind]
      exact hf3
    · refine writesOf_congr g _ _ f f3 (writesOf_trans g _ _ f f2 f3 w12 w3) (fun i _ => ?_)
      simp only [List.mem_cons, exists_eq_or_imp]

theorem writeTurn_writes (g : Nat → Rat) (turn : Player) (S : Nat)
    (h16 : ∀ p, p < S → g (p + 16 * S) = if turn = .kPlayer1 then 1 else 0)
    (h17 : ∀ p, p < S → g (p + 17 * S) = if turn = .kPlayer2 then 1 else 0) :
    ∀ (ps : List Nat) (f : List Rat), (∀ p ∈ ps, p < S) → 18 * S ≤ f.length →
      ∃ f', writeTurn turn (S : Int) ps f = .ok f' ∧
        WritesOf g (fun i => ∃ p ∈ ps, i = p + 16 * S ∨ i = p + 17 * S) f f' := by
  intro ps
  induction ps with
  | nil =>
    intro f _ _
    exact ⟨f, rfl, writesOf_congr g _ _ f f (writesOf_refl g f) (fun i _ => by simp)⟩
  | cons p rest ih =>
    intro f hps hlen
    have hp : p < S := hps p (List.mem_cons_self _ _)
    have hi1 : ((p : Int) + 16 * (S : Int)) = ((p + 16 * S : Nat) : Int) := by push_cast; ring
    have hi2 : ((p : Int) + 17 * (S : Int)) = ((p + 17 * S : Nat) : Int) := by push_cast; ring
    obtain ⟨f1, hf1, w1⟩ := vectorSet_writes g f (p + 16 * S)
      (if turn = .kPlayer1 then 1 else 0) (by omega) (h16 p hp).symm
    obtain ⟨f2, hf2, w2⟩ := vectorSet_writes g f1 (p + 17 * S)
      (if turn = .kPlayer2 then 1 else 0) (by rw [w1.1]; omega) (h17 p hp).symm
    have w12 := writesOf_trans g _ _ f f1 f2 w1 w2
    obtain ⟨f3, hf3, w3⟩ := ih f2 (fun q hq => hps q (List.mem_cons_of_mem _ hq))
      (by rw [w12.1]; exact hlen)
    refine ⟨f3, ?_, ?_⟩
    · unfold writeTurn
      simp only [hi1, hi2, hf1, hf2, bind, Except.bind]
      exact hf3
    · refine writesOf_congr g _ _ f f3 (writesOf_trans g _ _ f f2 f3 w12 w3) (fun i _ => ?_)
      simp only [List.mem_cons, exists_eq_or_imp]

theorem snapshotAt_recent (history : List GamePair) (k : Nat) (hk : k < history.length) :
    ∃ snapshot, history.reverse.get? k = some snapshot ∧
      snapshotAt history ((history.length : Int) - 1 - Int.tdiv (2 * (k : Int)) 2) =
        .ok snapshot := by
  have hdiv : Int.tdiv (2 * (k : Int)) 2 = k := by
    rw [Int.tdiv_eq_ediv (by omega) (by norm_num)]; omega
  have hidx : ((history.length : Int) - 1 - k).toNat = history.length - 1 - k := by omega
  have hrev : history.reverse.get? k = history.get? (history.length - 1 - k) := by
    rw [List.get?_eq_getElem?, List.get?_eq_getElem?, List.getElem?_reverse hk]
  have hlt : history.length - 1 - k < history.length := by omega
  refine ⟨history[history.length - 1 - k], ?_, ?_⟩
  · rw [hrev, List.get?_eq_getElem?, List.getElem?_eq_getElem hlt]
  · unfold snapshotAt
    rw [hdiv, if_pos (by omega), hidx, List.get?_eq_getElem?, List.getElem?_eq_getElem hlt]

theorem writeHistory_writes {Rotation : Type} (reversed : Rotation) (n : Int)
    (env : LeapFrogEnv) (S : Nat) (hS : (n * n).toNat = S) (hS64 : S ≤ 64) :
    ∀ (ks : List Nat) (f : List Rat),
      (∀ k ∈ ks, k < 8 ∧ k < env.bitboard_history_.length) → 18 * S ≤ f.length →
      ∃ f', writeHistory reversed env (S : Int) ((env.bitboard_history_.length : Int) - 1)
          ks f = .ok f' ∧
        WritesOf (featureAt n env)
          (fun i => ∃ k ∈ ks, ∃ p, p < S ∧ (i = p + 2 * k * S ∨ i = p + (2 * k + 1) * S))
          f f' := by
  intro ks
  induction ks with
  | nil =>
    intro f _ _
    exact ⟨f, rfl, writesOf_congr _ _ _ f f (writesOf_refl _ f) (fun i _ => by simp)⟩
  | cons k rest ih =>
    intro f hks hlen
    obtain ⟨hk8, hkL⟩ := hks k (List.mem_cons_self _ _)
    obtain ⟨snapshot, hrev, hsnap⟩ := snapshotAt_recent env.bitboard_history_ k hkL
    have hown : ∀ p, p < S → featureAt n env (p + 2 * k * S) =
        if (snapshot.get env.turn_).testBit p then 1 else 0 := by
      intro p hp
      rw [featureAt_plane n env S (2 * k) p hS hp, if_pos (by omega)]
      have h2 : 2 * k / 2 = k := by omega
      have h3 : 2 * k % 2 = 0 := by omega
      simp only [h2, h3, hrev, if_true]
    have hopp : ∀ p, p < S → featureAt n env (p + (2 * k + 1) * S) =
        if (snapshot.get (getNextPlayer env.turn_)).testBit p then 1 else 0 := by
      intro p hp
      rw [featureAt_plane n env S (2 * k + 1) p hS hp, if_pos (by omega)]
      have h2 : (2 * k + 1) / 2 = k := by omega
      have h3 : ¬ ((2 * k + 1) % 2 = 0) := by omega
      simp only [h2, h3, hrev, if_false]
    have e1 : (2 * k + 2) * S ≤ 18 * S := Nat.mul_le_mul_right S (by omega)
    obtain ⟨f1, hf1, w1⟩ := writeOccupancy_writes reversed (featureAt n env)
      (snapshot.get env.turn_) (snapshot.get (getNextPlayer env.turn_)) S k hS64 hown hopp
      (List.range S) f (fun p hp => List.mem_range.mp hp) (by omega)
    obtain ⟨f2, hf2, w2⟩ := ih f1 (fun q hq => hks q (List.mem_cons_of_mem _ hq))
      (by rw [w1.1]; exact hlen)
    refine ⟨f2, ?_, ?_⟩
    · unfold writeHistory
      simp only [hsnap, Int.toNat_ofNat, hf1, bind, Except.bind]
      exact hf2
    · refine writesOf_congr _ _ _ f f2 (writesOf_trans _ _ _ f f1 f2 w1 w2) (fun i _ => ?_)
      simp only [List.mem_cons, exists_eq_or_imp, List.mem_range]

/-- The feature vector, entry by entry. -/
theorem getFeatures_entries {Rotation : Type} (reversed_rotation : Rotation → Rotation)
    (n : Int) (env : LeapFrogEnv) (rotation : Rotation) (hn : 1 ≤ n) (hn8 : n ≤ 8) :
    ∃ v : List Rat, getFeatures reversed_rotation n env rotation = .ok v ∧
      v.length = 18 * (n * n).toNat ∧
      ∀ i : Nat, i < 18 * (n * n).toNat → v.get? i = some (featureAt n env i) := by
  have harea := board_area_le n hn hn8
  have hnn : 0 < n * n := mul_pos (by omega) (by omega)
  obtain ⟨S, hS⟩ : ∃ S : Nat, (n * n).toNat = S := ⟨_, rfl⟩
  have hSi : (S : Int) = n * n := by omega
  have hS0 : 0 < S := by omega
  have hS64 : S ≤ 64 := by omega
  have hlen0 : (getNumInputChannels * (S : Int)).toNat = 18 * S := by
    simp only [getNumInputChannels]; omega
  have hpast : (min 8 (env.bitboard_history_.length : Int)).toNat =
      min 8 env.bitboard_history_.length := by omega
  obtain ⟨f1, hf1, w1⟩ := writeHistory_writes (reversed_rotation rotation) n env S hS hS64
    (List.range (min 8 env.bitboard_history_.length)) (List.replicate (18 * S) 0)
    (fun k hk => by rw [List.mem_range] at hk; omega) (by simp)
  have h16 : ∀ p, p < S → featureAt n env (p + 16 * S) =
      if env.turn_ = .kPlayer1 then 1 else 0 := by
    intro p hp
    rw [featureAt_plane n env S 16 p hS hp]
    simp
  have h17 : ∀ p, p < S → featureAt n env (p + 17 * S) =
      if env.turn_ = .kPlayer2 then 1 else 0 := by
    intro p hp
    rw [featureAt_plane n env S 17 p hS hp]
    simp
  obtain ⟨f2, hf2, w2⟩ := writeTurn_writes (featureAt n env) env.turn_ S h16 h17
    (List.range S) f1 (fun p hp => List.mem_range.mp hp) (by rw [w1.1]; simp)
  have w := writesOf_trans _ _ _ _ f1 f2 w1 w2
  refine ⟨f2, ?_, ?_, ?_⟩
  · unfold getFeatures
    simp only [← hSi, hlen0, hpast, Int.toNat_ofNat, hf1, bind, Except.bind]
    exact hf2
  · rw [hS, w.1]; simp
  · intro i hi
    rw [hS] at hi
    have hi' : i < (List.replicate (18 * S) (0 : Rat)).length := by simpa using hi
    by_cases hw : (∃ k ∈ List.range (min 8 env.bitboard_history_.length), ∃ p, p < S ∧
        (i = p + 2 * k * S ∨ i = p + (2 * k + 1) * S)) ∨
        (∃ p ∈ List.range S, i = p + 16 * S ∨ i = p + 17 * S)
    · exact (w.2 i hi').1 hw
    · rw [(w.2 i hi').2 hw]
      -- an entry that is never written belongs to a plane without a snapshot
      have hp : i % S < S := Nat.mod_lt _ hS0
      have hsplit : i = i % S + (i / S) * S := by
        have := Nat.div_add_mod i S
        rw [Nat.mul_comm] at this; omega
      have hplane : i / S < 18 := by
        apply Nat.div_lt_of_lt_mul
        rw [Nat.mul_comm]; exact hi
      have hget : (List.replicate (18 * S) (0 : Rat)).get? i = some 0 := by
        rw [List.get?_eq_getElem?, List.getElem?_replicate]
        simp [hi]
      rw [hget, hsplit, featureAt_plane n env S (i / S) (i % S) hS hp]
      by_cases h16c : i / S < 16
      · rw [if_pos h16c]
        have hnone : env.bitboard_history_.reverse.get? (i / S / 2) = none := by
          rw [List.get?_eq_getElem?, List.getElem?_eq_none_iff, List.length_reverse]
          by_contra hcon
          apply hw
          left
          refine ⟨i / S / 2, by rw [List.mem_range]; omega, i % S, hp, ?_⟩
          rcases Nat.mod_two_eq_zero_or_one (i / S) with h | h
          · left
            have : 2 * (i / S / 2) = i / S := by omega
            rw [this]; exact hsplit
          · right
            have : 2 * (i / S / 2) + 1 = i / S := by omega
            rw [this]; exact hsplit
        simp only [hnone]
      · exfalso
        apply hw
        right
        refine ⟨i % S, List.mem_range.mpr hp, ?_⟩
        have : i / S = 16 ∨ i / S = 17 := by omega
        rcases this with h | h
        · left; rw [← h]; exact hsplit
        · right; rw [← h]; exact hsplit

theorem featureAt_zero_or_one (n : Int) (env : LeapFrogEnv) (i : Nat) :
    featureAt n env i = 0 ∨ featureAt n env i = 1 := by
  unfold featureAt
  simp only
  by_cases h16 : i / (n * n).toNat < 16
  · rw [if_pos h16]
    cases env.bitboard_history_.reverse.get? (i / (n * n).toNat / 2) with
    | none => exact Or.inl rfl
    | some snapshot =>
      simp only
      split_ifs <;> first | exact Or.inr rfl | exact Or.inl rfl
  · rw [if_neg h16]
    split_ifs <;> first | exact Or.inr rfl | exact Or.inl rfl

/-- The feature vector does not depend on the rotation: it is the list of the
`featureAt` values. -/
theorem getFeatures_eq {Rotation : Type} (reversed_rotation : Rotation → Rotation)
    (n : Int) (env : LeapFrogEnv) (rotation : Rotation) (hn : 1 ≤ n) (hn8 : n ≤ 8) :
    getFeatures reversed_rotation n env rotation =
      .ok ((List.range (18 * (n * n).toNat)).map (featureAt n env)) := by
  obtain ⟨v, hv, hlen, hent⟩ := getFeatures_entries reversed_rotation n env rotation hn hn8
  rw [hv]
  congr 1
  apply List.ext_get?
  intro i
  by_cases hi : i < 18 * (n * n).toNat
  · rw [hent i hi, List.get?_eq_getElem?, List.getElem?_map,
      List.getElem?_range hi]
    rfl
  · rw [List.get?_eq_none.mpr (by omega), List.get?_eq_none.mpr (by simp; omega)]

theorem range_map_get? (g : Nat → Rat) (m i : Nat) (hi : i < m) :
    ((List.range m).map g).get? i = some (g i) := by
  rw [List.get?_eq_getElem?, List.getElem?_map, List.getElem?_range hi]
  rfl

/-! ## Claims on the feature vector -/

/-- C18: on a board of size 1 to 8, for every engine state reachable from `reset()` by
`act` calls, `getFeatures` returns one and the same vector `v` for every rotation; `v` has
`18*n*n` entries, each 0 or 1; for every `k < min(8, history.length)` and every square
`pos`, entry `(2k)*n*n + pos` is 1 iff the side to move occupies `pos` in the `k`-th most
recent snapshot and entry `(2k+1)*n*n + pos` is 1 iff the opponent does (the most recent
snapshot being the current bitboards); the planes of the `k` from `history.length` on are
zero; plane 16 is all ones if the turn is Player 1 and all zero otherwise, plane 17 is
all ones if the turn is Player 2 and all zero otherwise. -/
theorem getFeatures_spec {Rotation : Type} (reversed_rotation : Rotation → Rotation)
    (ndebug : Bool) (n : Int) (env : LeapFrogEnv) (hn : 1 ≤ n) (hn8 : n ≤ 8)
    (hr : Reachable ndebug n env) :
    ∃ v : List Rat,
      (∀ rotation : Rotation, getFeatures reversed_rotation n env rotation = .ok v) ∧
      v.length = 18 * (n * n).toNat ∧
      (∀ x ∈ v, x = 0 ∨ x = 1) ∧
      (∀ k pos : Nat, k < min 8 env.bitboard_history_.length → pos < (n * n).toNat →
        ∃ snapshot : GamePair, env.bitboard_history_.reverse.get? k = some snapshot ∧
          v.get? (2 * k * (n * n).toNat + pos) =
            some (if (snapshot.get env.turn_).testBit pos then 1 else 0) ∧
          v.get? ((2 * k + 1) * (n * n).toNat + pos) =
            some (if (snapshot.get (getNextPlayer env.turn_)).testBit pos then 1 else 0)) ∧
      (∀ k pos : Nat, env.bitboard_history_.length ≤ k → k < 8 → pos < (n * n).toNat →
        v.get? (2 * k * (n * n).toNat + pos) = some 0 ∧
        v.get? ((2 * k + 1) * (n * n).toNat + pos) = some 0) ∧
      (∀ pos : Nat, pos < (n * n).toNat →
        v.get? (16 * (n * n).toNat + pos) = some (if env.turn_ = .kPlayer1 then 1 else 0) ∧
        v.get? (17 * (n * n).toNat + pos) = some (if env.turn_ = .kPlayer2 then 1 else 0)) ∧
      env.bitboard_history_.reverse.get? 0 = some env.bitboard_ ∧
      env.turn_ ≠ .kPlayerNone := by
  obtain ⟨hturn, hlen, hlast, _, _⟩ := reachable_historyInvariant ndebug n env hr
  obtain ⟨S, hS⟩ : ∃ S : Nat, (n * n).toNat = S := ⟨_, rfl⟩
  have hentry : ∀ plane pos : Nat, plane < 18 → pos < S →
      ((List.range (18 * S)).map (featureAt n env)).get? (plane * S + pos) =
        some (featureAt n env (pos + plane * S)) := by
    intro plane pos hpl hpos
    have hlt : plane * S + pos < 18 * S := by
      have : (plane + 1) * S ≤ 18 * S := Nat.mul_le_mul_right S (by omega)
      have e : (plane + 1) * S = plane * S + S := by ring
      omega
    rw [range_map_get? _ _ _ hlt, Nat.add_comm]
  rw [hS]
  refine ⟨(List.range (18 * S)).map (featureAt n env), ?_, by simp, ?_, ?_, ?_, ?_, ?_, hturn⟩
  · intro rotation
    rw [getFeatures_eq reversed_rotation n env rotation hn hn8, hS]
  · intro x hx
    rw [List.mem_map] at hx
    obtain ⟨i, _, rfl⟩ := hx
    exact featureAt_zero_or_one n env i
  · intro k pos hk hpos
    obtain ⟨snapshot, hrev, _⟩ := snapshotAt_recent env.bitboard_history_ k (by omega)
    refine ⟨snapshot, hrev, ?_, ?_⟩
    · rw [hentry (2 * k) pos (by omega) hpos, featureAt_plane n env S (2 * k) pos hS hpos,
        if_pos (by omega)]
      have h2 : 2 * k / 2 = k := by omega
      have h3 : 2 * k % 2 = 0 := by omega
      simp only [h2, h3, hrev, if_true]
    · rw [hentry (2 * k + 1) pos (by omega) hpos,
        featureAt_plane n env S (2 * k + 1) pos hS hpos, if_pos (by omega)]
      have h2 : (2 * k + 1) / 2 = k := by omega
      have h3 : ¬ ((2 * k + 1) % 2 = 0) := by omega
      simp only [h2, h3, hrev, if_false]
  · intro k pos hk hk8 hpos
    have hnone : env.bitboard_history_.reverse.get? k = none := by
      rw [List.get?_eq_none]; simpa using hk
    constructor
    · rw [hentry (2 * k) pos (by omega) hpos, featureAt_plane n env S (2 * k) pos hS hpos,
        if_pos (by omega)]
      have h2 : 2 * k / 2 = k := by omega
      simp only [h2, hnone]
    · rw [hentry (2 * k + 1) pos (by omega) hpos,
        featureAt_plane n env S (2 * k + 1) pos hS hpos, if_pos (by omega)]
      have h2 : (2 * k + 1) / 2 = k := by omega
      simp only [h2, hnone]
  · intro pos hpos
    constructor
    · rw [hentry 16 pos (by omega) hpos, featureAt_plane n env S 16 pos hS hpos]
      simp
    · rw [hentry 17 pos (by omega) hpos, featureAt_plane n env S 17 pos hS hpos]
      simp
  · have hne : env.bitboard_history_ ≠ [] := by
      intro h; rw [h] at hlen; simp at hlen
    rw [List.get?_eq_getElem?, ← List.head?_eq_getElem?, List.head?_reverse]
    exact hlast

theorem getFeatures_spec_witness :
    (1 : Int) ≤ 8 ∧ (8 : Int) ≤ 8 ∧ Reachable false 8 initialEnv ∧
    ∃ v : List Rat,
      (∀ rotation : Nat, getFeatures (fun r : Nat => r) 8 initialEnv rotation = .ok v) ∧
      v.length = 18 * ((8 : Int) * 8).toNat ∧ (∀ x ∈ v, x = 0 ∨ x = 1) :=
  ⟨by decide, by decide, Reachable.start reset_eq_initialEnv,
    let ⟨v, h1, h2, h3, _⟩ := getFeatures_spec (fun r : Nat => r) false 8 initialEnv
      (by decide) (by decide) (Reachable.start reset_eq_initialEnv)
    ⟨v, h1, h2, h3⟩⟩

/-! ## Claims on the console dispatcher -/

theorem isdigit_ne_space (ch : Char) (h : isdigit ch = true) : ch ≠ ' ' := by
  rintro rfl
  revert h
  decide

theorem getlineLoop_token (d r : List Char) (hd : ∀ ch ∈ d, ch ≠ ' ') :
    ∀ (tmp : List Char) (extracted : Bool),
      getlineLoop (d ++ ' ' :: r) tmp extracted = (tmp ++ d) :: getlineLoop r [] false := by
  induction d with
  | nil => intro tmp extracted; simp [getlineLoop]
  | cons ch d ih =>
    intro tmp extracted
    have hch : ch ≠ ' ' := hd ch (List.mem_cons_self _ _)
    have ih2 := ih (fun x hx => hd x (List.mem_cons_of_mem _ hx)) (tmp ++ [ch]) true
    show (if ch = ' ' then _ else getlineLoop (d ++ ' ' :: r) (tmp ++ [ch]) true) = _
    rw [if_neg hch, ih2]
    simp

theorem getlineTokens_eq_nil (command : List Char) (h : getlineTokens command = []) :
    command = [] := by
  cases command with
  | nil => rfl
  | cons ch rest =>
    exfalso
    have key : ∀ (l tmp : List Char), getlineLoop l tmp true ≠ [] := by
      intro l
      induction l with
      | nil => intro tmp; simp [getlineLoop]
      | cons x l ih =>
        intro tmp
        by_cases hx : x = ' '
        · simp [getlineLoop, hx]
        · simp only [getlineLoop, hx, if_false]; exact ih _
    unfold getlineTokens at h
    by_cases hc : ch = ' '
    · simp [getlineLoop, hc] at h
    · simp only [getlineLoop, hc, if_false] at h
      exact key _ _ h

theorem stripCR_with_id (idtok rest : List Char) (hrest : rest ≠ []) :
    stripCR (idtok ++ ' ' :: rest) = idtok ++ ' ' :: stripCR rest := by
  obtain ⟨x, xs, rfl⟩ := List.exists_cons_of_ne_nil hrest
  have hl : (idtok ++ ' ' :: x :: xs).getLast? = (x :: xs).getLast? := by
    rw [List.getLast?_append, List.getLast?_cons_cons,
      List.getLast?_eq_getLast _ (List.cons_ne_nil x xs)]
    rfl
  have hd : (idtok ++ ' ' :: x :: xs).dropLast = idtok ++ ' ' :: (x :: xs).dropLast := by
    rw [List.dropLast_append_of_ne_nil _ (List.cons_ne_nil _ _)]
    rfl
  unfold stripCR
  rw [hl, hd]
  split_ifs <;> rfl

theorem foldl_reply {σ : Type} (status : ConsoleResponse → Char)
    (replies : List (ConsoleResponse × List Char)) :
    ∀ c : Console σ,
      replies.foldl (fun c r => c.reply status r.1 r.2) c =
        { c with output := c.output ++ (replies.map (frameReply status c.command_id_)).flatten } := by
  induction replies with
  | nil => intro c; simp
  | cons r replies ih =>
    intro c
    rw [List.foldl_cons, ih]
    simp [Console.reply, frameReply]

theorem executeCommand_dispatch {σ : Type} (status : ConsoleResponse → Char)
    (function_map_ : List Char → Option (Handler σ))
    (uninitialized : σ → Bool) (initialization : σ → Except Fault σ)
    (c : Console σ) (command first : List Char) (more : List (List Char)) (s0 : σ)
    (hinit : (if uninitialized c.session then initialization c.session else pure c.session)
      = .ok s0)
    (htok : getlineTokens (stripCR command) = first :: more) :
    executeCommand status function_map_ uninitialized initialization c command =
      (do
        let name ← firstArg (if isCommandId first then more else first :: more)
        match function_map_ name with
        | none => pure ⟨s0, if isCommandId first then first else [],
            c.output ++ frameReply status (if isCommandId first then first else [])
              (.kFail, "Unknown command: ".toList ++ stripCR command)⟩
        | some handler => do
          let (session', replies) ← handler (if isCommandId first then more else first :: more) s0
          pure ⟨session', if isCommandId first then first else [],
            c.output ++ (replies.map
              (frameReply status (if isCommandId first then first else []))).flatten⟩) := by
  have hne : stripCR command ≠ [] := by
    intro h
    rw [h] at htok
    exact List.noConfusion htok
  have hcne : command ≠ [] := by
    rintro rfl
    exact hne rfl
  obtain ⟨last, hback⟩ : ∃ last, command.getLast? = some last :=
    ⟨command.getLast hcne, List.getLast?_eq_getLast _ hcne⟩
  have hstrip : (if last = '\r' then command.dropLast else command) = stripCR command := by
    unfold stripCR
    rw [hback]
    by_cases hb : last = '\r'
    · simp [hb]
    · simp [hb]
  have hemp : (stripCR command).isEmpty = false := by
    cases hs : stripCR command with
    | nil => exact absurd hs hne
    | cons _ _ => rfl
  unfold executeCommand
  rw [hinit]
  simp only [bind, Except.bind, back, hback, pure, Except.pure, hstrip, hemp, htok, firstArg,
    Bool.false_eq_true, if_false]
  by_cases hid : isCommandId first = true
  · simp only [hid, if_true, List.tail_cons]
    cases more with
    | nil => rfl
    | cons name rest =>
      simp only []
      cases hf : function_map_ name with
      | none => simp [Console.reply, frameReply]
      | some handler =>
        simp only []
        cases hh : handler (name :: rest) s0 with
        | error e => rfl
        | ok p =>
          obtain ⟨session', replies⟩ := p
          simp only [foldl_reply]
  · simp only [hid, if_false, Bool.false_eq_true]
    cases hf : function_map_ first with
    | none => simp [hf, Console.reply, frameReply]
    | some handler =>
      simp only [hf]
      cases hh : handler (first :: more) s0 with
      | error e => rfl
      | ok p =>
        obtain ⟨session', replies⟩ := p
        simp only [foldl_reply]

/-- C20: let a line be a non-empty run of decimal digits `idtok`, one space, and a rest
`rest` that has a first token `t` which is not itself a run of digits.  Then every reply
written for the line is the status character, `idtok`, one space, the body and two newline
characters, and the handler is run on the same argument list `t :: ts` (and the same
session) as for the line `rest` alone; the same holds when the handler raises and when the
command is unknown (whose single reply echoes the line).  For the line `rest`, whose first
token is not purely decimal digits, the id part of every reply is the empty string. -/
theorem executeCommand_framing {σ : Type} (status : ConsoleResponse → Char)
    (function_map_ : List Char → Option (Handler σ))
    (uninitialized : σ → Bool) (initialization : σ → Except Fault σ)
    (c : Console σ) (idtok rest t : List Char) (ts : List (List Char)) (s0 : σ)
    (hinit : (if uninitialized c.session then initialization c.session else pure c.session)
      = .ok s0)
    (hid : isCommandId idtok = true)
    (htok : getlineTokens (stripCR rest) = t :: ts)
    (hcmd : isCommandId t = false) :
    (∀ (handler : Handler σ) (session' : σ) (replies : List (ConsoleResponse × List Char)),
      function_map_ t = some handler → handler (t :: ts) s0 = .ok (session', replies) →
        executeCommand status function_map_ uninitialized initialization c
            (idtok ++ ' ' :: rest) =
          .ok ⟨session', idtok,
            c.output ++ (replies.map (frameReply status idtok)).flatten⟩ ∧
        executeCommand status function_map_ uninitialized initialization c rest =
          .ok ⟨session', [], c.output ++ (replies.map (frameReply status [])).flatten⟩) ∧
    (∀ (handler : Handler σ) (e : Fault),
      function_map_ t = some handler → handler (t :: ts) s0 = .error e →
        executeCommand status function_map_ uninitialized initialization c
            (idtok ++ ' ' :: rest) = .error e ∧
        executeCommand status function_map_ uninitialized initialization c rest = .error e) ∧
    (function_map_ t = none →
        executeCommand status function_map_ uninitialized initialization c
            (idtok ++ ' ' :: rest) =
          .ok ⟨s0, idtok, c.output ++ frameReply status idtok
            (.kFail, "Unknown command: ".toList ++ (idtok ++ ' ' :: stripCR rest))⟩ ∧
        executeCommand status function_map_ uninitialized initialization c rest =
          .ok ⟨s0, [], c.output ++ frameReply status []
            (.kFail, "Unknown command: ".toList ++ stripCR rest)⟩) ∧
    (∀ (id body : List Char) (r : ConsoleResponse),
      frameReply status id (r, body) = status r :: id ++ ' ' :: body ++ ['\n', '\n']) := by
  have hrest : rest ≠ [] := by
    rintro rfl
    exact List.noConfusion htok
  have hdig : ∀ ch ∈ idtok, ch ≠ ' ' := by
    intro ch hch
    apply isdigit_ne_space
    simp only [isCommandId, Bool.and_eq_true, List.all_eq_true] at hid
    exact hid.2 ch hch
  have htok2 : getlineTokens (stripCR (idtok ++ ' ' :: rest)) = idtok :: t :: ts := by
    rw [stripCR_with_id _ _ hrest]
    unfold getlineTokens at htok ⊢
    rw [getlineLoop_token _ _ hdig, htok]
    rfl
  have h1 := executeCommand_dispatch status function_map_ uninitialized initialization c
    (idtok ++ ' ' :: rest) idtok (t :: ts) s0 hinit htok2
  have h2 := executeCommand_dispatch status function_map_ uninitialized initialization c
    rest t ts s0 hinit htok
  rw [stripCR_with_id _ _ hrest] at h1
  simp only [hid, hcmd, if_true, if_false, Bool.false_eq_true, firstArg, bind, Except.bind,
    pure, Except.pure] at h1 h2
  refine ⟨?_, ?_, ?_, ?_⟩
  · intro handler session' replies hf hh
    rw [h1, h2]
    simp only [hf, hh]
    exact ⟨trivial, trivial⟩
  · intro handler e hf hh
    rw [h1, h2]
    simp only [hf, hh]
    exact ⟨trivial, trivial⟩
  · intro hf
    rw [h1, h2]
    simp only [hf]
    exact ⟨trivial, trivial⟩
  · intro id body r
    simp [frameReply]

/-- C20 on the lines `7 showboard` and `showboard`, each with a trailing carriage return:
the recording handler sees the argument list `showboard` both times, and the replies are
`=7 ok` and `= ok`, each followed by two newline characters. -/
theorem executeCommand_framing_witness :
    isCommandId "7".toList = true ∧
    getlineTokens (stripCR "showboard\r".toList) = ["showboard".toList] ∧
    isCommandId "showboard".toList = false ∧
    executeCommand exampleStatus exampleRegistry (fun _ => false) Except.ok
        ⟨[], "5".toList, []⟩ "7 showboard\r".toList =
      .ok ⟨["showboard".toList], "7".toList, "=7 ok\n\n".toList⟩ ∧
    executeCommand exampleStatus exampleRegistry (fun _ => false) Except.ok
        ⟨[], "5".toList, []⟩ "showboard\r".toList =
      .ok ⟨["showboard".toList], [], "= ok\n\n".toList⟩ :=
  ⟨by decide, by decide, by decide,
    (executeCommand_framing exampleStatus exampleRegistry (fun _ => false) Except.ok
      ⟨[], "5".toList, []⟩ "7".toList "showboard\r".toList "showboard".toList [] [] rfl
      (by decide) (by decide) (by decide)).1 exampleHandler ["showboard".toList]
      [(ConsoleResponse.kSuccess, "ok".toList)] rfl rfl⟩

/-! ## Claims on the geometry of the jump and of the start position -/

/-- On the integers: for a source square `(row, col)` on the board and a direction
`(dc, dr)` whose destination is on the board, `(from + dest) / 2` for the id of the jump is
`(row + dr/2)*n + (col + dc/2)`, an on-board square other than source and destination. -/
theorem midpoint_between_integers (n row col dc dr : Int) (d : Nat) (hn : 1 ≤ n)
    (hrow : 0 ≤ row ∧ row < n) (hcol : 0 ≤ col ∧ col < n)
    (hd : twoSquareDeltas.get? d = some (dc, dr))
    (hon : onBoard n (row + dr, col + dc)) :
    getFromPos n (d * (n * n) + (row * n + col)) = row * n + col ∧
    getDestPos n (d * (n * n) + (row * n + col)) = (row + dr) * n + (col + dc) ∧
    Int.tdiv (getFromPos n (d * (n * n) + (row * n + col)) +
        getDestPos n (d * (n * n) + (row * n + col))) 2 =
      (row + dr / 2) * n + (col + dc / 2) ∧
    onBoard n (row + dr / 2, col + dc / 2) ∧
    (row + dr / 2) * n + (col + dc / 2) ≠ row * n + col ∧
    (row + dr / 2) * n + (col + dc / 2) ≠ (row + dr) * n + (col + dc) := by
  have hp0 : 0 ≤ row * n + col := square_index_nonneg n row col (by omega) hrow.1 hcol.1
  have hp1 : row * n + col < n * n := square_index_lt n row col hrow.2 hcol.1 hcol.2
  have hfrom : getFromPos n (d * (n * n) + (row * n + col)) = row * n + col :=
    (tdiv_tmod_of_bounds d (row * n + col) (n * n) (by omega) hp0 hp1).2
  have hdest := getDestPos_decoded n row col dc dr d hrow hcol hd
  rw [if_pos hon] at hdest
  obtain ⟨m1, m2, m3, m4⟩ := midpoint_arith n row col d (dc, dr) hrow hcol hd hon
  rw [hfrom, hdest]
  exact ⟨rfl, rfl, m1, m2, m3, m4⟩

/-- C26, as stated, fails: the half turn of the board is not the identity, and it maps
each player's set of occupied squares of the start position onto itself. -/
theorem start_layout_half_turn :
    reset 8 = .ok initialEnv ∧
    BoardSymmetry.halfTurn ≠ BoardSymmetry.identity ∧
    BoardSymmetry.apply .halfTurn (6, 4) = (1, 3) ∧
    preservesLayout .halfTurn initialEnv.bitboard_ := by
  decide

/-- C26, amended: the start position that `reset()` places on the 8 by 8 board is mapped
onto itself, player by player, by the identity, the half turn and the reflections in the
two diagonals, and by no other rotation or reflection of the board. -/
theorem start_layout_symmetries :
    reset 8 = .ok initialEnv ∧
    ∀ s : BoardSymmetry, preservesLayout s initialEnv.bitboard_ ↔
      (s = .identity ∨ s = .halfTurn ∨ s = .diagonal ∨ s = .antiDiagonal) := by
  refine ⟨by decide, ?_⟩
  intro s
  cases s <;> decide

/-! ## Claims on the piece counts -/

/-- Flipping a predicate from true to false at one element of a duplicate-free list
lowers the count by one. -/
theorem countP_flip (l : List Nat) (hnd : l.Nodup) (s : Nat) (hs : s ∈ l) (p q : Nat → Bool)
    (hp : p s = true) (hq : q s = false) (hpq : ∀ i : Nat, i ≠ s → q i = p i) :
    l.countP q + 1 = l.countP p := by
  induction l with
  | nil => exact absurd hs (List.not_mem_nil _)
  | cons x xs ih =>
    obtain ⟨hx, hxs⟩ := List.nodup_cons.mp hnd
    by_cases hxs' : x = s
    · subst hxs'
      have hsame : xs.countP q = xs.countP p := by
        apply List.countP_congr
        intro i hi
        have hne : i ≠ x := fun h => hx (h ▸ hi)
        rw [hpq i hne]
      simp [List.countP_cons, hp, hq, hsame]
    · have hmem : s ∈ xs := by
        rcases List.mem_cons.mp hs with h | h
        · exact absurd h.symm hxs'
        · exact h
      have := ih hxs hmem
      simp only [List.countP_cons, hpq x hxs']
      omega

theorem pieceCount_congr (b b' : LeapFrogBitboard)
    (h : ∀ i : Nat, i < 64 → b'.testBit i = b.testBit i) : pieceCount b' = pieceCount b := by
  unfold pieceCount
  apply List.countP_congr
  intro i hi
  rw [h i (List.mem_range.mp hi)]

theorem pieceCount_clear (b b' : LeapFrogBitboard) (m : Nat) (hm : m < 64)
    (hset : b.testBit m = true)
    (h : ∀ i : Nat, b'.testBit i = if i = m then false else b.testBit i) :
    pieceCount b' + 1 = pieceCount b := by
  unfold pieceCount
  apply countP_flip _ (List.nodup_range 64) m (List.mem_range.mpr hm)
  · exact hset
  · rw [h m]; simp
  · intro i hi
    rw [h i, if_neg hi]

theorem pieceCount_move (b b' : LeapFrogBitboard) (s t : Nat) (hs : s < 64) (ht : t < 64)
    (hst : s ≠ t) (hsset : b.testBit s = true) (htclear : b.testBit t = false)
    (h : ∀ i : Nat, b'.testBit i = if i = s then false else if i = t then true
      else b.testBit i) :
    pieceCount b' = pieceCount b := by
  unfold pieceCount
  have h1 := countP_flip _ (List.nodup_range 64) s (List.mem_range.mpr hs)
    (fun i => b.testBit i) (fun i => if i = s then false else b.testBit i) hsset (by simp)
    (fun i hi => by simp [hi])
  have h2 := countP_flip _ (List.nodup_range 64) t (List.mem_range.mpr ht)
    (fun i => b'.testBit i) (fun i => if i = s then false else b.testBit i)
    (by show b'.testBit t = true; rw [h t, if_neg (Ne.symm hst)]; simp)
    (by simp [htclear])
    (fun i hi => by
      show (if i = s then false else b.testBit i) = b'.testBit i
      rw [h i]; simp [hi])
  omega

/-- The piece counts after an accepted jump: the mover keeps its count, the opponent
loses one piece exactly when its bit at the jumped-over square is set. -/
theorem applyJump_counts (ndebug : Bool) (n : Int) (env : LeapFrogEnv) (a : LeapFrogAction)
    (hturn : env.turn_ ≠ .kPlayerNone)
    (hl : isLegalAction ndebug n env a = .ok true) :
    pieceCount ((applyJump n env a).bitboard_.get a.player) =
      pieceCount (env.bitboard_.get a.player) ∧
    ((env.bitboard_.get (getNextPlayer a.player)).testBit
        (Int.tdiv (getFromPos n a.action_id + getDestPos n a.action_id) 2).toNat = true →
      pieceCount ((applyJump n env a).bitboard_.get (getNextPlayer a.player)) + 1 =
        pieceCount (env.bitboard_.get (getNextPlayer a.player))) ∧
    ((env.bitboard_.get (getNextPlayer a.player)).testBit
        (Int.tdiv (getFromPos n a.action_id + getDestPos n a.action_id) 2).toNat = false →
      pieceCount ((applyJump n env a).bitboard_.get (getNextPlayer a.player)) =
        pieceCount (env.bitboard_.get (getNextPlayer a.player))) := by
  obtain ⟨hpl, _, ⟨hs0, hs1, hso⟩, hd, ⟨hm0, hm1, hmo⟩, ⟨hd0, hd1, hdo⟩⟩ :=
    (isLegalAction_ok_true_iff ndebug n env a).mp hl
  have hp : a.player ≠ .kPlayerNone := hpl ▸ hturn
  have hne : (getFromPos n a.action_id).toNat ≠ (getDestPos n a.action_id).toNat := by
    intro heq
    rw [heq, hdo] at hso
    exact hp hso.symm
  obtain ⟨hb1, hb2⟩ := jumpBoards_bits env.bitboard_ a.player _ _
    (Int.tdiv (getFromPos n a.action_id + getDestPos n a.action_id) 2).toNat hp hne
  obtain ⟨hdn1, hdn2⟩ := (ownerAt_eq_none _ _).mp hdo
  rw [applyJump_bitboard]
  have hsrc : (env.bitboard_.get a.player).testBit (getFromPos n a.action_id).toNat = true := by
    rcases hpc : a.player with _ | _ | _
    · exact absurd hpc hp
    · rw [hpc] at hso; exact (ownerAt_eq_player1 _ _).mp hso
    · rw [hpc] at hso; exact ((ownerAt_eq_player2 _ _).mp hso).2
  have hdst : (env.bitboard_.get a.player).testBit (getDestPos n a.action_id).toNat = false := by
    rcases hpc : a.player with _ | _ | _
    · exact absurd hpc hp
    · exact hdn1
    · exact hdn2
  refine ⟨?_, ?_, ?_⟩
  · exact pieceCount_move _ _ _ _ (by omega) (by omega) hne hsrc hdst hb1
  · intro hset
    exact pieceCount_clear _ _ _ (by omega) hset hb2
  · intro hclear
    apply pieceCount_congr
    intro i _
    rw [hb2 i]
    split_ifs with h
    · rw [h, hclear]
    · rfl

/-- On disjoint bitboards the square `i` is reported as the opponent's exactly when the
opponent's bit `i` is set. -/
theorem ownerAt_opponent (g : GamePair) (p : Player) (i : Nat) (hp : p ≠ .kPlayerNone)
    (hd : g.player1 &&& g.player2 = 0) :
    ownerAt g i = getNextPlayer p ↔ (g.get (getNextPlayer p)).testBit i = true := by
  have hbits := (and_eq_zero_iff_bits _ _).mp hd i
  rcases p with _ | _ | _
  · exact absurd rfl hp
  · show ownerAt g i = .kPlayer2 ↔ g.player2.testBit i = true
    rw [ownerAt_eq_player2]
    constructor
    · exact fun h => h.2
    · intro h
      refine ⟨?_, h⟩
      cases h1 : g.player1.testBit i
      · rfl
      · exact absurd ⟨h1, h⟩ hbits
  · show ownerAt g i = .kPlayer1 ↔ g.player1.testBit i = true
    exact ownerAt_eq_player1 g i

/-- No `act` call raises a piece count. -/
theorem act_counts_le (ndebug : Bool) (n : Int) (env env' : LeapFrogEnv) (a : LeapFrogAction)
    (flag : Bool) (hturn : env.turn_ ≠ .kPlayerNone)
    (hact : act ndebug n env a = .ok (flag, env')) :
    pieceCount env'.bitboard_.player1 ≤ pieceCount env.bitboard_.player1 ∧
    pieceCount env'.bitboard_.player2 ≤ pieceCount env.bitboard_.player2 := by
  rcases act_ok_cases ndebug n _ _ a _ hact with ⟨_, he, _⟩ | ⟨_, he, hl⟩
  · rw [he]
    exact ⟨le_refl _, le_refl _⟩
  · obtain ⟨h1, h2, h3⟩ := applyJump_counts ndebug n env a hturn hl
    have hpl := ((isLegalAction_ok_true_iff ndebug n env a).mp hl).1
    have hp : a.player ≠ .kPlayerNone := hpl ▸ hturn
    rw [he]
    have hopp : pieceCount ((applyJump n env a).bitboard_.get (getNextPlayer a.player)) ≤
        pieceCount (env.bitboard_.get (getNextPlayer a.player)) := by
      cases hb : (env.bitboard_.get (getNextPlayer a.player)).testBit
          (Int.tdiv (getFromPos n a.action_id + getDestPos n a.action_id) 2).toNat
      · exact le_of_eq (h3 hb)
      · have := h2 hb
        omega
    rcases hpc : a.player with _ | _ | _
    · exact absurd hpc hp
    · rw [hpc] at h1 hopp
      exact ⟨le_of_eq h1, hopp⟩
    · rw [hpc] at h1 hopp
      exact ⟨hopp, le_of_eq h1⟩

set_option maxRecDepth 100000 in
/-- Along any game from `reset()` on the 8 by 8 board no player has more than 12 pieces. -/
theorem reachable_counts_le (ndebug : Bool) (env : LeapFrogEnv)
    (h : Reachable ndebug 8 env) :
    pieceCount env.bitboard_.player1 ≤ 12 ∧ pieceCount env.bitboard_.player2 ≤ 12 := by
  induction h with
  | start h0 =>
    rw [reset_eq_initialEnv] at h0
    simp only [Except.ok.injEq] at h0
    subst h0
    decide
  | step a hr hact ih =>
    have hturn := (reachable_historyInvariant ndebug 8 _ hr).1
    have := act_counts_le ndebug 8 _ _ a _ hturn hact
    omega

/-- C27: in every engine state whose two bitboards are disjoint and whose side to move is
a player, for every action that `isLegalAction` accepts, `act` leaves the mover's piece
count unchanged and lowers the opponent's piece count by exactly one if the jumped-over
square held an opponent piece and by zero otherwise; along any game from `reset()` on the
8 by 8 board no `act` call raises a piece count, and neither count exceeds 12. -/
theorem act_piece_counts (ndebug : Bool) (n : Int) (env : LeapFrogEnv) (a : LeapFrogAction)
    (hdisjoint : env.bitboard_.player1 &&& env.bitboard_.player2 = 0)
    (hturn : env.turn_ ≠ .kPlayerNone)
    (hl : isLegalAction ndebug n env a = .ok true) :
    (∃ env' : LeapFrogEnv, act ndebug n env a = .ok (true, env') ∧
      pieceCount (env'.bitboard_.get a.player) = pieceCount (env.bitboard_.get a.player) ∧
      (ownerAt env.bitboard_
          (Int.tdiv (getFromPos n a.action_id + getDestPos n a.action_id) 2).toNat =
          getNextPlayer a.player →
        pieceCount (env'.bitboard_.get (getNextPlayer a.player)) + 1 =
          pieceCount (env.bitboard_.get (getNextPlayer a.player))) ∧
      (ownerAt env.bitboard_
          (Int.tdiv (getFromPos n a.action_id + getDestPos n a.action_id) 2).toNat ≠
          getNextPlayer a.player →
        pieceCount (env'.bitboard_.get (getNextPlayer a.player)) =
          pieceCount (env.bitboard_.get (getNextPlayer a.player)))) ∧
    (∀ env0 : LeapFrogEnv, Reachable ndebug 8 env0 →
      pieceCount env0.bitboard_.player1 ≤ 12 ∧ pieceCount env0.bitboard_.player2 ≤ 12 ∧
      ∀ (a0 : LeapFrogAction) (flag : Bool) (env1 : LeapFrogEnv),
        act ndebug 8 env0 a0 = .ok (flag, env1) →
        pieceCount env1.bitboard_.player1 ≤ pieceCount env0.bitboard_.player1 ∧
        pieceCount env1.bitboard_.player2 ≤ pieceCount env0.bitboard_.player2) := by
  have hpl := ((isLegalAction_ok_true_iff ndebug n env a).mp hl).1
  have hp : a.player ≠ .kPlayerNone := hpl ▸ hturn
  obtain ⟨h1, h2, h3⟩ := applyJump_counts ndebug n env a hturn hl
  refine ⟨⟨applyJump n env a, act_of_legal ndebug n env a hl, h1, ?_, ?_⟩, ?_⟩
  · intro ho
    exact h2 ((ownerAt_opponent _ _ _ hp hdisjoint).mp ho)
  · intro ho
    apply h3
    cases hb : (env.bitboard_.get (getNextPlayer a.player)).testBit
        (Int.tdiv (getFromPos n a.action_id + getDestPos n a.action_id) 2).toNat
    · rfl
    · exact absurd ((ownerAt_opponent _ _ _ hp hdisjoint).mpr hb) ho
  · intro env0 hr
    obtain ⟨c1, c2⟩ := reachable_counts_le ndebug env0 hr
    refine ⟨c1, c2, ?_⟩
    intro a0 flag env1 hact
    exact act_counts_le ndebug 8 env0 env1 a0 flag
      (reachable_historyInvariant ndebug 8 _ hr).1 hact

set_option maxRecDepth 100000 in
theorem act_piece_counts_witness :
    initialEnv.bitboard_.player1 &&& initialEnv.bitboard_.player2 = 0 ∧
    initialEnv.turn_ ≠ .kPlayerNone ∧
    isLegalAction false 8 initialEnv ⟨436, .kPlayer1⟩ = .ok true ∧
    ∃ env' : LeapFrogEnv, act false 8 initialEnv ⟨436, .kPlayer1⟩ = .ok (true, env') ∧
      pieceCount (env'.bitboard_.get .kPlayer1) =
        pieceCount (initialEnv.bitboard_.get .kPlayer1) ∧
      (ownerAt initialEnv.bitboard_ (Int.tdiv (getFromPos 8 436 + getDestPos 8 436) 2).toNat =
          getNextPlayer .kPlayer1 →
        pieceCount (env'.bitboard_.get (getNextPlayer .kPlayer1)) + 1 =
          pieceCount (initialEnv.bitboard_.get (getNextPlayer .kPlayer1))) ∧
      (ownerAt initialEnv.bitboard_ (Int.tdiv (getFromPos 8 436 + getDestPos 8 436) 2).toNat ≠
          getNextPlayer .kPlayer1 →
        pieceCount (env'.bitboard_.get (getNextPlayer .kPlayer1)) =
          pieceCount (initialEnv.bitboard_.get (getNextPlayer .kPlayer1))) :=
  ⟨by decide, by decide, by decide,
    (act_piece_counts false 8 initialEnv ⟨436, .kPlayer1⟩ (by decide) (by decide)
      (by decide)).1⟩

/-! ## Claims on the console commands -/

theorem toStringCells_ok (n : Int) (env : LeapFrogEnv) (row : Int) :
    ∀ cols : List Nat, (∀ col ∈ cols, 0 ≤ row * n + (col : Int) ∧ row * n + (col : Int) < 64) →
      ∃ text, toStringCells n env row cols = .ok text := by
  intro cols
  induction cols with
  | nil => intro _; exact ⟨[], rfl⟩
  | cons col rest ih =>
    intro h
    obtain ⟨more, hmore⟩ := ih (fun x hx => h x (List.mem_cons_of_mem _ hx))
    have hpos := h col (List.mem_cons_self _ _)
    unfold toStringCells
    rw [getPlayerAtBoardPos_eq, if_pos hpos, hmore]
    exact ⟨_, rfl⟩

theorem toStringRows_ok (n : Int) (env : LeapFrogEnv) (hn8 : n ≤ 8) :
    ∀ rows : List Nat, (∀ row ∈ rows, (row : Int) < n) →
      ∃ text, toStringRows n env rows = .ok text := by
  intro rows
  induction rows with
  | nil => intro _; exact ⟨[], rfl⟩
  | cons row rest ih =>
    intro h
    obtain ⟨more, hmore⟩ := ih (fun x hx => h x (List.mem_cons_of_mem _ hx))
    have hrow := h row (List.mem_cons_self _ _)
    obtain ⟨cells, hcells⟩ := toStringCells_ok n env row (List.range n.toNat) (by
      intro col hcol
      have hc : (col : Int) < n := by
        have := List.mem_range.mp hcol
        omega
      have h1 := square_index_nonneg n row col (by omega) (by omega) (by omega)
      have h2 := square_index_lt n row col hrow (by omega) hc
      have h3 := board_area_le n (by omega) hn8
      omega)
    unfold toStringRows
    rw [hcells, hmore]
    exact ⟨_, rfl⟩

/-- On a board of size at most 8 the rendering returns, and its text ends with a space
and one newline character. -/
theorem toString_ok (n : Int) (env : LeapFrogEnv) (hn8 : n ≤ 8) :
    ∃ board : List Char, LeapFrogEnv.toString n env = .ok (board ++ [' ', '\n']) := by
  obtain ⟨rows, hrows⟩ := toStringRows_ok n env hn8 (List.range n.toNat).reverse (by
    intro row hrow
    have := List.mem_range.mp (List.mem_reverse.mp hrow)
    omega)
  unfold LeapFrogEnv.toString
  rw [hrows]
  refine ⟨" ".toList ++ getCoordinateString n ++ "\n".toList ++ rows ++ " ".toList ++
    ("  ".toList ++ ((List.range n.toNat).map (fun i : Nat =>
      " ".toList ++ [to_char (('A'.toNat : Int) + i +
        (if ('A'.toNat : Int) + i ≥ ('I'.toNat : Int) then 1 else 0))] ++
          " ".toList)).flatten ++ "  ".toList), ?_⟩
  simp [getCoordinateString, bind, Except.bind, pure, Except.pure]

set_option maxRecDepth 100000 in
/-- C21, as stated, fails: on the start position the reply to `7 showboard` ends with
three newline characters, the last one of the rendered board and the two of the framing,
so the two final newline characters are preceded by a third. -/
theorem showboard_reply_three_newlines :
    ∃ output : List Char,
      executeCommand exampleStatus exampleConsoleRegistry (fun _ => false) Except.ok
        ⟨initialEnv, [], []⟩ "7 showboard".toList = .ok ⟨initialEnv, "7".toList, output⟩ ∧
      output =
        ("=7 \n" ++
         "    A  B  C  D  E  F  G  H    \n" ++
         " 8  .  .  .  .  .  .  .  .  8\n" ++
         " 7  .  .  .  X  O  .  .  .  7\n" ++
         " 6  .  .  O  O  X  X  .  .  6\n" ++
         " 5  .  X  O  X  O  X  O  .  5\n" ++
         " 4  .  O  X  O  X  O  X  .  4\n" ++
         " 3  .  .  X  X  O  O  .  .  3\n" ++
         " 2  .  .  .  O  X  .  .  .  2\n" ++
         " 1  .  .  .  .  .  .  .  .  1\n" ++
         "    A  B  C  D  E  F  G  H    \n" ++
         "\n\n").toList ∧
      output.reverse.take 3 = ['\n', '\n', '\n'] :=
  ⟨_, rfl, rfl, by decide⟩

/-- C21, amended: on a board of size at most 8, for every engine state, the reply to the
line `7 showboard` begins with the success marker immediately followed by `7` and a space;
its body is a newline character and the rendered board, which itself ends with a newline
character, so that the output ends with a space and exactly three newline characters. -/
theorem showboard_reply {σ : Type} (status : ConsoleResponse → Char) (ndebug : Bool)
    (n : Int) (actor : Actor σ) (charToPlayer : Char → Player) (playerToChar : Player → Char)
    (what : Fault → List Char) (to_string_float : Rat → List Char)
    (others : List Char → Handler σ)
    (uninitialized : σ → Bool) (initialization : σ → Except Fault σ)
    (c : Console σ) (s0 : σ) (hn8 : n ≤ 8)
    (hinit : (if uninitialized c.session then initialization c.session else pure c.session)
      = .ok s0) :
    ∃ board : List Char,
      LeapFrogEnv.toString n (actor.getEnvironment s0) = .ok (board ++ [' ', '\n']) ∧
      executeCommand status
          (Console.function_map_ ndebug n actor charToPlayer playerToChar what
            to_string_float others)
          uninitialized initialization c "7 showboard".toList =
        .ok ⟨s0, "7".toList,
          c.output ++ [status .kSuccess] ++ "7 ".toList ++ "\n".toList ++ board ++
            [' ', '\n', '\n', '\n']⟩ := by
  obtain ⟨board, hboard⟩ := toString_ok n (actor.getEnvironment s0) hn8
  refine ⟨board, hboard, ?_⟩
  rw [executeCommand_dispatch status _ uninitialized initialization c "7 showboard".toList
    "7".toList ["showboard".toList] s0 hinit (by decide)]
  have hid : isCommandId "7".toList = true := by decide
  have hlook : Console.function_map_ ndebug n actor charToPlayer playerToChar what
      to_string_float others "showboard".toList = some (cmdShowBoard n actor) := rfl
  have hcheck : checkArgument ["showboard".toList] 1 1 = (true, []) := by decide
  simp only [hid, if_true, firstArg, bind, Except.bind, hlook, cmdShowBoard, hcheck,
    Bool.not_true, Bool.false_eq_true, if_false, hboard, pure, Except.pure]
  simp [frameReply]

set_option maxRecDepth 100000 in
theorem showboard_reply_witness :
    (8 : Int) ≤ 8 ∧
    ∃ board : List Char,
      LeapFrogEnv.toString 8 (exampleActor.getEnvironment initialEnv) =
        .ok (board ++ [' ', '\n']) ∧
      executeCommand exampleStatus
          (Console.function_map_ false 8 exampleActor exampleCharToPlayer
            examplePlayerToChar exampleWhat exampleFloatString (fun _ _ env => .ok (env, [])))
          (fun _ => false) Except.ok ⟨initialEnv, [], []⟩ "7 showboard".toList =
        .ok ⟨initialEnv, "7".toList,
          [] ++ [exampleStatus .kSuccess] ++ "7 ".toList ++ "\n".toList ++ board ++
            [' ', '\n', '\n', '\n']⟩ :=
  ⟨by decide,
    showboard_reply exampleStatus false 8 exampleActor exampleCharToPlayer
      examplePlayerToChar exampleWhat exampleFloatString (fun _ _ env => .ok (env, []))
      (fun _ => false) Except.ok ⟨initialEnv, [], []⟩ initialEnv (by decide) rfl⟩

/-- C22: for every input line whose command token, the first token after an optional
decimal correlation id, is not a registered command name, the dispatcher runs no handler
and leaves the session as the set-up step gave it, and writes one failure reply whose body
is `Unknown command: ` followed by the line (the id token included), without the carriage
return that may end it; for the line `foo` and the registry of the console the body is
`Unknown command: foo`. -/
theorem unknown_command_reply {σ : Type} (status : ConsoleResponse → Char)
    (function_map_ : List Char → Option (Handler σ))
    (uninitialized : σ → Bool) (initialization : σ → Except Fault σ)
    (c : Console σ) (line first name : List Char) (more : List (List Char)) (s0 : σ)
    (hinit : (if uninitialized c.session then initialization c.session else pure c.session)
      = .ok s0)
    (htok : getlineTokens (stripCR line) = first :: more)
    (hname : firstArg (if isCommandId first then more else first :: more) = .ok name)
    (hunknown : function_map_ name = none) :
    executeCommand status function_map_ uninitialized initialization c line =
      .ok ⟨s0, if isCommandId first then first else [],
        c.output ++ [status .kFail] ++ (if isCommandId first then first else []) ++
          " ".toList ++ ("Unknown command: ".toList ++ stripCR line) ++ "\n\n".toList⟩ ∧
    (line.getLast? ≠ some '\r' → stripCR line = line) ∧
    (∀ (ndebug : Bool) (n : Int) (actor : Actor σ) (charToPlayer : Char → Player)
      (playerToChar : Player → Char) (what : Fault → List Char)
      (to_string_float : Rat → List Char) (others : List Char → Handler σ),
      executeCommand status
          (Console.function_map_ ndebug n actor charToPlayer playerToChar what
            to_string_float others)
          uninitialized initialization c "foo".toList =
        .ok ⟨s0, [], c.output ++ [status .kFail] ++ " ".toList ++
          "Unknown command: foo".toList ++ "\n\n".toList⟩) := by
  refine ⟨?_, ?_, ?_⟩
  · rw [executeCommand_dispatch status function_map_ uninitialized initialization c line
      first more s0 hinit htok, hname]
    simp only [bind, Except.bind, hunknown, pure, Except.pure, frameReply]
    simp
  · intro h
    unfold stripCR
    rw [if_neg h]
  · intro ndebug n actor charToPlayer playerToChar what to_string_float others
    rw [executeCommand_dispatch status _ uninitialized initialization c "foo".toList
      "foo".toList [] s0 hinit (by decide)]
    have hid : isCommandId "foo".toList = false := by decide
    have hlook : Console.function_map_ ndebug n actor charToPlayer playerToChar what
        to_string_float others "foo".toList = none := rfl
    have hstrip : stripCR "foo".toList = "foo".toList := by decide
    simp only [hid, Bool.false_eq_true, if_false, firstArg, bind, Except.bind, hlook, pure,
      Except.pure, frameReply, hstrip]
    simp

theorem unknown_command_reply_witness :
    getlineTokens (stripCR "12 foo bar\r".toList) = ["12".toList, "foo".toList, "bar".toList] ∧
    firstArg (if isCommandId "12".toList then ["foo".toList, "bar".toList]
      else ["12".toList, "foo".toList, "bar".toList]) = .ok "foo".toList ∧
    exampleConsoleRegistry "foo".toList = none ∧
    executeCommand exampleStatus exampleConsoleRegistry (fun _ => false) Except.ok
        ⟨initialEnv, [], []⟩ "12 foo bar\r".toList =
      .ok ⟨initialEnv, if isCommandId "12".toList then "12".toList else [],
        [] ++ [exampleStatus .kFail] ++ (if isCommandId "12".toList then "12".toList else []) ++
          " ".toList ++ ("Unknown command: ".toList ++ stripCR "12 foo bar\r".toList) ++
          "\n\n".toList⟩ :=
  ⟨by decide, by decide, rfl,
    (unknown_command_reply exampleStatus exampleConsoleRegistry (fun _ => false) Except.ok
      ⟨initialEnv, [], []⟩ "12 foo bar\r".toList "12".toList "foo".toList
      ["foo".toList, "bar".toList] initialEnv rfl (by decide) (by decide) rfl).1⟩

theorem checkArgument_flag (args : List (List Char)) (min_argc max_argc : Int) :
    (checkArgument args min_argc max_argc).1 = true ↔
      (min_argc ≤ (args.length : Int) ∧ (args.length : Int) ≤ max_argc) := by
  unfold checkArgument
  dsimp only
  by_cases h : (args.length : Int) ≥ min_argc ∧ (args.length : Int) ≤ max_argc
  · rw [if_pos h]
    exact ⟨fun _ => h, fun _ => rfl⟩
  · rw [if_neg h]
    exact ⟨fun hc => absurd hc (by simp), fun hc => absurd hc h⟩

set_option maxRecDepth 100000 in
/-- C23 on the failing input: `final_score x` has one argument too many, and the reply is
the success reply with the score, where `clear_board x` and `play b` get the failure reply
that describes the arity and leave the session unchanged; `checkArgument` returns true
exactly when the number of tokens lies between its two bounds. -/
theorem final_score_skips_checkArgument :
    executeCommand exampleStatus exampleConsoleRegistry (fun _ => false) Except.ok
        ⟨initialEnv, [], []⟩ "final_score x".toList =
      .ok ⟨initialEnv, [], "= 0.000000\n\n".toList⟩ ∧
    executeCommand exampleStatus exampleConsoleRegistry (fun _ => false) Except.ok
        ⟨initialEnv, [], []⟩ "clear_board x".toList =
      .ok ⟨initialEnv, [], "? command requires exactly 1 argument\n\n".toList⟩ ∧
    executeCommand exampleStatus exampleConsoleRegistry (fun _ => false) Except.ok
        ⟨initialEnv, [], []⟩ "play b".toList =
      .ok ⟨initialEnv, [], "? command requires 3 to 2147483647 arguments\n\n".toList⟩ ∧
    checkArgument ["final_score".toList, "x".toList] 1 1 =
      (false, [(.kFail, "command requires exactly 1 argument".toList)]) ∧
    (∀ (args : List (List Char)) (min_argc max_argc : Int),
      (checkArgument args min_argc max_argc).1 = true ↔
        (min_argc ≤ (args.length : Int) ∧ (args.length : Int) ≤ max_argc)) :=
  ⟨rfl, rfl, rfl, by decide, checkArgument_flag⟩

/-- C28 on the failing inputs: on the empty line `executeCommand` reads the last character
of an empty string, and on a line that is only a correlation id it reads the first token
of the token list it has just emptied; neither run ends in a reply. -/
theorem executeCommand_reads_out_of_range {σ : Type} (status : ConsoleResponse → Char)
    (function_map_ : List Char → Option (Handler σ))
    (initialization : σ → Except Fault σ) (c : Console σ) :
    executeCommand status function_map_ (fun _ => false) initialization c [] =
      .error .undefined ∧
    executeCommand status function_map_ (fun _ => false) initialization c "7".toList =
      .error .undefined ∧
    executeCommand status function_map_ (fun _ => false) initialization c "7 ".toList =
      .error .undefined ∧
    executeCommand status function_map_ (fun _ => false) initialization c "7\r".toList =
      .error .undefined ∧
    back [] = .error .undefined ∧
    getlineTokens "7".toList = ["7".toList] ∧
    firstArg (["7".toList] : List (List Char)).tail = .error .undefined :=
  ⟨rfl, rfl, rfl, rfl, rfl, by decide, rfl⟩

theorem strAt_zero (str : List Char) : strAt str 0 = .ok (str.headD (Char.ofNat 0)) := by
  cases str with
  | nil => rfl
  | cons ch rest =>
    unfold strAt
    rw [if_pos ⟨le_refl _, by simp⟩]
    rfl

/-- The constructor from `[player, move]` returns or raises as the parser does. -/
theorem ofStrings_pair (ndebug : Bool) (n : Int) (charToPlayer : Char → Player)
    (player move : List Char) :
    LeapFrogAction.ofStrings ndebug n charToPlayer [player, move] =
      (match actionStringToID ndebug n [player, move] with
        | .ok id => .ok ⟨id, charToPlayer (player.headD (Char.ofNat 0))⟩
        | .error e => .error e) := by
  unfold LeapFrogAction.ofStrings
  cases actionStringToID ndebug n [player, move] with
  | error e => rfl
  | ok id =>
    simp only [bind, Except.bind, vectorAt, List.get?, strAt_zero, pure, Except.pure]

/-- The handler `cmdIsLegal` on three tokens, by the outcome of the parser, when the
player named is not the side to move. -/
theorem cmdIsLegal_wrong_turn {σ : Type} (ndebug : Bool) (n : Int) (actor : Actor σ)
    (charToPlayer : Char → Player) (playerToChar : Player → Char) (what : Fault → List Char)
    (cmd player move : List Char) (s : σ)
    (hturn : charToPlayer (player.headD (Char.ofNat 0)) ≠ (actor.getEnvironment s).turn_) :
    cmdIsLegal ndebug n actor charToPlayer playerToChar what [cmd, player, move] s =
      (match actionStringToID ndebug n [player, move] with
        | .ok _ => .ok (s, [(.kFail, "It's ".toList ++
            [playerToChar (actor.getEnvironment s).turn_] ++ "'s turn.".toList)])
        | .error e =>
          if isException e then .ok (s, [(.kFail, "Invalid action: ".toList ++ what e)])
          else .error e) := by
  have hcheck : checkArgument [cmd, player, move] 3 INT_MAX = (true, []) := by
    simp [checkArgument, INT_MAX]
  unfold cmdIsLegal
  simp only [hcheck, Bool.not_true, Bool.false_eq_true, if_false, List.drop_succ_cons,
    List.drop_zero, ofStrings_pair]
  cases actionStringToID ndebug n [player, move] with
  | error e => rfl
  | ok id =>
    simp only [bind, Except.bind, vectorAt, List.get?, strAt_zero, ne_eq, hturn,
      not_false_eq_true, if_true, pure, Except.pure]

set_option maxRecDepth 100000 in
/-- C24 on the failing input: after Player 1's first jump it is White's turn, and on the
move text `abcd` the parser raises `std::invalid_argument` where it is meant to return
`-1`; `cmdIsLegal` catches it, and the reply to `is_legal b abcd` is the failure
`Invalid action: stoi`, which does not say whose turn it is. -/
theorem is_legal_malformed_move :
    Reachable false 8 (applyJump 8 initialEnv ⟨436, .kPlayer1⟩) ∧
    (applyJump 8 initialEnv ⟨436, .kPlayer1⟩).turn_ = .kPlayer2 ∧
    exampleCharToPlayer 'b' = .kPlayer1 ∧
    actionStringToID false 8 ["b".toList, "abcd".toList] = .error .invalid_argument ∧
    cmdIsLegal false 8 exampleActor exampleCharToPlayer examplePlayerToChar exampleWhat
        ["is_legal".toList, "b".toList, "abcd".toList]
        (applyJump 8 initialEnv ⟨436, .kPlayer1⟩) =
      .ok (applyJump 8 initialEnv ⟨436, .kPlayer1⟩,
        [(.kFail, "Invalid action: stoi".toList)]) ∧
    executeCommand exampleStatus exampleConsoleRegistry (fun _ => false) Except.ok
        ⟨applyJump 8 initialEnv ⟨436, .kPlayer1⟩, [], []⟩ "is_legal b abcd".toList =
      .ok ⟨applyJump 8 initialEnv ⟨436, .kPlayer1⟩, [],
        "? Invalid action: stoi\n\n".toList⟩ :=
  ⟨Reachable.step ⟨436, .kPlayer1⟩ (Reachable.start reset_eq_initialEnv)
      (act_of_legal false 8 initialEnv ⟨436, .kPlayer1⟩ (by decide)),
    rfl, rfl, by decide, rfl, rfl⟩

/-- Whenever the parser returns an id for the move argument (a valid one or `-1`), the
reply of `is_legal` for a player other than the side to move is the failure that states
whose turn it is; when the parser raises an exception the reply is the failure
`Invalid action: ` with the text of the exception; no reply is `True` or `False`. -/
theorem is_legal_wrong_turn {σ : Type} (ndebug : Bool) (n : Int) (actor : Actor σ)
    (charToPlayer : Char → Player) (playerToChar : Player → Char) (what : Fault → List Char)
    (cmd player move : List Char) (s : σ)
    (hturn : charToPlayer (player.headD (Char.ofNat 0)) ≠ (actor.getEnvironment s).turn_) :
    (∀ id : Int, actionStringToID ndebug n [player, move] = .ok id →
      cmdIsLegal ndebug n actor charToPlayer playerToChar what [cmd, player, move] s =
        .ok (s, [(.kFail, "It's ".toList ++
          [playerToChar (actor.getEnvironment s).turn_] ++ "'s turn.".toList)])) ∧
    (∀ e : Fault, actionStringToID ndebug n [player, move] = .error e →
      isException e = true →
      cmdIsLegal ndebug n actor charToPlayer playerToChar what [cmd, player, move] s =
        .ok (s, [(.kFail, "Invalid action: ".toList ++ what e)])) ∧
    (∀ (s' : σ) (replies : List (ConsoleResponse × List Char)),
      cmdIsLegal ndebug n actor charToPlayer playerToChar what [cmd, player, move] s =
        .ok (s', replies) →
      s' = s ∧ ∃ body : List Char, replies = [(.kFail, body)] ∧
        body ≠ "True".toList ∧ body ≠ "False".toList) := by
  have key := cmdIsLegal_wrong_turn ndebug n actor charToPlayer playerToChar what
    cmd player move s hturn
  refine ⟨?_, ?_, ?_⟩
  · intro id hid
    rw [key, hid]
  · intro e he hex
    rw [key, he]
    simp only [hex, if_true]
  · intro s' replies hres
    rw [key] at hres
    cases hp : actionStringToID ndebug n [player, move] with
    | ok id =>
      rw [hp] at hres
      simp only [Except.ok.injEq, Prod.mk.injEq] at hres
      refine ⟨hres.1.symm, _, hres.2.symm, ?_, ?_⟩ <;> simp
    | error e =>
      rw [hp] at hres
      by_cases hex : isException e = true
      · simp only [hex, if_true, Except.ok.injEq, Prod.mk.injEq] at hres
        refine ⟨hres.1.symm, _, hres.2.symm, ?_, ?_⟩ <;> simp
      · simp only [hex, if_false] at hres
        exact absurd hres (by simp)

set_option maxRecDepth 100000 in
theorem is_legal_wrong_turn_witness :
    exampleCharToPlayer ("b".toList.headD (Char.ofNat 0)) ≠
      (exampleActor.getEnvironment (applyJump 8 initialEnv ⟨436, .kPlayer1⟩)).turn_ ∧
    actionStringToID false 8 ["b".toList, "e7c7".toList] = .ok 436 ∧
    cmdIsLegal false 8 exampleActor exampleCharToPlayer examplePlayerToChar exampleWhat
        ["is_legal".toList, "b".toList, "e7c7".toList]
        (applyJump 8 initialEnv ⟨436, .kPlayer1⟩) =
      .ok (applyJump 8 initialEnv ⟨436, .kPlayer1⟩,
        [(.kFail, "It's ".toList ++
          [examplePlayerToChar (exampleActor.getEnvironment
            (applyJump 8 initialEnv ⟨436, .kPlayer1⟩)).turn_] ++ "'s turn.".toList)]) :=
  ⟨by decide, by decide,
    (is_legal_wrong_turn false 8 exampleActor exampleCharToPlayer examplePlayerToChar
      exampleWhat "is_legal".toList "b".toList "e7c7".toList
      (applyJump 8 initialEnv ⟨436, .kPlayer1⟩) (by decide)).1 436 (by decide)⟩

/-! ## The codec in the arithmetic of `int` agrees with the codec on the integers -/

theorem intResult_of_range (wraps : Bool) (x : Int) (h0 : -2147483648 ≤ x)
    (h1 : x ≤ 2147483647) : intResult wraps x = .ok x := by
  unfold intResult
  rw [if_pos ⟨h0, h1⟩]

theorem intDiv_of_pos (a b : Int) (hb : 0 < b) : intDiv a b = .ok (Int.tdiv a b) := by
  unfold intDiv
  rw [if_neg (by omega)]

theorem intMod_of_pos (a b : Int) (hb : 0 < b) : intMod a b = .ok (Int.tmod a b) := by
  unfold intMod
  rw [if_neg (by omega)]

/-- While `8*n*n` fits in `int`, `coordinateToID` computed in `int` is `coordinateToID`. -/
theorem coordinateToID32_eq (wraps : Bool) (n c1 r1 c2 r2 : Int) (hn : 1 ≤ n)
    (hfit : 8 * n * n ≤ 2147483647) (hc1 : 0 ≤ c1 ∧ c1 < n) (hr1 : 0 ≤ r1 ∧ r1 < n) :
    coordinateToID32 wraps n c1 r1 c2 r2 = .ok (coordinateToID n c1 r1 c2 r2) := by
  have hnn : 0 < n * n := mul_pos (by omega) (by omega)
  have hp0 : 0 ≤ r1 * n + c1 := square_index_nonneg n r1 c1 (by omega) hr1.1 hc1.1
  have hp1 : r1 * n + c1 < n * n := square_index_lt n r1 c1 hr1.2 hc1.1 hc1.2
  have hr0 : 0 ≤ r1 * n := mul_nonneg hr1.1 (by omega)
  have e8 : 8 * n * n = 8 * (n * n) := by ring
  rcases coordinateToID_cases n c1 r1 c2 r2 with ⟨hnone, _⟩ | ⟨d, hd8, hsome, _⟩
  · simp [coordinateToID32, coordinateToID, hnone, pure, Except.pure]
  · have hdn : (d : Int) * (n * n) ≤ 7 * (n * n) :=
      Int.mul_le_mul_of_nonneg_right (by omega) hnn.le
    have hd0 : 0 ≤ (d : Int) * (n * n) := mul_nonneg (by omega) hnn.le
    simp only [coordinateToID32, coordinateToID, hsome, bind, Except.bind,
      intResult_of_range wraps (r1 * n) (by omega) (by omega),
      intResult_of_range wraps (r1 * n + c1) (by omega) (by omega),
      intResult_of_range wraps (n * n) (by omega) (by omega),
      intResult_of_range wraps ((d : Int) * (n * n)) (by omega) (by omega),
      intResult_of_range wraps ((d : Int) * (n * n) + (r1 * n + c1)) (by omega) (by omega)]

/-- While `n*n` fits in `int`, `getFromPos` computed in `int` is `getFromPos`. -/
theorem getFromPos32_eq (wraps : Bool) (n id : Int) (hn : 1 ≤ n)
    (hfit : 8 * n * n ≤ 2147483647) :
    getFromPos32 wraps n id = .ok (getFromPos n id) := by
  have hnn : 0 < n * n := mul_pos (by omega) (by omega)
  have e8 : 8 * n * n = 8 * (n * n) := by ring
  simp only [getFromPos32, getFromPos, bind, Except.bind,
    intResult_of_range wraps (n * n) (by omega) (by omega), intMod_of_pos _ _ hnn]

/-- While `8*n*n` fits in `int`, `getDestPos` computed in `int` is `getDestPos`, for
every id that is not negative. -/
theorem getDestPos32_eq (wraps : Bool) (n id : Int) (hn : 1 ≤ n)
    (hfit : 8 * n * n ≤ 2147483647) (h0 : 0 ≤ id) :
    getDestPos32 wraps n id = .ok (getDestPos n id) := by
  have hnn : 0 < n * n := mul_pos (by omega) (by omega)
  have e8 : 8 * n * n = 8 * (n * n) := by ring
  have hn0 : 0 < n := by omega
  have hnle : n ≤ n * n := by nlinarith
  obtain ⟨pos, hpos⟩ : ∃ pos, pos = Int.tmod id (n * n) := ⟨_, rfl⟩
  obtain ⟨dir, hdir⟩ : ∃ dir, dir = Int.tdiv id (n * n) := ⟨_, rfl⟩
  have hpos0 : 0 ≤ pos := by
    rw [hpos, Int.tmod_eq_emod h0 hnn.le]
    exact Int.emod_nonneg _ hnn.ne'
  have hpos1 : pos < n * n := by
    rw [hpos, Int.tmod_eq_emod h0 hnn.le]
    exact Int.emod_lt_of_pos _ hnn
  obtain ⟨row, hrow⟩ : ∃ row, row = Int.tdiv pos n := ⟨_, rfl⟩
  obtain ⟨col, hcol⟩ : ∃ col, col = Int.tmod pos n := ⟨_, rfl⟩
  have hrow0 : 0 ≤ row := by
    rw [hrow, Int.tdiv_eq_ediv hpos0 hn0.le]
    exact Int.ediv_nonneg hpos0 hn0.le
  have hrow1 : row < n := by
    rw [hrow, Int.tdiv_eq_ediv hpos0 hn0.le]
    exact Int.ediv_lt_of_lt_mul hn0 hpos1
  have hcol0 : 0 ≤ col := by
    rw [hcol, Int.tmod_eq_emod hpos0 hn0.le]
    exact Int.emod_nonneg _ hn0.ne'
  have hcol1 : col < n := by
    rw [hcol, Int.tmod_eq_emod hpos0 hn0.le]
    exact Int.emod_lt_of_pos _ hn0
  obtain ⟨rc, hrc⟩ : ∃ rc : Int × Int, rc =
      (if dir = 0 then (row + 2, col)
      else if dir = 1 then (row + 2, col + 2)
      else if dir = 2 then (row, col + 2)
      else if dir = 3 then (row - 2, col + 2)
      else if dir = 4 then (row - 2, col)
      else if dir = 5 then (row - 2, col - 2)
      else if dir = 6 then (row, col - 2)
      else if dir = 7 then (row + 2, col - 2)
      else (row, col)) := ⟨_, rfl⟩
  have hb : -2 ≤ rc.1 ∧ rc.1 < n + 2 ∧ -2 ≤ rc.2 ∧ rc.2 < n + 2 := by
    rw [hrc]
    split_ifs <;> dsimp only <;> omega
  unfold getDestPos32 getDestPos
  simp only [bind, Except.bind, intResult_of_range wraps (n * n) (by omega) (by omega),
    intDiv_of_pos _ _ hnn, intMod_of_pos _ _ hnn, intDiv_of_pos _ _ hn0,
    intMod_of_pos _ _ hn0, ← hpos, ← hdir, ← hrow, ← hcol, ← hrc,
    intResult_of_range wraps rc.1 (by omega) (by omega),
    intResult_of_range wraps rc.2 (by omega) (by omega)]
  by_cases hoff : rc.2 ≥ n ∨ rc.2 < 0 ∨ rc.1 ≥ n ∨ rc.1 < 0
  · simp only [hoff, if_true, pure, Except.pure]
  · simp only [hoff, if_false]
    have hr0 : 0 ≤ rc.1 := by omega
    have hr1 : rc.1 < n := by omega
    have hc0 : 0 ≤ rc.2 := by omega
    have hc1 : rc.2 < n := by omega
    have hx0 : 0 ≤ rc.1 * n := mul_nonneg hr0 hn0.le
    have hi0 := square_index_nonneg n rc.1 rc.2 hn0.le hr0 hc0
    have hi1 := square_index_lt n rc.1 rc.2 hr1 hc0 hc1
    simp only [intResult_of_range wraps (rc.1 * n) (by omega) (by omega),
      intResult_of_range wraps (rc.1 * n + rc.2) (by omega) (by omega)]

/-- While `8*n*n` fits in `int`, the jumped-over square computed in `int` is the
expression `(pos + dest_pos) / 2` of `isLegalAction` and `act`, for every id in range. -/
theorem midPos32_eq (wraps : Bool) (n id : Int) (hn : 1 ≤ n)
    (hfit : 8 * n * n ≤ 2147483647) (h0 : 0 ≤ id) (h1 : id < 8 * n * n) :
    midPos32 wraps n id = .ok (Int.tdiv (getFromPos n id + getDestPos n id) 2) := by
  have hnn : 0 < n * n := mul_pos (by omega) (by omega)
  have e8 : 8 * n * n = 8 * (n * n) := by ring
  have hsrc := getFromPos_eq_spec n id hn h0
  have hs0 : 0 ≤ id % (n * n) := Int.emod_nonneg _ hnn.ne'
  have hs1 : id % (n * n) < n * n := Int.emod_lt_of_pos _ hnn
  have hdest := getDestPos_eq_spec n id hn h0 h1
  have hd : -1 ≤ getDestPos n id ∧ getDestPos n id < n * n := by
    rw [hdest]
    split_ifs with hon
    · have := squareIndex_bounds n _ hon
      omega
    · omega
  unfold midPos32
  rw [getFromPos32_eq wraps n id hn hfit, getDestPos32_eq wraps n id hn hfit h0]
  simp only [bind, Except.bind]
  rw [intResult_of_range wraps _ (by omega) (by omega)]
  exact intDiv_of_pos _ _ (by norm_num)

/-! ## Claims on the action codec -/

/-- C8, as stated, fails: on the board of size 50000 the jump from column 0, row 0 to
column 2, row 2 has the delta NE, index 1, and the value `1*n*n + 0*n + 0 = 2500000000`
of the claim is no `int`; the product `board_size_ * board_size_` overflows, and the
wrapped result of the compiled code is `-1794967296`, below 0. -/
theorem coordinateToID_overflow :
    (1 : Int) ≤ 50000 ∧ ((0 : Int) ≤ 0 ∧ (0 : Int) < 50000) ∧ ((0 : Int) ≤ 2 ∧ (2 : Int) < 50000) ∧
    twoSquareDeltas.get? 1 = some ((2 : Int) - 0, (2 : Int) - 0) ∧
    ((1 : Nat) : Int) * 50000 * 50000 + 0 * 50000 + 0 > INT_MAX ∧
    coordinateToID32 false 50000 0 0 2 2 = .error .undefined ∧
    coordinateToID32 true 50000 0 0 2 2 = .ok (-1794967296) := by
  decide

/-- C8, amended: on an `n` by `n` board with `n ≥ 1` and `8*n*n` in the range of `int`,
and for on-board coordinates, `coordinateToID` returns `-1` exactly when
`(c2 - c1, r2 - r1)` is not one of the eight two-square deltas; when the delta is the
`d`-th of the table N, NE, E, SE, S, SW, W, NW it returns `d*n*n + r1*n + c1`; and every
result other than `-1` lies in `[0, 8*n*n)`.  No operation overflows, whatever the build
does on overflow. -/
theorem coordinateToID_spec (wraps : Bool) (n c1 r1 c2 r2 : Int) (hn : 1 ≤ n)
    (hfit : 8 * n * n ≤ INT_MAX)
    (hc1 : 0 ≤ c1 ∧ c1 < n) (hr1 : 0 ≤ r1 ∧ r1 < n)
    (hc2 : 0 ≤ c2 ∧ c2 < n) (hr2 : 0 ≤ r2 ∧ r2 < n) :
    ∃ id : Int, coordinateToID32 wraps n c1 r1 c2 r2 = .ok id ∧
      id = coordinateToID n c1 r1 c2 r2 ∧
      (id = -1 ↔ (c2 - c1, r2 - r1) ∉ twoSquareDeltas) ∧
      (∀ d : Nat, twoSquareDeltas.get? d = some (c2 - c1, r2 - r1) →
        id = d * n * n + r1 * n + c1) ∧
      (id ≠ -1 → 0 ≤ id ∧ id < 8 * n * n) :=
  ⟨_, coordinateToID32_eq wraps n c1 r1 c2 r2 hn hfit hc1 hr1, rfl,
    coordinateToID_spec_integers n c1 r1 c2 r2 hn hc1 hr1 hc2 hr2⟩

theorem coordinateToID_spec_witness :
    (1 : Int) ≤ 8 ∧ (8 : Int) * 8 * 8 ≤ INT_MAX ∧
    ((0 : Int) ≤ 2 ∧ (2 : Int) < 8) ∧ ((0 : Int) ≤ 0 ∧ (0 : Int) < 8) ∧
    ∃ id : Int, coordinateToID32 false 8 2 2 0 0 = .ok id ∧
      id = coordinateToID 8 2 2 0 0 ∧
      (id = -1 ↔ ((0 : Int) - 2, (0 : Int) - 2) ∉ twoSquareDeltas) ∧
      (∀ d : Nat, twoSquareDeltas.get? d = some ((0 : Int) - 2, (0 : Int) - 2) →
        id = d * 8 * 8 + 2 * 8 + 2) ∧
      (id ≠ -1 → 0 ≤ id ∧ id < 8 * 8 * 8) :=
  ⟨by decide, by decide, by decide, by decide,
    coordinateToID_spec false 8 2 2 0 0 (by decide) (by decide) (by decide) (by decide)
      (by decide) (by decide)⟩

/-- C9, as stated, fails: on the board of size 50000 the jump from column 0, row 0 to
column 2, row 0 has the delta E, and `coordinateToID` overflows; the wrapped id of the
compiled code is `705032704`, which `getFromPos` decodes to `705032704`, not `0*n + 0`,
and `getDestPos` to `705132704`, not `0*n + 2`. -/
theorem decode_coordinateToID_overflow :
    (1 : Int) ≤ 50000 ∧ ((0 : Int) ≤ 0 ∧ (0 : Int) < 50000) ∧ ((0 : Int) ≤ 2 ∧ (2 : Int) < 50000) ∧
    ((2 : Int) - 0, (0 : Int) - 0) ∈ twoSquareDeltas ∧
    coordinateToID32 false 50000 0 0 2 0 = .error .undefined ∧
    coordinateToID32 true 50000 0 0 2 0 = .ok 705032704 ∧
    getFromPos32 true 50000 705032704 = .ok 705032704 ∧
    getDestPos32 true 50000 705032704 = .ok 705132704 ∧
    (705032704 : Int) ≠ 0 * 50000 + 0 ∧ (705132704 : Int) ≠ 0 * 50000 + 2 := by
  decide

/-- C9, amended: decoding undoes encoding.  On an `n` by `n` board with `n ≥ 1` and
`8*n*n` in the range of `int`, for on-board `(c1, r1)` and `(c2, r2)` whose delta is one
of the eight two-square deltas, `coordinateToID` returns an id, and `getFromPos` of that id
returns `r1*n + c1` and `getDestPos` of it returns `r2*n + c2`. -/
theorem decode_coordinateToID (wraps : Bool) (n c1 r1 c2 r2 : Int) (hn : 1 ≤ n)
    (hfit : 8 * n * n ≤ INT_MAX)
    (hc1 : 0 ≤ c1 ∧ c1 < n) (hr1 : 0 ≤ r1 ∧ r1 < n)
    (hc2 : 0 ≤ c2 ∧ c2 < n) (hr2 : 0 ≤ r2 ∧ r2 < n)
    (hdelta : (c2 - c1, r2 - r1) ∈ twoSquareDeltas) :
    ∃ id : Int, coordinateToID32 wraps n c1 r1 c2 r2 = .ok id ∧
      getFromPos32 wraps n id = .ok (r1 * n + c1) ∧
      getDestPos32 wraps n id = .ok (r2 * n + c2) := by
  obtain ⟨h1, h2⟩ := decode_coordinateToID_integers n c1 r1 c2 r2 hn hc1 hr1 hc2 hr2 hdelta
  have hid0 : 0 ≤ coordinateToID n c1 r1 c2 r2 := by
    rcases coordinateToID_range n c1 r1 c2 r2 hc1 hr1 with h | h
    · have hmem := ((coordinateToID_spec_integers n c1 r1 c2 r2 hn hc1 hr1 hc2 hr2).1).mp h
      exact absurd hdelta hmem
    · exact h.1
  refine ⟨_, coordinateToID32_eq wraps n c1 r1 c2 r2 hn hfit hc1 hr1, ?_, ?_⟩
  · rw [getFromPos32_eq wraps n _ hn hfit, h1]
  · rw [getDestPos32_eq wraps n _ hn hfit hid0, h2]

theorem decode_coordinateToID_witness :
    (1 : Int) ≤ 8 ∧ (8 : Int) * 8 * 8 ≤ INT_MAX ∧
    ((0 : Int) ≤ 2 ∧ (2 : Int) < 8) ∧ ((0 : Int) ≤ 0 ∧ (0 : Int) < 8) ∧
    ((0 : Int) - 2, (0 : Int) - 2) ∈ twoSquareDeltas ∧
    ∃ id : Int, coordinateToID32 false 8 2 2 0 0 = .ok id ∧
      getFromPos32 false 8 id = .ok (2 * 8 + 2) ∧
      getDestPos32 false 8 id = .ok (0 * 8 + 0) :=
  ⟨by decide, by decide, by decide, by decide, by decide,
    decode_coordinateToID false 8 2 2 0 0 (by decide) (by decide) (by decide)
      (by decide) (by decide) (by decide) (by decide)⟩

/-- C10, as stated, fails: on the board of size 50000 the id `2000000000` lies in
`[0, 8*n*n)`, its source is row 40000, column 0 and its direction is N, so the target
(row 40002, column 0) is on the board with index `2000100000`; `getDestPos` overflows in
`board_size_ * board_size_`, and the wrapped run of the compiled code returns
`205032704`. -/
theorem getDestPos_overflow :
    (1 : Int) ≤ 50000 ∧ (2000000000 : Int) ≤ INT_MAX ∧ (0 : Int) ≤ 2000000000 ∧ (2000000000 : Int) < 8 * 50000 * 50000 ∧
    specTarget 50000 2000000000 = (40002, 0) ∧
    onBoard 50000 (specTarget 50000 2000000000) ∧
    getDestPos32 false 50000 2000000000 = .error .undefined ∧
    getDestPos32 true 50000 2000000000 = .ok 205032704 ∧
    (205032704 : Int) ≠ 40002 * 50000 + 0 := by
  decide

/-- C10, amended: on an `n` by `n` board with `n ≥ 1` and `8*n*n` in the range of `int`,
for every id in `[0, 8*n*n)`, `getDestPos` returns `-1` exactly when moving the source
square `id mod n*n` two squares in direction `id / (n*n)` leaves the board; otherwise it
returns `row*n + col` of the target square, and `coordinateToID` applied to the source and
that target returns `id` again. -/
theorem getDestPos_spec (wraps : Bool) (n id : Int) (hn : 1 ≤ n)
    (hfit : 8 * n * n ≤ INT_MAX) (h0 : 0 ≤ id) (h1 : id < 8 * n * n) :
    ∃ dest : Int, getDestPos32 wraps n id = .ok dest ∧ dest = getDestPos n id ∧
      (dest = -1 ↔ ¬ onBoard n (specTarget n id)) ∧
      (onBoard n (specTarget n id) →
        dest = (specTarget n id).1 * n + (specTarget n id).2 ∧
        coordinateToID32 wraps n (id % (n * n) % n) (id % (n * n) / n)
          (specTarget n id).2 (specTarget n id).1 = .ok id) := by
  obtain ⟨g1, g2⟩ := getDestPos_spec_integers n id hn h0 h1
  obtain ⟨_, _, _, _, hr, hc, _⟩ := id_decompose n id hn h0 h1
  refine ⟨_, getDestPos32_eq wraps n id hn hfit h0, rfl, g1, ?_⟩
  intro hon
  obtain ⟨g3, g4⟩ := g2 hon
  refine ⟨g3, ?_⟩
  rw [coordinateToID32_eq wraps n _ _ _ _ hn hfit hc hr, g4]

theorem getDestPos_spec_witness :
    (1 : Int) ≤ 8 ∧ (8 : Int) * 8 * 8 ≤ INT_MAX ∧ (0 : Int) ≤ 338 ∧ (338 : Int) < 8 * 8 * 8 ∧
    ∃ dest : Int, getDestPos32 false 8 338 = .ok dest ∧ dest = getDestPos 8 338 ∧
      (dest = -1 ↔ ¬ onBoard 8 (specTarget 8 338)) ∧
      (onBoard 8 (specTarget 8 338) →
        dest = (specTarget 8 338).1 * 8 + (specTarget 8 338).2 ∧
        coordinateToID32 false 8 (338 % (8 * 8) % 8) (338 % (8 * 8) / 8)
          (specTarget 8 338).2 (specTarget 8 338).1 = .ok 338) :=
  ⟨by decide, by decide, by decide, by decide,
    getDestPos_spec false 8 338 (by decide) (by decide) (by decide) (by decide)⟩

/-- C25, as stated, fails: on the board of size 50000 the source row 40000, column 0 and
the direction N have the destination row 40002, column 0 on the board; the id of the jump
is `2000000000`, and `getFromPos` overflows in `board_size_ * board_size_`.  In the wrapped
run of the compiled code source, destination and jumped-over square all come out as
`205032704`, where the claim gives `(40000 + 1)*n + 0 = 2000050000`, different from the
source. -/
theorem midpoint_overflow :
    (1 : Int) ≤ 50000 ∧ onBoard 50000 (40000, 0) ∧
    twoSquareDeltas.get? 0 = some (0, 2) ∧ onBoard 50000 (40000 + 2, 0 + 0) ∧
    ((0 : Nat) : Int) * (50000 * 50000) + (40000 * 50000 + 0) = 2000000000 ∧
    midPos32 false 50000 2000000000 = .error .undefined ∧
    getFromPos32 true 50000 2000000000 = .ok 205032704 ∧
    getDestPos32 true 50000 2000000000 = .ok 205032704 ∧
    midPos32 true 50000 2000000000 = .ok 205032704 ∧
    (205032704 : Int) ≠ (40000 + 2 / 2) * 50000 + (0 + 0 / 2) := by
  decide

/-- C25, amended: for every board size `n ≥ 1` with `8*n*n` in the range of `int`, every
source square `(row, col)` on the board and each of the eight directions `(dc, dr)` whose
destination `(row+dr, col+dc)` is on the board, the integer `(from + dest) / 2` that
`isLegalAction` and `act` compute for the action id of that jump is
`(row + dr/2)*n + (col + dc/2)`, the index of the on-board square between source and
destination, and differs from both indices. -/
theorem midpoint_between (wraps : Bool) (n row col dc dr : Int) (d : Nat) (hn : 1 ≤ n)
    (hfit : 8 * n * n ≤ INT_MAX)
    (hrow : 0 ≤ row ∧ row < n) (hcol : 0 ≤ col ∧ col < n)
    (hd : twoSquareDeltas.get? d = some (dc, dr))
    (hon : onBoard n (row + dr, col + dc)) :
    getFromPos32 wraps n (d * (n * n) + (row * n + col)) = .ok (row * n + col) ∧
    getDestPos32 wraps n (d * (n * n) + (row * n + col)) =
      .ok ((row + dr) * n + (col + dc)) ∧
    midPos32 wraps n (d * (n * n) + (row * n + col)) =
      .ok ((row + dr / 2) * n + (col + dc / 2)) ∧
    Int.tdiv (getFromPos n (d * (n * n) + (row * n + col)) +
        getDestPos n (d * (n * n) + (row * n + col))) 2 =
      (row + dr / 2) * n + (col + dc / 2) ∧
    onBoard n (row + dr / 2, col + dc / 2) ∧
    (row + dr / 2) * n + (col + dc / 2) ≠ row * n + col ∧
    (row + dr / 2) * n + (col + dc / 2) ≠ (row + dr) * n + (col + dc) := by
  obtain ⟨m1, m2, m3, m4, m5, m6⟩ := midpoint_between_integers n row col dc dr d hn hrow hcol hd hon
  have hnn : 0 < n * n := mul_pos (by omega) (by omega)
  have hp0 : 0 ≤ row * n + col := square_index_nonneg n row col (by omega) hrow.1 hcol.1
  have hp1 : row * n + col < n * n := square_index_lt n row col hrow.2 hcol.1 hcol.2
  have hd8 : d < 8 := by
    by_contra hcon
    have : (8 : Nat) ≤ d := by omega
    rw [List.get?_eq_none.mpr (by simpa [twoSquareDeltas] using this)] at hd
    exact absurd hd (by simp)
  have hdn : (d : Int) * (n * n) ≤ 7 * (n * n) :=
    Int.mul_le_mul_of_nonneg_right (by omega) hnn.le
  have hd0 : 0 ≤ (d : Int) * (n * n) := mul_nonneg (by omega) hnn.le
  have e8 : 8 * n * n = 8 * (n * n) := by ring
  have hid0 : 0 ≤ (d : Int) * (n * n) + (row * n + col) := by omega
  have hid1 : (d : Int) * (n * n) + (row * n + col) < 8 * n * n := by omega
  refine ⟨?_, ?_, ?_, m3, m4, m5, m6⟩
  · rw [getFromPos32_eq wraps n _ hn hfit, m1]
  · rw [getDestPos32_eq wraps n _ hn hfit hid0, m2]
  · rw [midPos32_eq wraps n _ hn hfit hid0 hid1, m3]

theorem midpoint_between_witness :
    (1 : Int) ≤ 8 ∧ (8 : Int) * 8 * 8 ≤ INT_MAX ∧
    ((0 : Int) ≤ 6 ∧ (6 : Int) < 8) ∧ ((0 : Int) ≤ 4 ∧ (4 : Int) < 8) ∧
    twoSquareDeltas.get? 6 = some (-2, 0) ∧ onBoard 8 (6 + 0, 4 + -2) ∧
    getFromPos32 false 8 (((6 : Nat) : Int) * (8 * 8) + (6 * 8 + 4)) = .ok (6 * 8 + 4) ∧
    getDestPos32 false 8 (((6 : Nat) : Int) * (8 * 8) + (6 * 8 + 4)) =
      .ok ((6 + 0) * 8 + (4 + -2)) ∧
    midPos32 false 8 (((6 : Nat) : Int) * (8 * 8) + (6 * 8 + 4)) =
      .ok ((6 + 0 / 2) * 8 + (4 + -2 / 2)) ∧
    Int.tdiv (getFromPos 8 (((6 : Nat) : Int) * (8 * 8) + (6 * 8 + 4)) +
        getDestPos 8 (((6 : Nat) : Int) * (8 * 8) + (6 * 8 + 4))) 2 =
      (6 + 0 / 2) * 8 + (4 + -2 / 2) ∧
    onBoard 8 (6 + 0 / 2, 4 + -2 / 2) ∧
    (6 + 0 / 2) * 8 + (4 + -2 / 2) ≠ (6 : Int) * 8 + 4 ∧
    (6 + 0 / 2) * 8 + (4 + -2 / 2) ≠ ((6 : Int) + 0) * 8 + (4 + -2) :=
  ⟨by decide, by decide, by decide, by decide, by decide, by decide,
    midpoint_between false 8 6 4 (-2) 0 6 (by decide) (by decide) (by decide)
      (by decide) (by decide) (by decide)⟩

end minizero
